import Mathlib

set_option maxRecDepth 8192

/-!
Verification development for the bibliotek reconciliation core.

The definitions below are a shallow embedding of the Rust sources:
  - src/commonplace/lib.rs : content hashers and the Syncable Store
    (libsql-backed CRUD; here the database is an explicit in-memory state),
  - src/sync.rs            : SyncResult / SyncStats classification helpers,
  - src/light/handler.rs   : the sync_highlights endpoint,
  - src/research/handler.rs: the sync_all_entities cascade.

Store calls are modelled as total functions (the per-record I/O error branches
of the Rust code correspond to no transition of the pure model; the branches
are kept where they shape control flow). Timestamps are a logical clock
(a Nat bumped on every write).  SQLite note: the sweep queries use
LIKE 'source:%'; we model the literal prefix match (ASCII case folding and
wildcard characters inside the source name are not modelled; every claim is
settled on lowercase wildcard-free sources).
-/

/-! SHA-256 (FIPS 180-4), the digest used by the sha2 crate in
compute_*_hash.  Bytes are Nat values below 256; words are Nat values
below 2 ^ 32. -/

def m32 : Nat := 4294967296

def add32 (a b : Nat) : Nat := (a + b) % m32

def rotr32 (n x : Nat) : Nat := (x / 2 ^ n + (x % 2 ^ n) * 2 ^ (32 - n)) % m32

def shr32 (n x : Nat) : Nat := x / 2 ^ n

def not32 (x : Nat) : Nat := (m32 - 1) ^^^ x

def chF (x y z : Nat) : Nat := (x &&& y) ^^^ (not32 x &&& z)

def majF (x y z : Nat) : Nat := (x &&& y) ^^^ (x &&& z) ^^^ (y &&& z)

def bigSigma0 (x : Nat) : Nat := rotr32 2 x ^^^ rotr32 13 x ^^^ rotr32 22 x

def bigSigma1 (x : Nat) : Nat := rotr32 6 x ^^^ rotr32 11 x ^^^ rotr32 25 x

def smallSigma0 (x : Nat) : Nat := rotr32 7 x ^^^ rotr32 18 x ^^^ shr32 3 x

def smallSigma1 (x : Nat) : Nat := rotr32 17 x ^^^ rotr32 19 x ^^^ shr32 10 x

def sha256K : List Nat :=
  [1116352408, 1899447441, 3049323471, 3921009573, 961987163, 1508970993,
   2453635748, 2870763221, 3624381080, 310598401, 607225278, 1426881987,
   1925078388, 2162078206, 2614888103, 3248222580, 3835390401, 4022224774,
   264347078, 604807628, 770255983, 1249150122, 1555081692, 1996064986,
   2554220882, 2821834349, 2952996808, 3210313671, 3336571891, 3584528711,
   113926993, 338241895, 666307205, 773529912, 1294757372, 1396182291,
   1695183700, 1986661051, 2177026350, 2456956037, 2730485921, 2820302411,
   3259730800, 3345764771, 3516065817, 3600352804, 4094571909, 275423344,
   430227734, 506948616, 659060556, 883997877, 958139571, 1322822218,
   1537002063, 1747873779, 1955562222, 2024104815, 2227730452, 2361852424,
   2428436474, 2756734187, 3204031479, 3329325298]

structure Hash8 where
  a : Nat
  b : Nat
  c : Nat
  d : Nat
  e : Nat
  f : Nat
  g : Nat
  h : Nat
  deriving DecidableEq

def initH : Hash8 :=
  ⟨1779033703, 3144134277, 1013904242, 2773480762, 1359893119, 2600822924, 528734635, 1541459225⟩

/-- Big-endian byte expansion of a value into exactly n bytes. -/
def bytesBE : Nat → Nat → List Nat
  | 0, _ => []
  | n + 1, v => bytesBE n (v / 256) ++ [v % 256]

/-- Group bytes into 32-bit big-endian words. -/
def toWords : List Nat → List Nat
  | b0 :: b1 :: b2 :: b3 :: rest => (((b0 * 256 + b1) * 256 + b2) * 256 + b3) :: toWords rest
  | _ => []

/-- One extension step of the SHA-256 message schedule. -/
def scheduleStep (w : List Nat) : List Nat :=
  let t := w.length
  w ++ [add32 (add32 (smallSigma1 (w.getD (t - 2) 0)) (w.getD (t - 7) 0))
              (add32 (smallSigma0 (w.getD (t - 15) 0)) (w.getD (t - 16) 0))]

def fullSchedule (w : List Nat) : List Nat := Nat.iterate scheduleStep 48 w

def sha256Round (k w : Nat) (s : Hash8) : Hash8 :=
  let t1 := add32 (add32 (add32 s.h (bigSigma1 s.e)) (add32 (chF s.e s.f s.g) k)) w
  let t2 := add32 (bigSigma0 s.a) (majF s.a s.b s.c)
  ⟨add32 t1 t2, s.a, s.b, s.c, add32 s.d t1, s.e, s.f, s.g⟩

def compressBlock (s : Hash8) (block : List Nat) : Hash8 :=
  let w := fullSchedule (toWords block)
  let r := (sha256K.zip w).foldl (fun acc kw => sha256Round kw.1 kw.2 acc) s
  ⟨add32 s.a r.a, add32 s.b r.b, add32 s.c r.c, add32 s.d r.d,
   add32 s.e r.e, add32 s.f r.f, add32 s.g r.g, add32 s.h r.h⟩

/-- SHA-256 padding: 0x80, zeros, then the bit length as 8 big-endian bytes. -/
def padMessage (msg : List Nat) : List Nat :=
  let z := (64 - (msg.length + 9) % 64) % 64
  msg ++ [0x80] ++ List.replicate z 0 ++ bytesBE 8 (msg.length * 8)

def splitBlocksN : Nat → List Nat → List (List Nat)
  | 0, _ => []
  | _ + 1, [] => []
  | n + 1, l => l.take 64 :: splitBlocksN n (l.drop 64)

/-- Cut a byte list into 64-byte blocks (the fuel argument, one unit per
consumed block, keeps the recursion structural; the list length always
suffices since every block consumes at least one byte). -/
def splitBlocks (l : List Nat) : List (List Nat) := splitBlocksN l.length l

def hexDigit (n : Nat) : Char := if n < 10 then Char.ofNat (48 + n) else Char.ofNat (87 + n)

def byteToHex (b : Nat) : List Char := [hexDigit (b / 16), hexDigit (b % 16)]

def hash8Bytes (s : Hash8) : List Nat :=
  bytesBE 4 s.a ++ bytesBE 4 s.b ++ bytesBE 4 s.c ++ bytesBE 4 s.d ++
  bytesBE 4 s.e ++ bytesBE 4 s.f ++ bytesBE 4 s.g ++ bytesBE 4 s.h

/-- Lowercase hex SHA-256 digest of a byte list, as produced by the Rust
code's format string applied to the sha2 crate's output. -/
def sha256hex (msg : List Nat) : String :=
  String.mk (((hash8Bytes ((splitBlocks (padMessage msg)).foldl compressBlock initH)).map byteToHex).flatten)

/-- UTF-8 bytes of a character, as in Rust's str::as_bytes. -/
def utf8Bytes (c : Char) : List Nat :=
  let n := c.toNat
  if n < 0x80 then [n]
  else if n < 0x800 then [0xC0 + n / 64, 0x80 + n % 64]
  else if n < 0x10000 then [0xE0 + n / 4096, 0x80 + (n / 64) % 64, 0x80 + n % 64]
  else [0xF0 + n / 262144, 0x80 + (n / 4096) % 64, 0x80 + (n / 64) % 64, 0x80 + n % 64]

/-- UTF-8 bytes of a string (Rust String::as_bytes). -/
def strBytes (s : String) : List Nat := (s.data.map utf8Bytes).flatten

/-! Content hashers from src/commonplace/lib.rs, lines 11-36.  Each feeds the
UTF-8 bytes of its semantic fields to a SHA-256 hasher, omitting an absent
optional field, and hex-encodes the digest. -/

/-- Exact byte stream fed to the hasher by compute_annotation_hash:
the text bytes followed by the color bytes when the color is present
(no separator between the two fields). -/
def annotationHashInput (text : String) (color : Option String) : List Nat :=
  strBytes text ++ (match color with | some c => strBytes c | none => [])

/-- Models compute_annotation_hash (src/commonplace/lib.rs lines 17-24). -/
def computeAnnotationHash (text : String) (color : Option String) : String :=
  sha256hex (annotationHashInput text color)

/-- Models compute_resource_hash (src/commonplace/lib.rs lines 11-15). -/
def computeResourceHash (title : String) : String := sha256hex (strBytes title)

/-- Models compute_comment_hash (src/commonplace/lib.rs lines 26-30). -/
def computeCommentHash (content : String) : String := sha256hex (strBytes content)

/-- Models compute_note_hash (src/commonplace/lib.rs lines 32-36). -/
def computeNoteHash (content : String) : String := sha256hex (strBytes content)

/-! Data model, from the structs of src/commonplace/lib.rs.  The Rust
Annotation type and its helpers are rendered here as Annot (the original
spelling collides with a reserved word of the proof checker's surface
syntax); ids are the store-assigned integers, timestamps are logical-clock
values. -/

inductive ResourceType
  | website
  | pdf
  deriving DecidableEq

/-- Resource config JSON (ResourceConfig): chapter map, untouched by sync. -/
def ResourceConfig : Type := List (String × (String × Int × Int))

instance : DecidableEq ResourceConfig := by
  unfold ResourceConfig
  infer_instance

/-- The boundary JSON column of an annotation row.  The light handler stores
the object built at src/light/handler.rs lines 90-95 / 125-130; the research
handler stores the object built at src/research/handler.rs lines 523-527
(whose source field is the constant "research"). -/
inductive Boundary
  | light (groupID : Int) (date : String) (chunks : List String) (url : String)
  | research (pageNumber : Option Int) (position : Option String)
  deriving DecidableEq

structure Resource where
  id : Nat
  title : String
  resource_type : ResourceType
  external_id : Option String
  content_hash : Option String
  config : Option ResourceConfig
  deleted_at : Option Nat
  created_at : Nat
  updated_at : Nat
  deriving DecidableEq

/-- The Annotation row struct of src/commonplace/lib.rs lines 97-109. -/
structure Annot where
  id : Nat
  resource_id : Nat
  text : String
  color : Option String
  boundary : Option Boundary
  external_id : Option String
  content_hash : Option String
  deleted_at : Option Nat
  created_at : Nat
  updated_at : Nat
  deriving DecidableEq

structure Comment where
  id : Nat
  annotation_id : Nat
  content : String
  external_id : Option String
  content_hash : Option String
  deleted_at : Option Nat
  created_at : Nat
  updated_at : Nat
  deriving DecidableEq

structure Note where
  id : Nat
  resource_id : Nat
  content : String
  external_id : Option String
  content_hash : Option String
  deleted_at : Option Nat
  created_at : Nat
  updated_at : Nat
  deriving DecidableEq

/-- The database state behind a Commonplace connection: one table per entity
kind in row order, the next rowid per table, and a logical clock standing in
for strftime now, bumped on every write statement. -/
structure Store where
  resources : List Resource
  annotations : List Annot
  comments : List Comment
  notes : List Note
  nextResourceId : Nat
  nextAnnotId : Nat
  nextCommentId : Nat
  nextNoteId : Nat
  time : Nat
  deriving DecidableEq

def emptyStore : Store :=
  { resources := [], annotations := [], comments := [], notes := [],
    nextResourceId := 1, nextAnnotId := 1, nextCommentId := 1, nextNoteId := 1, time := 0 }

/-! Input structs (Create*/Update*) of src/commonplace/lib.rs. -/

structure CreateResource where
  title : String
  resource_type : ResourceType
  external_id : Option String
  content_hash : Option String

structure UpdateResource where
  title : Option String
  resource_type : Option ResourceType
  content_hash : Option String
  config : Option ResourceConfig

structure CreateAnnot where
  resource_id : Nat
  text : String
  color : Option String
  boundary : Option Boundary
  external_id : Option String
  content_hash : Option String

structure UpdateAnnot where
  text : Option String
  color : Option String
  boundary : Option Boundary
  content_hash : Option String

structure CreateComment where
  annotation_id : Nat
  content : String
  external_id : Option String
  content_hash : Option String

structure UpdateComment where
  content : String
  content_hash : Option String

structure CreateNote where
  resource_id : Nat
  content : String
  external_id : Option String
  content_hash : Option String

structure UpdateNote where
  content : String
  content_hash : Option String

/-- The LIKE pattern of find_*_by_source_prefix: external_id LIKE
'source:%', i.e. the id starts with the source name and a colon. -/
def likeSourceMatch (src eid : String) : Bool :=
  List.isPrefixOf (src ++ ":").data eid.data

/-! Store operations: one Lean function per Commonplace method of
src/commonplace/lib.rs that the sync paths use.  A SELECT returning at most
one row is modelled by find? over the table in row order; INSERT appends at
the end with the next rowid; UPDATE maps across the rows of the WHERE set
and bumps the clock. -/

/-- Models create_resource (lib.rs lines 267-292): INSERT with NULL config
and deleted_at, RETURNING the new row. -/
def Store.createResource (st : Store) (input : CreateResource) : Store × Resource :=
  let r : Resource :=
    { id := st.nextResourceId, title := input.title, resource_type := input.resource_type,
      external_id := input.external_id, content_hash := input.content_hash,
      config := none, deleted_at := none, created_at := st.time, updated_at := st.time }
  ({ st with resources := st.resources ++ [r], nextResourceId := st.nextResourceId + 1,
             time := st.time + 1 }, r)

/-- Models get_resource (lib.rs lines 294-301): live row by id. -/
def Store.getResource (st : Store) (id : Nat) : Option Resource :=
  st.resources.find? (fun r => r.id == id && r.deleted_at == none)

/-- Models find_resource_by_title (lib.rs lines 303-310): first live row
with the given title. -/
def Store.findResourceByTitle (st : Store) (title : String) : Option Resource :=
  st.resources.find? (fun r => r.title == title && r.deleted_at == none)

/-- Models find_resource_by_external_id (lib.rs lines 312-319). -/
def Store.findResourceByExternalId (st : Store) (eid : String) : Option Resource :=
  st.resources.find? (fun r => r.external_id == some eid && r.deleted_at == none)

/-- Models find_resources_by_source_prefix (lib.rs lines 321-336): live rows
whose external_id matches the source pattern (a NULL external_id never
matches LIKE). -/
def Store.findResourcesBySource (st : Store) (src : String) : List Resource :=
  st.resources.filter (fun r =>
    (match r.external_id with | some e => likeSourceMatch src e | none => false)
    && r.deleted_at == none)

def applyResourceUpdate (r : Resource) (u : UpdateResource) (now : Nat) : Resource :=
  { r with
    title := u.title.getD r.title,
    resource_type := u.resource_type.getD r.resource_type,
    content_hash := match u.content_hash with | some h => some h | none => r.content_hash,
    config := match u.config with | some c => some c | none => r.config,
    updated_at := now }

/-- Models update_resource (lib.rs lines 374-411): None when no live row has
the id; with no fields set, a read-back without a write; otherwise an UPDATE
of the provided fields plus updated_at on the live row, then a read-back. -/
def Store.updateResource (st : Store) (id : Nat) (u : UpdateResource) :
    Store × Option Resource :=
  match st.getResource id with
  | none => (st, none)
  | some _ =>
    if u.title == none && u.resource_type == none && u.content_hash == none
        && u.config == none then
      (st, st.getResource id)
    else
      let st' := { st with
        resources := st.resources.map (fun r =>
          if r.id == id && r.deleted_at == none then applyResourceUpdate r u st.time else r),
        time := st.time + 1 }
      (st', st'.getResource id)

/-- Models soft_delete_resource (lib.rs lines 454-462): UPDATE resources SET
deleted_at = now WHERE id = ?, with no liveness filter; true iff any row
(live or already soft-deleted) had the id. -/
def Store.softDeleteResource (st : Store) (id : Nat) : Store × Bool :=
  ({ st with
     resources := st.resources.map (fun r =>
       if r.id == id then { r with deleted_at := some st.time } else r),
     time := st.time + 1 },
   st.resources.any (fun r => r.id == id))

/-- Models create_annotation (lib.rs lines 464-493). -/
def Store.createAnnot (st : Store) (input : CreateAnnot) : Store × Annot :=
  let a : Annot :=
    { id := st.nextAnnotId, resource_id := input.resource_id, text := input.text,
      color := input.color, boundary := input.boundary, external_id := input.external_id,
      content_hash := input.content_hash, deleted_at := none,
      created_at := st.time, updated_at := st.time }
  ({ st with annotations := st.annotations ++ [a], nextAnnotId := st.nextAnnotId + 1,
             time := st.time + 1 }, a)

/-- Models get_annotation (lib.rs lines 495-508). -/
def Store.getAnnot (st : Store) (id : Nat) : Option Annot :=
  st.annotations.find? (fun a => a.id == id && a.deleted_at == none)

/-- Models find_annotation_by_external_id (lib.rs lines 510-523): first live
row with the given external id. -/
def Store.findAnnotByExternalId (st : Store) (eid : String) : Option Annot :=
  st.annotations.find? (fun a => a.external_id == some eid && a.deleted_at == none)

/-- Models find_annotations_by_source_prefix (lib.rs lines 525-553): live
rows matching the source pattern, optionally restricted to one parent
resource id. -/
def Store.findAnnotsBySource (st : Store) (src : String) (rid : Option Nat) : List Annot :=
  st.annotations.filter (fun a =>
    (match a.external_id with | some e => likeSourceMatch src e | none => false)
    && a.deleted_at == none
    && (match rid with | some i => a.resource_id == i | none => true))

def applyAnnotUpdate (a : Annot) (u : UpdateAnnot) (now : Nat) : Annot :=
  { a with
    text := u.text.getD a.text,
    color := match u.color with | some c => some c | none => a.color,
    boundary := match u.boundary with | some b => some b | none => a.boundary,
    content_hash := match u.content_hash with | some h => some h | none => a.content_hash,
    updated_at := now }

/-- Models update_annotation (lib.rs lines 573-610). -/
def Store.updateAnnot (st : Store) (id : Nat) (u : UpdateAnnot) : Store × Option Annot :=
  match st.getAnnot id with
  | none => (st, none)
  | some _ =>
    if u.text == none && u.color == none && u.boundary == none && u.content_hash == none then
      (st, st.getAnnot id)
    else
      let st' := { st with
        annotations := st.annotations.map (fun a =>
          if a.id == id && a.deleted_at == none then applyAnnotUpdate a u st.time else a),
        time := st.time + 1 }
      (st', st'.getAnnot id)

/-- Models soft_delete_annotation (lib.rs lines 638-646): UPDATE with no
liveness filter; true iff any row had the id. -/
def Store.softDeleteAnnot (st : Store) (id : Nat) : Store × Bool :=
  ({ st with
     annotations := st.annotations.map (fun a =>
       if a.id == id then { a with deleted_at := some st.time } else a),
     time := st.time + 1 },
   st.annotations.any (fun a => a.id == id))

/-- Models create_comment (lib.rs lines 648-673). -/
def Store.createComment (st : Store) (input : CreateComment) : Store × Comment :=
  let c : Comment :=
    { id := st.nextCommentId, annotation_id := input.annotation_id,
      content := input.content, external_id := input.external_id,
      content_hash := input.content_hash, deleted_at := none,
      created_at := st.time, updated_at := st.time }
  ({ st with comments := st.comments ++ [c], nextCommentId := st.nextCommentId + 1,
             time := st.time + 1 }, c)

/-- Models get_comment (lib.rs lines 675-688). -/
def Store.getComment (st : Store) (id : Nat) : Option Comment :=
  st.comments.find? (fun c => c.id == id && c.deleted_at == none)

/-- Models find_comment_by_external_id (lib.rs lines 690-703). -/
def Store.findCommentByExternalId (st : Store) (eid : String) : Option Comment :=
  st.comments.find? (fun c => c.external_id == some eid && c.deleted_at == none)

/-- Models find_comments_by_source_prefix (lib.rs lines 705-721). -/
def Store.findCommentsBySource (st : Store) (src : String) : List Comment :=
  st.comments.filter (fun c =>
    (match c.external_id with | some e => likeSourceMatch src e | none => false)
    && c.deleted_at == none)

/-- Models update_comment (lib.rs lines 741-761): the content column is
always written, content_hash when provided. -/
def Store.updateComment (st : Store) (id : Nat) (u : UpdateComment) : Store × Option Comment :=
  match st.getComment id with
  | none => (st, none)
  | some _ =>
    let st' := { st with
      comments := st.comments.map (fun c =>
        if c.id == id && c.deleted_at == none then
          { c with content := u.content,
                   content_hash := match u.content_hash with
                                   | some h => some h
                                   | none => c.content_hash,
                   updated_at := st.time }
        else c),
      time := st.time + 1 }
    (st', st'.getComment id)

/-- Models soft_delete_comment (lib.rs lines 784-792). -/
def Store.softDeleteComment (st : Store) (id : Nat) : Store × Bool :=
  ({ st with
     comments := st.comments.map (fun c =>
       if c.id == id then { c with deleted_at := some st.time } else c),
     time := st.time + 1 },
   st.comments.any (fun c => c.id == id))

/-- Models create_note (lib.rs lines 794-811). -/
def Store.createNote (st : Store) (input : CreateNote) : Store × Note :=
  let n : Note :=
    { id := st.nextNoteId, resource_id := input.resource_id,
      content := input.content, external_id := input.external_id,
      content_hash := input.content_hash, deleted_at := none,
      created_at := st.time, updated_at := st.time }
  ({ st with notes := st.notes ++ [n], nextNoteId := st.nextNoteId + 1,
             time := st.time + 1 }, n)

/-- Models get_note (lib.rs lines 813-826). -/
def Store.getNote (st : Store) (id : Nat) : Option Note :=
  st.notes.find? (fun n => n.id == id && n.deleted_at == none)

/-- Models find_note_by_external_id (lib.rs lines 828-841). -/
def Store.findNoteByExternalId (st : Store) (eid : String) : Option Note :=
  st.notes.find? (fun n => n.external_id == some eid && n.deleted_at == none)

/-- Models find_notes_by_source_prefix (lib.rs lines 843-859). -/
def Store.findNotesBySource (st : Store) (src : String) : List Note :=
  st.notes.filter (fun n =>
    (match n.external_id with | some e => likeSourceMatch src e | none => false)
    && n.deleted_at == none)

/-- Models update_note (lib.rs lines 879-899). -/
def Store.updateNote (st : Store) (id : Nat) (u : UpdateNote) : Store × Option Note :=
  match st.getNote id with
  | none => (st, none)
  | some _ =>
    let st' := { st with
      notes := st.notes.map (fun n =>
        if n.id == id && n.deleted_at == none then
          { n with content := u.content,
                   content_hash := match u.content_hash with
                                   | some h => some h
                                   | none => n.content_hash,
                   updated_at := st.time }
        else n),
      time := st.time + 1 }
    (st', st'.getNote id)

/-- Models soft_delete_note (lib.rs lines 922-930). -/
def Store.softDeleteNote (st : Store) (id : Nat) : Store × Bool :=
  ({ st with
     notes := st.notes.map (fun n =>
       if n.id == id then { n with deleted_at := some st.time } else n),
     time := st.time + 1 },
   st.notes.any (fun n => n.id == id))

/-! Ghost trace of store writes and lookup hits, used to state ordering and
cascade-integrity properties of the handlers.  Found events mark a
successful parent lookup; Created/Updated/Deleted events mark writes. -/

inductive Ev
  | resCreated (id : Nat)
  | resFound (id : Nat)
  | resUpdated (id : Nat)
  | resDeleted (id : Nat)
  | annCreated (id : Nat) (rid : Nat)
  | annFound (id : Nat)
  | annUpdated (id : Nat)
  | annDeleted (id : Nat)
  | comCreated (id : Nat) (aid : Nat)
  | comFound (id : Nat)
  | comUpdated (id : Nat)
  | comDeleted (id : Nat)
  | noteCreated (id : Nat) (rid : Nat)
  | noteFound (id : Nat)
  | noteUpdated (id : Nat)
  | noteDeleted (id : Nat)
  deriving DecidableEq

/-! The Light extension sync endpoint, src/light/handler.rs.  The request's
highlights map is carried as an association list (the Rust HashMap iterates
in an unspecified order, so the list order is part of the input); the seen
set of external ids is carried as a list queried only through contains. -/

structure LightHighlight where
  chunks : List String
  date : String
  group_id : Int
  repr : String
  url : String

structure LightSyncRequest where
  source : String
  scope : Option String
  highlights : List (String × List LightHighlight)

/-- The response counters of the light endpoint (SyncResponse of
src/light/handler.rs lines 34-41). -/
structure LightSyncResponse where
  resources_created : Nat
  annotations_created : Nat
  annotations_updated : Nat
  annotations_deleted : Nat
  annotations_unchanged : Nat
  deriving DecidableEq

def LightSyncResponse.zero : LightSyncResponse := ⟨0, 0, 0, 0, 0⟩

/-- Running state of one sync_highlights call: the store, the five mutable
counters, the seen set of external ids, and the ghost trace. -/
structure LightPass where
  store : Store
  resp : LightSyncResponse
  seen : List String
  trace : List Ev

/-- Models find_or_create_resource (src/light/handler.rs lines 213-234):
find a live resource by title (the URL), else create one of type Website
with external_id None and the title hash; returns (id, created?). -/
def findOrCreateResource (st : Store) (url : String) : Store × Nat × Bool × List Ev :=
  match st.findResourceByTitle url with
  | some r => (st, r.id, false, [Ev.resFound r.id])
  | none =>
    let (st', r) := st.createResource
      { title := url, resource_type := ResourceType.website,
        external_id := none, content_hash := some (computeResourceHash url) }
    (st', r.id, true, [Ev.resCreated r.id])

def lightBoundary (h : LightHighlight) : Boundary :=
  Boundary.light h.group_id h.date h.chunks h.url

/-- One iteration of the inner highlight loop of sync_highlights
(src/light/handler.rs lines 81-155): compute external id and content hash,
record the id as seen, then find / update / create the annotation. -/
def processHighlight (source : String) (rid : Nat) (p : LightPass) (h : LightHighlight) :
    LightPass :=
  let eid := source ++ ":" ++ toString h.group_id
  let ch := computeAnnotationHash h.repr (some "yellow")
  let p := { p with seen := p.seen ++ [eid] }
  match p.store.findAnnotByExternalId eid with
  | some existing =>
    if existing.content_hash != some ch then
      match p.store.updateAnnot existing.id
        { text := some h.repr, color := some "yellow",
          boundary := some (lightBoundary h), content_hash := some ch } with
      | (st', some _) =>
        { p with store := st',
                 resp := { p.resp with annotations_updated := p.resp.annotations_updated + 1 },
                 trace := p.trace ++ [Ev.annFound existing.id, Ev.annUpdated existing.id] }
      | (st', none) =>
        { p with store := st', trace := p.trace ++ [Ev.annFound existing.id] }
    else
      { p with resp := { p.resp with annotations_unchanged := p.resp.annotations_unchanged + 1 },
               trace := p.trace ++ [Ev.annFound existing.id] }
  | none =>
    let (st', created) := p.store.createAnnot
      { resource_id := rid, text := h.repr, color := some "yellow",
        boundary := some (lightBoundary h), external_id := some eid,
        content_hash := some ch }
    { p with store := st',
             resp := { p.resp with annotations_created := p.resp.annotations_created + 1 },
             trace := p.trace ++ [Ev.annCreated created.id rid] }

def processHighlightList (source : String) (rid : Nat) (p : LightPass) :
    List LightHighlight → LightPass
  | [] => p
  | h :: rest => processHighlightList source rid (processHighlight source rid p h) rest

/-- One iteration of the outer URL loop of sync_highlights (lines 67-156):
find or create the resource for the URL, then upsert its highlights. -/
def processUrlGroup (source : String) (p : LightPass) (g : String × List LightHighlight) :
    LightPass :=
  let (st', rid, created, evs) := findOrCreateResource p.store g.1
  let p := { p with store := st',
                    resp := if created then
                        { p.resp with resources_created := p.resp.resources_created + 1 }
                      else p.resp,
                    trace := p.trace ++ evs }
  processHighlightList source rid p g.2

def processUrlGroups (source : String) (p : LightPass) :
    List (String × List LightHighlight) → LightPass
  | [] => p
  | g :: rest => processUrlGroups source (processUrlGroup source p g) rest

/-- One iteration of the orphan loop of sync_highlights (lines 181-197):
rows whose external id (empty string when NULL) is not in seen are
soft-deleted; a true result increments the deleted counter. -/
def sweepOrphan (p : LightPass) (o : Annot) : LightPass :=
  if !(p.seen.contains (o.external_id.getD "")) then
    match p.store.softDeleteAnnot o.id with
    | (st', true) =>
      { p with store := st',
               resp := { p.resp with annotations_deleted := p.resp.annotations_deleted + 1 },
               trace := p.trace ++ [Ev.annDeleted o.id] }
    | (st', false) => { p with store := st' }
  else p

def sweepOrphans (p : LightPass) : List Annot → LightPass
  | [] => p
  | o :: rest => sweepOrphans (sweepOrphan p o) rest

/-- Models sync_highlights (src/light/handler.rs lines 52-211).  Phase 1
upserts every highlight group; phase 2 resolves the optional scope to a
resource id (None both when no scope was given and when the scope title
does not resolve — in the latter case the code logs a skip warning but
still issues the sweep, unscoped) and soft-deletes unseen source-matching
annotations. -/
def syncHighlights (st : Store) (req : LightSyncRequest) :
    Store × LightSyncResponse × List Ev :=
  let p : LightPass := { store := st, resp := LightSyncResponse.zero, seen := [], trace := [] }
  let p := processUrlGroups req.source p req.highlights
  let oqrid : Option Nat :=
    match req.scope with
    | some scopeUrl =>
      match p.store.findResourceByTitle scopeUrl with
      | some r => some r.id
      | none => none
    | none => none
  let orphans := p.store.findAnnotsBySource req.source oqrid
  let p := sweepOrphans p orphans
  (p.store, p.resp, p.trace)

/-! The research sync cascade, src/research/handler.rs.  The read-only
research database is modelled by its row lists; the per-item fetches are
the WHERE item_id / annotation_id filters of fetch_research_*. -/

structure ResearchItem where
  id : String
  title : String

/-- A row of the research annotations table as fetched by
fetch_research_annotations (src/research/handler.rs lines 964-993),
keyed by its item. -/
structure ResearchAnnotRow where
  item_id : String
  id : String
  text : String
  color : Option String
  page_number : Option Int
  position : Option String

structure ResearchCommentRow where
  annotation_id : String
  id : String
  content : String

structure ResearchNoteRow where
  item_id : String
  id : String
  content : String

structure ResearchDb where
  annotations : List ResearchAnnotRow
  comments : List ResearchCommentRow
  notes : List ResearchNoteRow

/-- Models fetch_research_annotations: SELECT ... WHERE item_id = ?. -/
def fetchResearchAnnots (db : ResearchDb) (itemId : String) : List ResearchAnnotRow :=
  db.annotations.filter (fun a => a.item_id == itemId)

/-- Models fetch_research_comments: SELECT ... WHERE annotation_id = ?. -/
def fetchResearchComments (db : ResearchDb) (annId : String) : List ResearchCommentRow :=
  db.comments.filter (fun c => c.annotation_id == annId)

/-- Models fetch_research_notes: SELECT ... WHERE item_id = ?. -/
def fetchResearchNotes (db : ResearchDb) (itemId : String) : List ResearchNoteRow :=
  db.notes.filter (fun n => n.item_id == itemId)

/-- The per-kind counters of src/research/handler.rs lines 30-51 (the
SyncStats struct, also the shape of src/sync.rs lines 42-48): created,
updated, deleted, unchanged — and nothing else. -/
structure SyncStats where
  created : Nat
  updated : Nat
  deleted : Nat
  unchanged : Nat
  deriving DecidableEq

def SyncStats.zero : SyncStats := ⟨0, 0, 0, 0⟩

def SyncStats.addCreated (s : SyncStats) : SyncStats := { s with created := s.created + 1 }

def SyncStats.addUpdated (s : SyncStats) : SyncStats := { s with updated := s.updated + 1 }

def SyncStats.addDeleted (s : SyncStats) : SyncStats := { s with deleted := s.deleted + 1 }

def SyncStats.addUnchanged (s : SyncStats) : SyncStats :=
  { s with unchanged := s.unchanged + 1 }

/-- The per-record classification (SyncResult of src/sync.rs lines 4-9 and
src/research/handler.rs lines 140-145). -/
inductive SyncRes (α : Type)
  | created (x : α)
  | updated (x : α)
  | unchanged (x : α)
  | error
  deriving DecidableEq

/-- Models SyncResult::record (src/sync.rs lines 12-29): bump the counter
for the classification and pass the id on; an Error bumps nothing. -/
def SyncRes.record (r : SyncRes Nat) (stats : SyncStats) : SyncStats × Option Nat :=
  match r with
  | SyncRes.created id => (stats.addCreated, some id)
  | SyncRes.updated id => (stats.addUpdated, some id)
  | SyncRes.unchanged id => (stats.addUnchanged, some id)
  | SyncRes.error => (stats, none)

/-- The flattened 16-counter response of the research sync endpoint
(SyncResponse, src/research/handler.rs lines 53-71). -/
structure RSyncResponse where
  resources_created : Nat
  resources_updated : Nat
  resources_deleted : Nat
  resources_unchanged : Nat
  annotations_created : Nat
  annotations_updated : Nat
  annotations_deleted : Nat
  annotations_unchanged : Nat
  comments_created : Nat
  comments_updated : Nat
  comments_deleted : Nat
  comments_unchanged : Nat
  notes_created : Nat
  notes_updated : Nat
  notes_deleted : Nat
  notes_unchanged : Nat
  deriving DecidableEq

/-- Models SyncResponse::apply_* (src/research/handler.rs lines 73-101):
copy the four per-kind stats into the flat response. -/
def buildRSyncResponse (rs as cs ns : SyncStats) : RSyncResponse :=
  { resources_created := rs.created, resources_updated := rs.updated,
    resources_deleted := rs.deleted, resources_unchanged := rs.unchanged,
    annotations_created := as.created, annotations_updated := as.updated,
    annotations_deleted := as.deleted, annotations_unchanged := as.unchanged,
    comments_created := cs.created, comments_updated := cs.updated,
    comments_deleted := cs.deleted, comments_unchanged := cs.unchanged,
    notes_created := ns.created, notes_updated := ns.updated,
    notes_deleted := ns.deleted, notes_unchanged := ns.unchanged }

/-- Running state of one sync_all_entities call: store, the four SyncStats,
the four seen sets (SeenIds, src/research/handler.rs lines 371-377) and the
ghost trace. -/
structure RPass where
  store : Store
  resStats : SyncStats
  annStats : SyncStats
  comStats : SyncStats
  noteStats : SyncStats
  seenRes : List String
  seenAnn : List String
  seenCom : List String
  seenNote : List String
  trace : List Ev

/-- Models upsert_resource (src/research/handler.rs lines 406-467): find by
external id; equal hash → Unchanged; different hash → update title and
hash; absent → create a Pdf resource carrying the external id. -/
def upsertResource (st : Store) (eid title ch : String) :
    Store × SyncRes Nat × List Ev :=
  match st.findResourceByExternalId eid with
  | some r =>
    if r.content_hash == some ch then
      (st, SyncRes.unchanged r.id, [Ev.resFound r.id])
    else
      match st.updateResource r.id
        { title := some title, resource_type := none,
          content_hash := some ch, config := none } with
      | (st', some _) => (st', SyncRes.updated r.id, [Ev.resFound r.id, Ev.resUpdated r.id])
      | (st', none) => (st', SyncRes.error, [Ev.resFound r.id])
  | none =>
    let (st', r) := st.createResource
      { title := title, resource_type := ResourceType.pdf,
        external_id := some eid, content_hash := some ch }
    (st', SyncRes.created r.id, [Ev.resCreated r.id])

/-- Models sync_resource (src/research/handler.rs lines 379-404): mark the
external id seen, upsert, record the classification into the resource
stats, return the canonical id unless the record errored. -/
def syncResource (p : RPass) (item : ResearchItem) : RPass × Option Nat :=
  let eid := "research:" ++ item.id
  let ch := computeResourceHash item.title
  let p := { p with seenRes := p.seenRes ++ [eid] }
  let (st', res, evs) := upsertResource p.store eid item.title ch
  let p := { p with store := st', trace := p.trace ++ evs }
  match res with
  | SyncRes.created id => ({ p with resStats := p.resStats.addCreated }, some id)
  | SyncRes.updated id => ({ p with resStats := p.resStats.addUpdated }, some id)
  | SyncRes.unchanged id => ({ p with resStats := p.resStats.addUnchanged }, some id)
  | SyncRes.error => (p, none)

/-- Models upsert_annotation (src/research/handler.rs lines 555-619). -/
def upsertAnnot (st : Store) (eid : String) (row : ResearchAnnotRow) (rid : Nat)
    (ch : String) : Store × SyncRes Nat × List Ev :=
  match st.findAnnotByExternalId eid with
  | some a =>
    if a.content_hash == some ch then
      (st, SyncRes.unchanged a.id, [Ev.annFound a.id])
    else
      match st.updateAnnot a.id
        { text := some row.text, color := row.color,
          boundary := some (Boundary.research row.page_number row.position),
          content_hash := some ch } with
      | (st', some _) => (st', SyncRes.updated a.id, [Ev.annFound a.id, Ev.annUpdated a.id])
      | (st', none) => (st', SyncRes.error, [Ev.annFound a.id])
  | none =>
    let (st', a) := st.createAnnot
      { resource_id := rid, text := row.text, color := row.color,
        boundary := some (Boundary.research row.page_number row.position),
        external_id := some eid, content_hash := some ch }
    (st', SyncRes.created a.id, [Ev.annCreated a.id rid])

/-- Models sync_annotation (src/research/handler.rs lines 512-553). -/
def syncAnnot (p : RPass) (row : ResearchAnnotRow) (rid : Nat) : RPass × Option Nat :=
  let eid := "research:" ++ row.id
  let ch := computeAnnotationHash row.text row.color
  let p := { p with seenAnn := p.seenAnn ++ [eid] }
  let (st', res, evs) := upsertAnnot p.store eid row rid ch
  let p := { p with store := st', trace := p.trace ++ evs }
  match res with
  | SyncRes.created id => ({ p with annStats := p.annStats.addCreated }, some id)
  | SyncRes.updated id => ({ p with annStats := p.annStats.addUpdated }, some id)
  | SyncRes.unchanged id => ({ p with annStats := p.annStats.addUnchanged }, some id)
  | SyncRes.error => (p, none)

/-- Models upsert_comment (src/research/handler.rs lines 669-726). -/
def upsertComment (st : Store) (eid content : String) (aid : Nat) (ch : String) :
    Store × SyncRes Nat × List Ev :=
  match st.findCommentByExternalId eid with
  | some c =>
    if c.content_hash == some ch then
      (st, SyncRes.unchanged c.id, [Ev.comFound c.id])
    else
      match st.updateComment c.id { content := content, content_hash := some ch } with
      | (st', some _) => (st', SyncRes.updated c.id, [Ev.comFound c.id, Ev.comUpdated c.id])
      | (st', none) => (st', SyncRes.error, [Ev.comFound c.id])
  | none =>
    let (st', c) := st.createComment
      { annotation_id := aid, content := content,
        external_id := some eid, content_hash := some ch }
    (st', SyncRes.created c.id, [Ev.comCreated c.id aid])

/-- Models sync_comment (src/research/handler.rs lines 642-667). -/
def syncComment (p : RPass) (row : ResearchCommentRow) (aid : Nat) : RPass :=
  let eid := "research:" ++ row.id
  let ch := computeCommentHash row.content
  let p := { p with seenCom := p.seenCom ++ [eid] }
  let (st', res, evs) := upsertComment p.store eid row.content aid ch
  let p := { p with store := st', trace := p.trace ++ evs }
  match res with
  | SyncRes.created _ => { p with comStats := p.comStats.addCreated }
  | SyncRes.updated _ => { p with comStats := p.comStats.addUpdated }
  | SyncRes.unchanged _ => { p with comStats := p.comStats.addUnchanged }
  | SyncRes.error => p

def syncCommentList (p : RPass) (aid : Nat) : List ResearchCommentRow → RPass
  | [] => p
  | c :: rest => syncCommentList (syncComment p c aid) aid rest

/-- Models sync_annotation_comments (src/research/handler.rs lines
621-640): fetch the annotation's comments and upsert each under the
canonical annotation id. -/
def syncAnnotComments (db : ResearchDb) (p : RPass) (row : ResearchAnnotRow)
    (aid : Nat) : RPass :=
  syncCommentList p aid (fetchResearchComments db row.id)

/-- Models upsert_note (src/research/handler.rs lines 768-825). -/
def upsertNote (st : Store) (eid content : String) (rid : Nat) (ch : String) :
    Store × SyncRes Nat × List Ev :=
  match st.findNoteByExternalId eid with
  | some n =>
    if n.content_hash == some ch then
      (st, SyncRes.unchanged n.id, [Ev.noteFound n.id])
    else
      match st.updateNote n.id { content := content, content_hash := some ch } with
      | (st', some _) => (st', SyncRes.updated n.id, [Ev.noteFound n.id, Ev.noteUpdated n.id])
      | (st', none) => (st', SyncRes.error, [Ev.noteFound n.id])
  | none =>
    let (st', n) := st.createNote
      { resource_id := rid, content := content,
        external_id := some eid, content_hash := some ch }
    (st', SyncRes.created n.id, [Ev.noteCreated n.id rid])

/-- Models sync_note (src/research/handler.rs lines 749-766). -/
def syncNote (p : RPass) (row : ResearchNoteRow) (rid : Nat) : RPass :=
  let eid := "research:" ++ row.id
  let ch := computeNoteHash row.content
  let p := { p with seenNote := p.seenNote ++ [eid] }
  let (st', res, evs) := upsertNote p.store eid row.content rid ch
  let p := { p with store := st', trace := p.trace ++ evs }
  match res with
  | SyncRes.created _ => { p with noteStats := p.noteStats.addCreated }
  | SyncRes.updated _ => { p with noteStats := p.noteStats.addUpdated }
  | SyncRes.unchanged _ => { p with noteStats := p.noteStats.addUnchanged }
  | SyncRes.error => p

def syncNoteList (p : RPass) (rid : Nat) : List ResearchNoteRow → RPass
  | [] => p
  | n :: rest => syncNoteList (syncNote p n rid) rid rest

/-- One iteration of the annotation loop of sync_item_annotations
(src/research/handler.rs lines 486-509): upsert the annotation; on success
sync its comments under the canonical id. -/
def syncAnnotAndComments (db : ResearchDb) (p : RPass) (row : ResearchAnnotRow)
    (rid : Nat) : RPass :=
  match syncAnnot p row rid with
  | (p', some aid) => syncAnnotComments db p' row aid
  | (p', none) => p'

def syncAnnotList (db : ResearchDb) (p : RPass) (rid : Nat) :
    List ResearchAnnotRow → RPass
  | [] => p
  | a :: rest => syncAnnotList db (syncAnnotAndComments db p a rid) rid rest

/-- Models sync_item_annotations (src/research/handler.rs lines 469-510). -/
def syncItemAnnots (db : ResearchDb) (p : RPass) (item : ResearchItem) (rid : Nat) :
    RPass :=
  syncAnnotList db p rid (fetchResearchAnnots db item.id)

/-- Models sync_item_notes (src/research/handler.rs lines 728-747). -/
def syncItemNotes (db : ResearchDb) (p : RPass) (item : ResearchItem) (rid : Nat) :
    RPass :=
  syncNoteList p rid (fetchResearchNotes db item.id)

/-- One iteration of the item loop of sync_all_entities (src/research/
handler.rs lines 325-351): sync the resource; on success sync its
annotations (with comments) and its notes. -/
def syncItem (db : ResearchDb) (p : RPass) (item : ResearchItem) : RPass :=
  match syncResource p item with
  | (p', some rid) => syncItemNotes db (syncItemAnnots db p' item rid) item rid
  | (p', none) => p'

def syncItemList (db : ResearchDb) (p : RPass) : List ResearchItem → RPass
  | [] => p
  | i :: rest => syncItemList db (syncItem db p i) rest

/-- Models is_orphan (src/research/handler.rs lines 928-933 and
src/sync.rs lines 60-62): a row with an external id outside seen. -/
def isOrphan (eid : Option String) (seen : List String) : Bool :=
  match eid with
  | some e => !(seen.contains e)
  | none => false

/-- One iteration of delete_orphan_comments (src/research/handler.rs lines
854-860). -/
def sweepComOrphan (p : RPass) (o : Comment) : RPass :=
  if isOrphan o.external_id p.seenCom then
    match p.store.softDeleteComment o.id with
    | (st', true) =>
      { p with store := st', comStats := p.comStats.addDeleted,
               trace := p.trace ++ [Ev.comDeleted o.id] }
    | (st', false) => { p with store := st' }
  else p

def sweepComOrphanList (p : RPass) : List Comment → RPass
  | [] => p
  | o :: rest => sweepComOrphanList (sweepComOrphan p o) rest

/-- Models delete_orphan_comments (src/research/handler.rs lines 841-861). -/
def deleteOrphanComments (p : RPass) : RPass :=
  sweepComOrphanList p (p.store.findCommentsBySource "research")

/-- One iteration of delete_orphan_annotations (lines 879-885). -/
def sweepAnnOrphan (p : RPass) (o : Annot) : RPass :=
  if isOrphan o.external_id p.seenAnn then
    match p.store.softDeleteAnnot o.id with
    | (st', true) =>
      { p with store := st', annStats := p.annStats.addDeleted,
               trace := p.trace ++ [Ev.annDeleted o.id] }
    | (st', false) => { p with store := st' }
  else p

def sweepAnnOrphanList (p : RPass) : List Annot → RPass
  | [] => p
  | o :: rest => sweepAnnOrphanList (sweepAnnOrphan p o) rest

/-- Models delete_orphan_annotations (src/research/handler.rs lines
863-886); the resource scope argument is None. -/
def deleteOrphanAnnots (p : RPass) : RPass :=
  sweepAnnOrphanList p (p.store.findAnnotsBySource "research" none)

/-- One iteration of delete_orphan_notes (lines 897-903). -/
def sweepNoteOrphan (p : RPass) (o : Note) : RPass :=
  if isOrphan o.external_id p.seenNote then
    match p.store.softDeleteNote o.id with
    | (st', true) =>
      { p with store := st', noteStats := p.noteStats.addDeleted,
               trace := p.trace ++ [Ev.noteDeleted o.id] }
    | (st', false) => { p with store := st' }
  else p

def sweepNoteOrphanList (p : RPass) : List Note → RPass
  | [] => p
  | o :: rest => sweepNoteOrphanList (sweepNoteOrphan p o) rest

/-- Models delete_orphan_notes (src/research/handler.rs lines 888-904). -/
def deleteOrphanNotes (p : RPass) : RPass :=
  sweepNoteOrphanList p (p.store.findNotesBySource "research")

/-- One iteration of delete_orphan_resources (lines 919-925). -/
def sweepResOrphan (p : RPass) (o : Resource) : RPass :=
  if isOrphan o.external_id p.seenRes then
    match p.store.softDeleteResource o.id with
    | (st', true) =>
      { p with store := st', resStats := p.resStats.addDeleted,
               trace := p.trace ++ [Ev.resDeleted o.id] }
    | (st', false) => { p with store := st' }
  else p

def sweepResOrphanList (p : RPass) : List Resource → RPass
  | [] => p
  | o :: rest => sweepResOrphanList (sweepResOrphan p o) rest

/-- Models delete_orphan_resources (src/research/handler.rs lines 906-926). -/
def deleteOrphanResources (p : RPass) : RPass :=
  sweepResOrphanList p (p.store.findResourcesBySource "research")

/-- Models soft_delete_orphans (src/research/handler.rs lines 827-839):
the bottom-up sweep order Comments, Annotations, Notes, Resources. -/
def softDeleteOrphansR (p : RPass) : RPass :=
  deleteOrphanResources (deleteOrphanNotes (deleteOrphanAnnots (deleteOrphanComments p)))

def RPass.init (st : Store) : RPass :=
  { store := st, resStats := SyncStats.zero, annStats := SyncStats.zero,
    comStats := SyncStats.zero, noteStats := SyncStats.zero,
    seenRes := [], seenAnn := [], seenCom := [], seenNote := [], trace := [] }

/-- Models sync_all_entities (src/research/handler.rs lines 312-369): the
top-down upsert cascade over every item, then the bottom-up orphan sweep,
then the stats flattened into the response. -/
def syncAllEntities (st : Store) (db : ResearchDb) (items : List ResearchItem) :
    Store × RSyncResponse × List Ev :=
  let p := syncItemList db (RPass.init st) items
  let p := softDeleteOrphansR p
  (p.store, buildRSyncResponse p.resStats p.annStats p.comStats p.noteStats, p.trace)

/-! General list lemmas used throughout the development. -/

theorem find?_append_some {α} {l₁ : List α} (l₂ : List α) {p : α → Bool} {a : α}
    (h : l₁.find? p = some a) : (l₁ ++ l₂).find? p = some a := by
  rw [List.find?_append, h]
  rfl

theorem find?_append_none {α} {l₁ : List α} (l₂ : List α) {p : α → Bool}
    (h : l₁.find? p = none) : (l₁ ++ l₂).find? p = l₂.find? p := by
  rw [List.find?_append, h]
  rfl

theorem find?_isSome_append {α} {l₁ : List α} (l₂ : List α) {p : α → Bool}
    (h : (l₁.find? p).isSome) : ((l₁ ++ l₂).find? p).isSome := by
  cases hf : l₁.find? p with
  | none => rw [hf] at h ; cases h
  | some a => rw [find?_append_some l₂ hf] ; rfl

/-- When a rewriting function preserves the search predicate pointwise, a
find? over the rewritten list returns the rewritten found element. -/
theorem find?_map_congr {α} (f : α → α) (p : α → Bool) :
    ∀ (l : List α), (∀ x ∈ l, p (f x) = p x) →
      (l.map f).find? p = (l.find? p).map f := by
  intro l
  induction l with
  | nil => intro _ ; rfl
  | cons x t ih =>
    intro h
    have hx := h x (List.mem_cons_self x t)
    simp only [List.map_cons, List.find?]
    rw [hx]
    cases hpx : p x
    · exact ih (fun y hy => h y (List.mem_cons_of_mem _ hy))
    · rfl

theorem nodup_map_eq_of_eq {α β} {f : α → β} {l : List α}
    (hn : (l.map f).Nodup) {x y : α} (hx : x ∈ l) (hy : y ∈ l)
    (hf : f x = f y) : x = y := by
  have := List.inj_on_of_nodup_map hn
  exact this hx hy hf

/-! Claim C4: purity and field-sensitivity of the content hasher. -/

/-- Claim C4, counterexample.  The hasher concatenates the text bytes and
the color bytes with no separator, so the inputs (text "ab", color "c") and
(text "a", color "bc") — which differ in both semantic fields — feed the
identical byte stream "abc" to the digest and hash identically, refuting
that any change to a semantic field changes the output. -/
theorem C4_hash_collision_cex :
    ("ab" : String) ≠ "a" ∧ (some "c" : Option String) ≠ some "bc" ∧
    computeAnnotationHash "ab" (some "c") = computeAnnotationHash "a" (some "bc") :=
  ⟨by decide, by decide, by decide⟩

/-- Claim C4, amended.  The content hasher is a pure function — hashing the
same input twice yields the same hex string — and its output depends only
on the concatenated byte stream of the semantic fields (text bytes then
color bytes, absent color omitted); inputs that differ in a semantic field
therefore need not hash differently when their concatenations coincide. -/
theorem C4_hash_pure_and_stream_determined :
    (∀ (t : String) (c : Option String),
        computeAnnotationHash t c = computeAnnotationHash t c) ∧
    (∀ (t₁ : String) (c₁ : Option String) (t₂ : String) (c₂ : Option String),
        annotationHashInput t₁ c₁ = annotationHashInput t₂ c₂ →
        computeAnnotationHash t₁ c₁ = computeAnnotationHash t₂ c₂) ∧
    (∀ s : String, computeResourceHash s = computeResourceHash s) ∧
    (∀ s : String, computeCommentHash s = computeCommentHash s) ∧
    (∀ s : String, computeNoteHash s = computeNoteHash s) :=
  ⟨fun _ _ => rfl,
   fun _ _ _ _ h => congrArg sha256hex h,
   fun _ => rfl, fun _ => rfl, fun _ => rfl⟩

/-- Claim C4, witness: the amended theorem applied to the colliding
concrete pair. -/
theorem C4_hash_witness :
    computeAnnotationHash "ab" (some "c") = computeAnnotationHash "a" (some "bc") :=
  C4_hash_pure_and_stream_determined.2.1 "ab" (some "c") "a" (some "bc") (by decide)

/-! Claim C5: the soft_delete contract. -/

def c5CexAnnot : Annot :=
  { id := 1, resource_id := 1, text := "t", color := none, boundary := none,
    external_id := some "src:1", content_hash := none,
    deleted_at := some 0, created_at := 0, updated_at := 0 }

def c5CexStore : Store :=
  { emptyStore with annotations := [c5CexAnnot], nextAnnotId := 2, time := 1 }

/-- Claim C5, counterexample.  In a store whose only row with id 1 is
already soft-deleted (no live row exists), soft_delete_annotation still
returns true — its UPDATE has no deleted_at IS NULL filter — refuting
that Ok(false) is returned when the row was already soft-deleted. -/
theorem C5_soft_delete_cex :
    (∀ a ∈ c5CexStore.annotations, a.deleted_at ≠ none) ∧
    (c5CexStore.softDeleteAnnot 1).2 = true := by
  decide

/-- Claim C5, amended.  soft_delete(id) returns true iff any row with that
id exists — live or already soft-deleted — and (re)stamps deleted_at on
every row with that id; false is returned only when no row has the id.
Stated for the annotation and the resource soft deletes named by the
claim. -/
theorem C5_soft_delete_exists :
    ∀ (st : Store) (id : Nat),
      ((st.softDeleteAnnot id).2 = true ↔ ∃ a ∈ st.annotations, a.id = id) ∧
      (∀ a ∈ (st.softDeleteAnnot id).1.annotations, a.id = id → a.deleted_at = some st.time) ∧
      ((st.softDeleteResource id).2 = true ↔ ∃ r ∈ st.resources, r.id = id) ∧
      (∀ r ∈ (st.softDeleteResource id).1.resources, r.id = id → r.deleted_at = some st.time) := by
  intro st id
  refine ⟨?_, ?_, ?_, ?_⟩
  · simp [Store.softDeleteAnnot, List.any_eq_true]
  · intro a ha hid
    simp only [Store.softDeleteAnnot, List.mem_map] at ha
    obtain ⟨b, _, hb⟩ := ha
    by_cases h : b.id = id
    · simp [h] at hb
      rw [← hb]
    · simp [h] at hb
      rw [← hb] at hid
      exact absurd hid h
  · simp [Store.softDeleteResource, List.any_eq_true]
  · intro r hr hid
    simp only [Store.softDeleteResource, List.mem_map] at hr
    obtain ⟨b, _, hb⟩ := hr
    by_cases h : b.id = id
    · simp [h] at hb
      rw [← hb]
    · simp [h] at hb
      rw [← hb] at hid
      exact absurd hid h

def c5WitAnnot : Annot :=
  { id := 1, resource_id := 1, text := "t", color := none, boundary := none,
    external_id := some "src:1", content_hash := none,
    deleted_at := none, created_at := 0, updated_at := 0 }

def c5WitStore : Store :=
  { emptyStore with annotations := [c5WitAnnot], nextAnnotId := 2, time := 1 }

/-- Claim C5, witness: on a store with one live annotation of id 1, the
amended theorem yields a true soft delete. -/
theorem C5_soft_delete_witness : (c5WitStore.softDeleteAnnot 1).2 = true :=
  ((C5_soft_delete_exists c5WitStore 1).1).mpr ⟨c5WitAnnot, by decide, by decide⟩

/-! Claim C6: the shape of the aggregated sync result. -/

def SyncRes.isCreatedB : SyncRes Nat → Bool
  | SyncRes.created _ => true
  | _ => false

def SyncRes.isUpdatedB : SyncRes Nat → Bool
  | SyncRes.updated _ => true
  | _ => false

def SyncRes.isUnchangedB : SyncRes Nat → Bool
  | SyncRes.unchanged _ => true
  | _ => false

/-- The batch loop of the Reconciler: record every per-record
classification into the running stats, as src/sync.rs lines 12-29 do one
record at a time. -/
def recordAll (rs : List (SyncRes Nat)) (s : SyncStats) : SyncStats :=
  match rs with
  | [] => s
  | r :: rest => recordAll rest (r.record s).1

/-- Claim C6, counterexample.  Recording a per-record failure (the Error
classification) into the stats leaves every counter of the result exactly
as it was: SyncStats carries only the four counters created, updated,
deleted and unchanged, and no error counter exists to be incremented. -/
theorem C6_error_not_counted_cex :
    SyncRes.record (SyncRes.error : SyncRes Nat) ⟨1, 2, 3, 4⟩ = (⟨1, 2, 3, 4⟩, none) := by
  decide

/-- Claim C6, amended.  The aggregated result carries four counters —
created, updated, deleted, unchanged; over any batch of classifications
each of the three upsert counters grows by exactly the number of matching
classifications, the deleted counter is untouched by recording, and Error
classifications increment nothing (they are logged and dropped from the
result). -/
theorem C6_four_counters :
    ∀ (rs : List (SyncRes Nat)) (s : SyncStats),
      (recordAll rs s).created = s.created + rs.countP SyncRes.isCreatedB ∧
      (recordAll rs s).updated = s.updated + rs.countP SyncRes.isUpdatedB ∧
      (recordAll rs s).unchanged = s.unchanged + rs.countP SyncRes.isUnchangedB ∧
      (recordAll rs s).deleted = s.deleted := by
  intro rs
  induction rs with
  | nil => intro s ; simp [recordAll]
  | cons r rest ih =>
    intro s
    obtain ⟨h1, h2, h3, h4⟩ := ih (r.record s).1
    cases r <;>
      simp_all [recordAll, SyncRes.record, List.countP_cons,
        SyncRes.isCreatedB, SyncRes.isUpdatedB, SyncRes.isUnchangedB,
        SyncStats.addCreated, SyncStats.addUpdated, SyncStats.addUnchanged] <;>
      omega

/-- Claim C6, witness: the amended theorem applied to a concrete batch with
one record of each classification, including an Error that is dropped. -/
theorem C6_four_counters_witness :
    (recordAll [SyncRes.created 1, SyncRes.error, SyncRes.unchanged 2] SyncStats.zero).created
        = SyncStats.zero.created + 1 ∧
    (recordAll [SyncRes.created 1, SyncRes.error, SyncRes.unchanged 2] SyncStats.zero).deleted
        = SyncStats.zero.deleted := by
  obtain ⟨h1, _, _, h4⟩ :=
    C6_four_counters [SyncRes.created 1, SyncRes.error, SyncRes.unchanged 2] SyncStats.zero
  exact ⟨h1, h4⟩

/-! Claims C1 and C2: behavior of a scoped sync_highlights call whose scope
string resolves to no resource. -/

def c1Resource : Resource :=
  { id := 1, title := "a", resource_type := ResourceType.website,
    external_id := none, content_hash := none, config := none,
    deleted_at := none, created_at := 0, updated_at := 0 }

def c1Annot : Annot :=
  { id := 1, resource_id := 1, text := "t", color := none, boundary := none,
    external_id := some "ext:9", content_hash := none,
    deleted_at := none, created_at := 0, updated_at := 0 }

def c1Store : Store :=
  { resources := [c1Resource], annotations := [c1Annot], comments := [], notes := [],
    nextResourceId := 2, nextAnnotId := 2, nextCommentId := 1, nextNoteId := 1, time := 1 }

def c1Req : LightSyncRequest := { source := "ext", scope := some "b", highlights := [] }

/-- Claim C1, violated by the code (demonstration at the failing input).
The store holds one live annotation "ext:9" whose parent is the resource
titled "a"; the request scopes the sync to "b", which resolves to no
resource; no resource titled "b" exists.  The call nevertheless
soft-deletes that annotation, whose parent is not the resource the scope
names — the unresolved scope falls back to an unscoped sweep instead of
containing it. -/
theorem C1_scope_containment_violated :
    c1Store.findResourceByTitle "b" = none ∧
    c1Annot.deleted_at = none ∧
    ((syncHighlights c1Store c1Req).1.annotations.map
        (fun a => (a.id, a.external_id, a.deleted_at)))
      = [(1, some "ext:9", some 1)] := by
  decide

def c2Resource : Resource :=
  { id := 1, title := "a", resource_type := ResourceType.website,
    external_id := none, content_hash := none, config := none,
    deleted_at := none, created_at := 0, updated_at := 0 }

def c2Annot : Annot :=
  { id := 1, resource_id := 1, text := "t", color := none, boundary := none,
    external_id := some "ext:9", content_hash := none,
    deleted_at := none, created_at := 0, updated_at := 0 }

def c2Store : Store :=
  { resources := [c2Resource], annotations := [c2Annot], comments := [], notes := [],
    nextResourceId := 2, nextAnnotId := 2, nextCommentId := 1, nextNoteId := 1, time := 1 }

def c2Req : LightSyncRequest := { source := "ext", scope := some "b", highlights := [] }

/-- Claim C2, violated by the code (demonstration at the failing input).
With a scope value that resolves to no resource, the orphan sweep is not
skipped: the call still issues a soft delete and returns
annotations_deleted = 1, not the untouched counters the claim (and the
code's own skip-warning log line) promise. -/
theorem C2_sweep_runs_on_unresolved_scope :
    c2Store.findResourceByTitle "b" = none ∧
    (syncHighlights c2Store c2Req).2.1.annotations_deleted = 1 ∧
    (syncHighlights c2Store c2Req).1.annotations ≠ c2Store.annotations := by
  decide

/-! Frame lemmas: which tables each store operation can touch. -/

theorem createAnnot_frame (st : Store) (x : CreateAnnot) :
    (st.createAnnot x).1.resources = st.resources ∧
    (st.createAnnot x).1.comments = st.comments ∧
    (st.createAnnot x).1.notes = st.notes :=
  ⟨rfl, rfl, rfl⟩

theorem updateAnnot_frame (st : Store) (i : Nat) (u : UpdateAnnot) :
    (st.updateAnnot i u).1.resources = st.resources ∧
    (st.updateAnnot i u).1.comments = st.comments ∧
    (st.updateAnnot i u).1.notes = st.notes := by
  simp only [Store.updateAnnot]
  split
  · exact ⟨rfl, rfl, rfl⟩
  · split
    · exact ⟨rfl, rfl, rfl⟩
    · exact ⟨rfl, rfl, rfl⟩

theorem softDeleteAnnot_frame (st : Store) (i : Nat) :
    (st.softDeleteAnnot i).1.resources = st.resources ∧
    (st.softDeleteAnnot i).1.comments = st.comments ∧
    (st.softDeleteAnnot i).1.notes = st.notes :=
  ⟨rfl, rfl, rfl⟩

theorem createResource_frame (st : Store) (x : CreateResource) :
    (st.createResource x).1.annotations = st.annotations ∧
    (st.createResource x).1.comments = st.comments ∧
    (st.createResource x).1.notes = st.notes :=
  ⟨rfl, rfl, rfl⟩

theorem updateResource_frame (st : Store) (i : Nat) (u : UpdateResource) :
    (st.updateResource i u).1.annotations = st.annotations ∧
    (st.updateResource i u).1.comments = st.comments ∧
    (st.updateResource i u).1.notes = st.notes := by
  simp only [Store.updateResource]
  split
  · exact ⟨rfl, rfl, rfl⟩
  · split
    · exact ⟨rfl, rfl, rfl⟩
    · exact ⟨rfl, rfl, rfl⟩

theorem softDeleteResource_frame (st : Store) (i : Nat) :
    (st.softDeleteResource i).1.annotations = st.annotations ∧
    (st.softDeleteResource i).1.comments = st.comments ∧
    (st.softDeleteResource i).1.notes = st.notes :=
  ⟨rfl, rfl, rfl⟩

theorem createComment_frame (st : Store) (x : CreateComment) :
    (st.createComment x).1.resources = st.resources ∧
    (st.createComment x).1.annotations = st.annotations ∧
    (st.createComment x).1.notes = st.notes :=
  ⟨rfl, rfl, rfl⟩

theorem updateComment_frame (st : Store) (i : Nat) (u : UpdateComment) :
    (st.updateComment i u).1.resources = st.resources ∧
    (st.updateComment i u).1.annotations = st.annotations ∧
    (st.updateComment i u).1.notes = st.notes := by
  simp only [Store.updateComment]
  split
  · exact ⟨rfl, rfl, rfl⟩
  · exact ⟨rfl, rfl, rfl⟩

theorem softDeleteComment_frame (st : Store) (i : Nat) :
    (st.softDeleteComment i).1.resources = st.resources ∧
    (st.softDeleteComment i).1.annotations = st.annotations ∧
    (st.softDeleteComment i).1.notes = st.notes :=
  ⟨rfl, rfl, rfl⟩

theorem createNote_frame (st : Store) (x : CreateNote) :
    (st.createNote x).1.resources = st.resources ∧
    (st.createNote x).1.annotations = st.annotations ∧
    (st.createNote x).1.comments = st.comments :=
  ⟨rfl, rfl, rfl⟩

theorem updateNote_frame (st : Store) (i : Nat) (u : UpdateNote) :
    (st.updateNote i u).1.resources = st.resources ∧
    (st.updateNote i u).1.annotations = st.annotations ∧
    (st.updateNote i u).1.comments = st.comments := by
  simp only [Store.updateNote]
  split
  · exact ⟨rfl, rfl, rfl⟩
  · exact ⟨rfl, rfl, rfl⟩

theorem softDeleteNote_frame (st : Store) (i : Nat) :
    (st.softDeleteNote i).1.resources = st.resources ∧
    (st.softDeleteNote i).1.annotations = st.annotations ∧
    (st.softDeleteNote i).1.comments = st.comments :=
  ⟨rfl, rfl, rfl⟩

/-! Claim C9: re-sync of a soft-deleted external id creates a fresh live
row instead of resurrecting the old one.  The database schema (the
migration SQL shipped with the module) is not part of the sources at hand;
per the specification external_id is unique only among live rows of a
kind, so the insert of a second row carrying a soft-deleted row's external
id is modelled as succeeding. -/

/-- Claim C9.  If every annotation row carrying external id
research:row.id is soft-deleted (and at least one such row exists), then
the live lookup returns None, the upsert takes the create path and is
classified Created with the next fresh id, the table becomes the old rows
(untouched, the soft-deleted carrier included) plus one appended new live
row with the same external id, and that new row is the only live row
carrying the id. -/
theorem C9_soft_deleted_not_resurrected :
    ∀ (st : Store) (row : ResearchAnnotRow) (rid : Nat),
      (∀ a ∈ st.annotations,
          a.external_id = some ("research:" ++ row.id) → a.deleted_at ≠ none) →
      (∃ a ∈ st.annotations, a.external_id = some ("research:" ++ row.id)) →
      st.findAnnotByExternalId ("research:" ++ row.id) = none ∧
      (upsertAnnot st ("research:" ++ row.id) row rid
          (computeAnnotationHash row.text row.color)).2.1
        = SyncRes.created st.nextAnnotId ∧
      (upsertAnnot st ("research:" ++ row.id) row rid
          (computeAnnotationHash row.text row.color)).1.annotations
        = st.annotations ++
          [{ id := st.nextAnnotId, resource_id := rid, text := row.text,
             color := row.color,
             boundary := some (Boundary.research row.page_number row.position),
             external_id := some ("research:" ++ row.id),
             content_hash := some (computeAnnotationHash row.text row.color),
             deleted_at := none, created_at := st.time, updated_at := st.time }] ∧
      (∃ a ∈ (upsertAnnot st ("research:" ++ row.id) row rid
          (computeAnnotationHash row.text row.color)).1.annotations,
          a.external_id = some ("research:" ++ row.id) ∧ a.deleted_at ≠ none) ∧
      (∀ a ∈ (upsertAnnot st ("research:" ++ row.id) row rid
          (computeAnnotationHash row.text row.color)).1.annotations,
          a.external_id = some ("research:" ++ row.id) → a.deleted_at = none →
          a.id = st.nextAnnotId) := by
  intro st row rid hdead hex
  have hfind : st.findAnnotByExternalId ("research:" ++ row.id) = none := by
    apply List.find?_eq_none.mpr
    intro a ha
    simp only [Bool.and_eq_true, beq_iff_eq, not_and]
    intro heid
    have := hdead a ha heid
    simp only [ne_eq] at this
    simp [this]
  refine ⟨hfind, ?_, ?_, ?_, ?_⟩
  · simp [upsertAnnot, hfind, Store.createAnnot]
  · simp [upsertAnnot, hfind, Store.createAnnot]
  · obtain ⟨a, ha, heid⟩ := hex
    refine ⟨a, ?_, heid, hdead a ha heid⟩
    simp only [upsertAnnot, hfind, Store.createAnnot]
    exact List.mem_append_left _ ha
  · intro a ha heid hlive
    simp only [upsertAnnot, hfind, Store.createAnnot, List.mem_append,
      List.mem_singleton] at ha
    rcases ha with ha | ha
    · exact absurd hlive (hdead a ha heid)
    · rw [ha]

def c9WitRow : ResearchAnnotRow :=
  { item_id := "i", id := "x", text := "hello", color := none,
    page_number := none, position := none }

def c9WitAnnot : Annot :=
  { id := 1, resource_id := 1, text := "old", color := none, boundary := none,
    external_id := some "research:x", content_hash := some "h",
    deleted_at := some 0, created_at := 0, updated_at := 0 }

def c9WitStore : Store :=
  { emptyStore with annotations := [c9WitAnnot], nextAnnotId := 2, time := 3 }

/-- Claim C9, witness: in a store whose only research:x row is
soft-deleted, the upsert is classified Created with the fresh id 2. -/
theorem C9_witness :
    c9WitStore.findAnnotByExternalId ("research:" ++ c9WitRow.id) = none ∧
    (upsertAnnot c9WitStore ("research:" ++ c9WitRow.id) c9WitRow 1
        (computeAnnotationHash c9WitRow.text c9WitRow.color)).2.1
      = SyncRes.created c9WitStore.nextAnnotId :=
  ⟨(C9_soft_deleted_not_resurrected c9WitStore c9WitRow 1 (by decide) (by decide)).1,
   (C9_soft_deleted_not_resurrected c9WitStore c9WitRow 1 (by decide) (by decide)).2.1⟩


/-! Claim C10: the light endpoint writes only the annotations table and can
only append resources. -/

theorem processHighlight_store_frame (source : String) (rid : Nat) (p : LightPass)
    (hl : LightHighlight) :
    (processHighlight source rid p hl).store.resources = p.store.resources ∧
    (processHighlight source rid p hl).store.comments = p.store.comments ∧
    (processHighlight source rid p hl).store.notes = p.store.notes := by
  simp only [processHighlight]
  split
  · split
    · split
      · rename_i st' x heq
        have h1 : (p.store.updateAnnot _ _).1 = st' := congrArg Prod.fst heq
        rw [← h1]
        exact updateAnnot_frame p.store _ _
      · rename_i st' heq
        have h1 : (p.store.updateAnnot _ _).1 = st' := congrArg Prod.fst heq
        rw [← h1]
        exact updateAnnot_frame p.store _ _
    · exact ⟨rfl, rfl, rfl⟩
  · exact createAnnot_frame ..

theorem processHighlightList_store_frame (source : String) (rid : Nat) :
    ∀ (hs : List LightHighlight) (p : LightPass),
      (processHighlightList source rid p hs).store.resources = p.store.resources ∧
      (processHighlightList source rid p hs).store.comments = p.store.comments ∧
      (processHighlightList source rid p hs).store.notes = p.store.notes := by
  intro hs
  induction hs with
  | nil => intro p ; exact ⟨rfl, rfl, rfl⟩
  | cons hd t ih =>
    intro p
    obtain ⟨r1, r2, r3⟩ := ih (processHighlight source rid p hd)
    obtain ⟨s1, s2, s3⟩ := processHighlight_store_frame source rid p hd
    exact ⟨r1.trans s1, r2.trans s2, r3.trans s3⟩

/-- The resource row inserted by find_or_create_resource when the URL is
not yet present. -/
def lightCreatedResource (st : Store) (url : String) : Resource :=
  { id := st.nextResourceId, title := url, resource_type := ResourceType.website,
    external_id := none, content_hash := some (computeResourceHash url),
    config := none, deleted_at := none, created_at := st.time, updated_at := st.time }

theorem findOrCreateResource_shape (st : Store) (url : String) :
    (∃ new, (findOrCreateResource st url).1.resources = st.resources ++ new ∧
        ∀ r ∈ new, r.external_id = none) ∧
    (findOrCreateResource st url).1.comments = st.comments ∧
    (findOrCreateResource st url).1.notes = st.notes ∧
    (findOrCreateResource st url).1.annotations = st.annotations := by
  simp only [findOrCreateResource]
  split
  · exact ⟨⟨[], (List.append_nil _).symm, by simp⟩, rfl, rfl, rfl⟩
  · refine ⟨⟨[lightCreatedResource st url], rfl, ?_⟩, rfl, rfl, rfl⟩
    intro r hr
    simp only [List.mem_singleton] at hr
    rw [hr]
    rfl

theorem processUrlGroup_shape (source : String) (p : LightPass)
    (g : String × List LightHighlight) :
    (∃ new, (processUrlGroup source p g).store.resources = p.store.resources ++ new ∧
        ∀ r ∈ new, r.external_id = none) ∧
    (processUrlGroup source p g).store.comments = p.store.comments ∧
    (processUrlGroup source p g).store.notes = p.store.notes := by
  simp only [processUrlGroup]
  obtain ⟨⟨new, hnew, hall⟩, hc, hn, _⟩ := findOrCreateResource_shape p.store g.1
  refine ⟨⟨new, ?_, hall⟩, ?_, ?_⟩
  · exact ((processHighlightList_store_frame source _ g.2 _).1).trans hnew
  · exact ((processHighlightList_store_frame source _ g.2 _).2.1).trans hc
  · exact ((processHighlightList_store_frame source _ g.2 _).2.2).trans hn

theorem processUrlGroups_shape (source : String) :
    ∀ (gs : List (String × List LightHighlight)) (p : LightPass),
      (∃ new, (processUrlGroups source p gs).store.resources = p.store.resources ++ new ∧
          ∀ r ∈ new, r.external_id = none) ∧
      (processUrlGroups source p gs).store.comments = p.store.comments ∧
      (processUrlGroups source p gs).store.notes = p.store.notes := by
  intro gs
  induction gs with
  | nil =>
    intro p
    exact ⟨⟨[], (List.append_nil _).symm, by simp⟩, rfl, rfl⟩
  | cons g t ih =>
    intro p
    obtain ⟨⟨new₂, hnew₂, hall₂⟩, hc₂, hn₂⟩ := ih (processUrlGroup source p g)
    obtain ⟨⟨new₁, hnew₁, hall₁⟩, hc₁, hn₁⟩ := processUrlGroup_shape source p g
    refine ⟨⟨new₁ ++ new₂, ?_, ?_⟩, ?_, ?_⟩
    · show (processUrlGroups source (processUrlGroup source p g) t).store.resources = _
      rw [hnew₂, hnew₁, List.append_assoc]
    · intro r hr
      rcases List.mem_append.mp hr with h | h
      · exact hall₁ r h
      · exact hall₂ r h
    · exact hc₂.trans hc₁
    · exact hn₂.trans hn₁

theorem sweepOrphan_store_frame (p : LightPass) (o : Annot) :
    (sweepOrphan p o).store.resources = p.store.resources ∧
    (sweepOrphan p o).store.comments = p.store.comments ∧
    (sweepOrphan p o).store.notes = p.store.notes := by
  simp only [sweepOrphan]
  split
  · split
    · rename_i st' heq
      have h1 : (p.store.softDeleteAnnot _).1 = st' := congrArg Prod.fst heq
      rw [← h1]
      exact softDeleteAnnot_frame p.store _
    · rename_i st' heq
      have h1 : (p.store.softDeleteAnnot _).1 = st' := congrArg Prod.fst heq
      rw [← h1]
      exact softDeleteAnnot_frame p.store _
  · exact ⟨rfl, rfl, rfl⟩

theorem sweepOrphans_store_frame :
    ∀ (os : List Annot) (p : LightPass),
      (sweepOrphans p os).store.resources = p.store.resources ∧
      (sweepOrphans p os).store.comments = p.store.comments ∧
      (sweepOrphans p os).store.notes = p.store.notes := by
  intro os
  induction os with
  | nil => intro p ; exact ⟨rfl, rfl, rfl⟩
  | cons o t ih =>
    intro p
    obtain ⟨r1, r2, r3⟩ := ih (sweepOrphan p o)
    obtain ⟨s1, s2, s3⟩ := sweepOrphan_store_frame p o
    exact ⟨r1.trans s1, r2.trans s2, r3.trans s3⟩

/-- Claim C10.  A sync_highlights call never updates or soft-deletes any
resource and never writes comments or notes: every pre-existing resource
row survives with all fields unchanged (the resources table is only ever
appended to), every appended resource carries external_id None, and the
comments and notes tables come out exactly as they went in. -/
theorem C10_light_touches_only_annotations :
    ∀ (st : Store) (req : LightSyncRequest),
      (∃ new, (syncHighlights st req).1.resources = st.resources ++ new ∧
          ∀ r ∈ new, r.external_id = none) ∧
      (syncHighlights st req).1.comments = st.comments ∧
      (syncHighlights st req).1.notes = st.notes := by
  intro st req
  simp only [syncHighlights]
  obtain ⟨⟨new, hnew, hall⟩, hc, hn⟩ := processUrlGroups_shape req.source req.highlights
    { store := st, resp := LightSyncResponse.zero, seen := [], trace := [] }
  obtain ⟨r1, r2, r3⟩ := sweepOrphans_store_frame _ _
  exact ⟨⟨new, r1.trans hnew, hall⟩, r2.trans hc, r3.trans hn⟩

def c10WitComment : Comment :=
  { id := 1, annotation_id := 1, content := "c", external_id := none,
    content_hash := none, deleted_at := none, created_at := 0, updated_at := 0 }

def c10WitStore : Store :=
  { emptyStore with comments := [c10WitComment], nextCommentId := 2 }

def c10WitHighlight : LightHighlight :=
  { chunks := [], date := "d", group_id := 1, repr := "text", url := "u" }

def c10WitReq : LightSyncRequest :=
  { source := "light", scope := none, highlights := [("u", [c10WitHighlight])] }

/-- Claim C10, witness: the theorem applied at a concrete store and
request; the comments table survives the call unchanged. -/
theorem C10_witness :
    (syncHighlights c10WitStore c10WitReq).1.comments = c10WitStore.comments :=
  (C10_light_touches_only_annotations c10WitStore c10WitReq).2.1

/-! Claim C7: in the research sync every orphan sweep runs after all
upserts, and the sweeps run Comments, Annotations, Notes, Resources. -/

def Ev.isDeleteEv : Ev → Bool
  | Ev.resDeleted _ => true
  | Ev.annDeleted _ => true
  | Ev.comDeleted _ => true
  | Ev.noteDeleted _ => true
  | _ => false

/-- The pass q extends the pass p by delete-free trace events only. -/
def traceExtends (q p : RPass) : Prop :=
  ∃ t, q.trace = p.trace ++ t ∧ ∀ e ∈ t, e.isDeleteEv = false

theorem traceExtends_refl (p : RPass) : traceExtends p p :=
  ⟨[], (List.append_nil _).symm, by simp⟩

theorem traceExtends_trans {r q p : RPass} (h1 : traceExtends q p)
    (h2 : traceExtends r q) : traceExtends r p := by
  obtain ⟨t1, e1, n1⟩ := h1
  obtain ⟨t2, e2, n2⟩ := h2
  refine ⟨t1 ++ t2, by rw [e2, e1, List.append_assoc], ?_⟩
  intro e he
  rcases List.mem_append.mp he with h | h
  · exact n1 e h
  · exact n2 e h

theorem upsertResource_evs (st : Store) (eid title ch : String) :
    ∀ e ∈ (upsertResource st eid title ch).2.2, e.isDeleteEv = false := by
  simp only [upsertResource]
  split
  · split
    · intro e he
      simp only [List.mem_singleton] at he
      rw [he]
      rfl
    · split
      · intro e he
        rcases List.mem_cons.mp he with h | h
        · rw [h] ; rfl
        · simp only [List.mem_singleton] at h ; rw [h] ; rfl
      · intro e he
        simp only [List.mem_singleton] at he
        rw [he]
        rfl
  · intro e he
    simp only [List.mem_singleton] at he
    rw [he]
    rfl

theorem syncResource_traceExtends (p : RPass) (item : ResearchItem) :
    traceExtends (syncResource p item).1 p := by
  refine ⟨(upsertResource p.store ("research:" ++ item.id) item.title
      (computeResourceHash item.title)).2.2, ?_, upsertResource_evs _ _ _ _⟩
  simp only [syncResource]
  split <;> rfl

theorem upsertAnnot_evs (st : Store) (eid : String) (row : ResearchAnnotRow)
    (rid : Nat) (ch : String) :
    ∀ e ∈ (upsertAnnot st eid row rid ch).2.2, e.isDeleteEv = false := by
  simp only [upsertAnnot]
  split
  · split
    · intro e he
      simp only [List.mem_singleton] at he
      rw [he]
      rfl
    · split
      · intro e he
        rcases List.mem_cons.mp he with h | h
        · rw [h] ; rfl
        · simp only [List.mem_singleton] at h ; rw [h] ; rfl
      · intro e he
        simp only [List.mem_singleton] at he
        rw [he]
        rfl
  · intro e he
    simp only [List.mem_singleton] at he
    rw [he]
    rfl

theorem syncAnnot_traceExtends (p : RPass) (row : ResearchAnnotRow) (rid : Nat) :
    traceExtends (syncAnnot p row rid).1 p := by
  refine ⟨(upsertAnnot p.store ("research:" ++ row.id) row rid
      (computeAnnotationHash row.text row.color)).2.2, ?_, upsertAnnot_evs _ _ _ _ _⟩
  simp only [syncAnnot]
  split <;> rfl

theorem upsertComment_evs (st : Store) (eid content : String) (aid : Nat) (ch : String) :
    ∀ e ∈ (upsertComment st eid content aid ch).2.2, e.isDeleteEv = false := by
  simp only [upsertComment]
  split
  · split
    · intro e he
      simp only [List.mem_singleton] at he
      rw [he]
      rfl
    · split
      · intro e he
        rcases List.mem_cons.mp he with h | h
        · rw [h] ; rfl
        · simp only [List.mem_singleton] at h ; rw [h] ; rfl
      · intro e he
        simp only [List.mem_singleton] at he
        rw [he]
        rfl
  · intro e he
    simp only [List.mem_singleton] at he
    rw [he]
    rfl

theorem syncComment_traceExtends (p : RPass) (row : ResearchCommentRow) (aid : Nat) :
    traceExtends (syncComment p row aid) p := by
  refine ⟨(upsertComment p.store ("research:" ++ row.id) row.content aid
      (computeCommentHash row.content)).2.2, ?_, upsertComment_evs _ _ _ _ _⟩
  simp only [syncComment]
  split <;> rfl

theorem upsertNote_evs (st : Store) (eid content : String) (rid : Nat) (ch : String) :
    ∀ e ∈ (upsertNote st eid content rid ch).2.2, e.isDeleteEv = false := by
  simp only [upsertNote]
  split
  · split
    · intro e he
      simp only [List.mem_singleton] at he
      rw [he]
      rfl
    · split
      · intro e he
        rcases List.mem_cons.mp he with h | h
        · rw [h] ; rfl
        · simp only [List.mem_singleton] at h ; rw [h] ; rfl
      · intro e he
        simp only [List.mem_singleton] at he
        rw [he]
        rfl
  · intro e he
    simp only [List.mem_singleton] at he
    rw [he]
    rfl

theorem syncNote_traceExtends (p : RPass) (row : ResearchNoteRow) (rid : Nat) :
    traceExtends (syncNote p row rid) p := by
  refine ⟨(upsertNote p.store ("research:" ++ row.id) row.content rid
      (computeNoteHash row.content)).2.2, ?_, upsertNote_evs _ _ _ _ _⟩
  simp only [syncNote]
  split <;> rfl

theorem syncCommentList_traceExtends (aid : Nat) :
    ∀ (rows : List ResearchCommentRow) (p : RPass),
      traceExtends (syncCommentList p aid rows) p := by
  intro rows
  induction rows with
  | nil => intro p ; exact traceExtends_refl p
  | cons r t ih =>
    intro p
    exact traceExtends_trans (syncComment_traceExtends p r aid) (ih (syncComment p r aid))

theorem syncNoteList_traceExtends (rid : Nat) :
    ∀ (rows : List ResearchNoteRow) (p : RPass),
      traceExtends (syncNoteList p rid rows) p := by
  intro rows
  induction rows with
  | nil => intro p ; exact traceExtends_refl p
  | cons r t ih =>
    intro p
    exact traceExtends_trans (syncNote_traceExtends p r rid) (ih (syncNote p r rid))

theorem syncAnnotAndComments_traceExtends (db : ResearchDb) (p : RPass)
    (row : ResearchAnnotRow) (rid : Nat) :
    traceExtends (syncAnnotAndComments db p row rid) p := by
  simp only [syncAnnotAndComments]
  split
  · rename_i p' aid heq
    have h1 : (syncAnnot p row rid).1 = p' := congrArg Prod.fst heq
    rw [← h1]
    exact traceExtends_trans (syncAnnot_traceExtends p row rid)
      (syncCommentList_traceExtends aid _ _)
  · rename_i p' heq
    have h1 : (syncAnnot p row rid).1 = p' := congrArg Prod.fst heq
    rw [← h1]
    exact syncAnnot_traceExtends p row rid

theorem syncAnnotList_traceExtends (db : ResearchDb) (rid : Nat) :
    ∀ (rows : List ResearchAnnotRow) (p : RPass),
      traceExtends (syncAnnotList db p rid rows) p := by
  intro rows
  induction rows with
  | nil => intro p ; exact traceExtends_refl p
  | cons r t ih =>
    intro p
    exact traceExtends_trans (syncAnnotAndComments_traceExtends db p r rid)
      (ih (syncAnnotAndComments db p r rid))

theorem syncItem_traceExtends (db : ResearchDb) (p : RPass) (item : ResearchItem) :
    traceExtends (syncItem db p item) p := by
  simp only [syncItem]
  split
  · rename_i p' rid heq
    have h1 : (syncResource p item).1 = p' := congrArg Prod.fst heq
    rw [← h1]
    refine traceExtends_trans (syncResource_traceExtends p item) ?_
    exact traceExtends_trans (syncAnnotList_traceExtends db rid _ _)
      (syncNoteList_traceExtends rid _ _)
  · rename_i p' heq
    have h1 : (syncResource p item).1 = p' := congrArg Prod.fst heq
    rw [← h1]
    exact syncResource_traceExtends p item

theorem syncItemList_traceExtends (db : ResearchDb) :
    ∀ (items : List ResearchItem) (p : RPass),
      traceExtends (syncItemList db p items) p := by
  intro items
  induction items with
  | nil => intro p ; exact traceExtends_refl p
  | cons i t ih =>
    intro p
    exact traceExtends_trans (syncItem_traceExtends db p i) (ih (syncItem db p i))

theorem sweepComOrphanList_trace :
    ∀ (os : List Comment) (p : RPass),
      ∃ t, (sweepComOrphanList p os).trace = p.trace ++ t ∧
        ∀ e ∈ t, ∃ i, e = Ev.comDeleted i := by
  intro os
  induction os with
  | nil =>
    intro p
    exact ⟨[], (List.append_nil _).symm, by simp⟩
  | cons o rest ih =>
    intro p
    obtain ⟨t, ht, hall⟩ := ih (sweepComOrphan p o)
    have step : ∃ s, (sweepComOrphan p o).trace = p.trace ++ s ∧
        ∀ e ∈ s, ∃ i, e = Ev.comDeleted i := by
      simp only [sweepComOrphan]
      split
      · split
        · exact ⟨[Ev.comDeleted o.id], rfl, by simp⟩
        · exact ⟨[], (List.append_nil _).symm, by simp⟩
      · exact ⟨[], (List.append_nil _).symm, by simp⟩
    obtain ⟨s, hs, hsall⟩ := step
    refine ⟨s ++ t, ?_, ?_⟩
    · show (sweepComOrphanList (sweepComOrphan p o) rest).trace = _
      rw [ht, hs, List.append_assoc]
    · intro e he
      rcases List.mem_append.mp he with h | h
      · exact hsall e h
      · exact hall e h

theorem sweepAnnOrphanList_trace :
    ∀ (os : List Annot) (p : RPass),
      ∃ t, (sweepAnnOrphanList p os).trace = p.trace ++ t ∧
        ∀ e ∈ t, ∃ i, e = Ev.annDeleted i := by
  intro os
  induction os with
  | nil =>
    intro p
    exact ⟨[], (List.append_nil _).symm, by simp⟩
  | cons o rest ih =>
    intro p
    obtain ⟨t, ht, hall⟩ := ih (sweepAnnOrphan p o)
    have step : ∃ s, (sweepAnnOrphan p o).trace = p.trace ++ s ∧
        ∀ e ∈ s, ∃ i, e = Ev.annDeleted i := by
      simp only [sweepAnnOrphan]
      split
      · split
        · exact ⟨[Ev.annDeleted o.id], rfl, by simp⟩
        · exact ⟨[], (List.append_nil _).symm, by simp⟩
      · exact ⟨[], (List.append_nil _).symm, by simp⟩
    obtain ⟨s, hs, hsall⟩ := step
    refine ⟨s ++ t, ?_, ?_⟩
    · show (sweepAnnOrphanList (sweepAnnOrphan p o) rest).trace = _
      rw [ht, hs, List.append_assoc]
    · intro e he
      rcases List.mem_append.mp he with h | h
      · exact hsall e h
      · exact hall e h

theorem sweepNoteOrphanList_trace :
    ∀ (os : List Note) (p : RPass),
      ∃ t, (sweepNoteOrphanList p os).trace = p.trace ++ t ∧
        ∀ e ∈ t, ∃ i, e = Ev.noteDeleted i := by
  intro os
  induction os with
  | nil =>
    intro p
    exact ⟨[], (List.append_nil _).symm, by simp⟩
  | cons o rest ih =>
    intro p
    obtain ⟨t, ht, hall⟩ := ih (sweepNoteOrphan p o)
    have step : ∃ s, (sweepNoteOrphan p o).trace = p.trace ++ s ∧
        ∀ e ∈ s, ∃ i, e = Ev.noteDeleted i := by
      simp only [sweepNoteOrphan]
      split
      · split
        · exact ⟨[Ev.noteDeleted o.id], rfl, by simp⟩
        · exact ⟨[], (List.append_nil _).symm, by simp⟩
      · exact ⟨[], (List.append_nil _).symm, by simp⟩
    obtain ⟨s, hs, hsall⟩ := step
    refine ⟨s ++ t, ?_, ?_⟩
    · show (sweepNoteOrphanList (sweepNoteOrphan p o) rest).trace = _
      rw [ht, hs, List.append_assoc]
    · intro e he
      rcases List.mem_append.mp he with h | h
      · exact hsall e h
      · exact hall e h

theorem sweepResOrphanList_trace :
    ∀ (os : List Resource) (p : RPass),
      ∃ t, (sweepResOrphanList p os).trace = p.trace ++ t ∧
        ∀ e ∈ t, ∃ i, e = Ev.resDeleted i := by
  intro os
  induction os with
  | nil =>
    intro p
    exact ⟨[], (List.append_nil _).symm, by simp⟩
  | cons o rest ih =>
    intro p
    obtain ⟨t, ht, hall⟩ := ih (sweepResOrphan p o)
    have step : ∃ s, (sweepResOrphan p o).trace = p.trace ++ s ∧
        ∀ e ∈ s, ∃ i, e = Ev.resDeleted i := by
      simp only [sweepResOrphan]
      split
      · split
        · exact ⟨[Ev.resDeleted o.id], rfl, by simp⟩
        · exact ⟨[], (List.append_nil _).symm, by simp⟩
      · exact ⟨[], (List.append_nil _).symm, by simp⟩
    obtain ⟨s, hs, hsall⟩ := step
    refine ⟨s ++ t, ?_, ?_⟩
    · show (sweepResOrphanList (sweepResOrphan p o) rest).trace = _
      rw [ht, hs, List.append_assoc]
    · intro e he
      rcases List.mem_append.mp he with h | h
      · exact hsall e h
      · exact hall e h

/-- Claim C7.  The ghost trace of every research sync decomposes as an
upsert phase containing no delete events, followed by four runs of delete
events in the fixed bottom-up order: comment deletes, then annotation
deletes, then note deletes, then resource deletes — so every sweep runs
only after all upserts of all four kinds have completed. -/
theorem C7_sweeps_after_upserts_in_order :
    ∀ (st : Store) (db : ResearchDb) (items : List ResearchItem),
      ∃ u d1 d2 d3 d4,
        (syncAllEntities st db items).2.2 = u ++ d1 ++ d2 ++ d3 ++ d4 ∧
        (∀ e ∈ u, e.isDeleteEv = false) ∧
        (∀ e ∈ d1, ∃ i, e = Ev.comDeleted i) ∧
        (∀ e ∈ d2, ∃ i, e = Ev.annDeleted i) ∧
        (∀ e ∈ d3, ∃ i, e = Ev.noteDeleted i) ∧
        (∀ e ∈ d4, ∃ i, e = Ev.resDeleted i) := by
  intro st db items
  obtain ⟨u, hu, hunone⟩ := syncItemList_traceExtends db items (RPass.init st)
  obtain ⟨d1, hd1, hd1all⟩ :=
    sweepComOrphanList_trace _ (syncItemList db (RPass.init st) items)
  obtain ⟨d2, hd2, hd2all⟩ :=
    sweepAnnOrphanList_trace _ (deleteOrphanComments (syncItemList db (RPass.init st) items))
  obtain ⟨d3, hd3, hd3all⟩ :=
    sweepNoteOrphanList_trace _ (deleteOrphanAnnots (deleteOrphanComments
      (syncItemList db (RPass.init st) items)))
  obtain ⟨d4, hd4, hd4all⟩ :=
    sweepResOrphanList_trace _ (deleteOrphanNotes (deleteOrphanAnnots (deleteOrphanComments
      (syncItemList db (RPass.init st) items))))
  refine ⟨u, d1, d2, d3, d4, ?_, hunone, hd1all, hd2all, hd3all, hd4all⟩
  show (softDeleteOrphansR (syncItemList db (RPass.init st) items)).trace = _
  simp only [softDeleteOrphansR, deleteOrphanResources]
  rw [hd4]
  simp only [deleteOrphanNotes]
  rw [hd3]
  simp only [deleteOrphanAnnots]
  rw [hd2]
  simp only [deleteOrphanComments]
  rw [hd1, hu]
  simp only [RPass.init, List.nil_append, List.append_assoc]

def c7WitDb : ResearchDb := { annotations := [], comments := [], notes := [] }

/-- Claim C7, witness: the decomposition at a concrete store and item
list. -/
theorem C7_witness :
    ∃ u d1 d2 d3 d4,
      (syncAllEntities emptyStore c7WitDb [{ id := "i1", title := "Paper" }]).2.2
        = u ++ d1 ++ d2 ++ d3 ++ d4 ∧
      (∀ e ∈ u, e.isDeleteEv = false) ∧
      (∀ e ∈ d1, ∃ i, e = Ev.comDeleted i) ∧
      (∀ e ∈ d2, ∃ i, e = Ev.annDeleted i) ∧
      (∀ e ∈ d3, ∃ i, e = Ev.noteDeleted i) ∧
      (∀ e ∈ d4, ∃ i, e = Ev.resDeleted i) :=
  C7_sweeps_after_upserts_in_order emptyStore c7WitDb [{ id := "i1", title := "Paper" }]

/-! Claim C8: cascade integrity.  A trace is cascade-consistent when every
annotation or note create references a resource id made available by an
earlier resource create or lookup hit, and every comment create references
an annotation id made available by an earlier annotation create or lookup
hit. -/

def resAvailStep (avail : List Nat) : Ev → List Nat
  | Ev.resCreated i => i :: avail
  | Ev.resFound i => i :: avail
  | _ => avail

def annAvailStep (avail : List Nat) : Ev → List Nat
  | Ev.annCreated i _ => i :: avail
  | Ev.annFound i => i :: avail
  | _ => avail

def resAvailList (avail : List Nat) (t : List Ev) : List Nat := t.foldl resAvailStep avail

def annAvailList (avail : List Nat) (t : List Ev) : List Nat := t.foldl annAvailStep avail

def cascadeOk (ra aa : List Nat) : List Ev → Prop
  | [] => True
  | e :: rest =>
    (match e with
     | Ev.annCreated _ rid => rid ∈ ra
     | Ev.noteCreated _ rid => rid ∈ ra
     | Ev.comCreated _ aid => aid ∈ aa
     | _ => True) ∧ cascadeOk (resAvailStep ra e) (annAvailStep aa e) rest

theorem mem_resAvailStep {x : Nat} {avail : List Nat} (e : Ev) (h : x ∈ avail) :
    x ∈ resAvailStep avail e := by
  cases e <;> simp [resAvailStep, h]

theorem mem_annAvailStep {x : Nat} {avail : List Nat} (e : Ev) (h : x ∈ avail) :
    x ∈ annAvailStep avail e := by
  cases e <;> simp [annAvailStep, h]

theorem mem_resAvailList {x : Nat} :
    ∀ (t : List Ev) {avail : List Nat}, x ∈ avail → x ∈ resAvailList avail t := by
  intro t
  induction t with
  | nil => intro _ h ; exact h
  | cons e rest ih => intro avail h ; exact ih (mem_resAvailStep e h)

theorem mem_annAvailList {x : Nat} :
    ∀ (t : List Ev) {avail : List Nat}, x ∈ avail → x ∈ annAvailList avail t := by
  intro t
  induction t with
  | nil => intro _ h ; exact h
  | cons e rest ih => intro avail h ; exact ih (mem_annAvailStep e h)

theorem resAvailStep_subset {r1 r2 : List Nat} (e : Ev) (h : ∀ x ∈ r1, x ∈ r2) :
    ∀ x ∈ resAvailStep r1 e, x ∈ resAvailStep r2 e := by
  intro x hx
  cases e <;> simp only [resAvailStep] at hx ⊢ <;>
    first
      | exact h x hx
      | (rcases List.mem_cons.mp hx with h' | h'
         · simp [h']
         · simp [h x h'])

theorem annAvailStep_subset {r1 r2 : List Nat} (e : Ev) (h : ∀ x ∈ r1, x ∈ r2) :
    ∀ x ∈ annAvailStep r1 e, x ∈ annAvailStep r2 e := by
  intro x hx
  cases e <;> simp only [annAvailStep] at hx ⊢ <;>
    first
      | exact h x hx
      | (rcases List.mem_cons.mp hx with h' | h'
         · simp [h']
         · simp [h x h'])

theorem cascadeOk_mono :
    ∀ (t : List Ev) {ra₁ aa₁ ra₂ aa₂ : List Nat},
      (∀ x ∈ ra₁, x ∈ ra₂) → (∀ x ∈ aa₁, x ∈ aa₂) →
      cascadeOk ra₁ aa₁ t → cascadeOk ra₂ aa₂ t := by
  intro t
  induction t with
  | nil => intro _ _ _ _ _ _ _ ; trivial
  | cons e rest ih =>
    intro ra₁ aa₁ ra₂ aa₂ hra haa h
    obtain ⟨h1, h2⟩ := h
    refine ⟨?_, ih (resAvailStep_subset e hra) (annAvailStep_subset e haa) h2⟩
    cases e <;> simp only [] at h1 ⊢ <;>
      first
        | trivial
        | exact hra _ h1
        | exact haa _ h1

theorem cascadeOk_append :
    ∀ (t₁ t₂ : List Ev) (ra aa : List Nat),
      cascadeOk ra aa t₁ → cascadeOk (resAvailList ra t₁) (annAvailList aa t₁) t₂ →
      cascadeOk ra aa (t₁ ++ t₂) := by
  intro t₁
  induction t₁ with
  | nil => intro t₂ ra aa _ h2 ; exact h2
  | cons e rest ih =>
    intro t₂ ra aa h1 h2
    obtain ⟨ha, hb⟩ := h1
    exact ⟨ha, ih t₂ _ _ hb h2⟩

/-- Events that never create a child record keep any trace
cascade-consistent. -/
theorem cascadeOk_of_neutral :
    ∀ (t : List Ev) (ra aa : List Nat),
      (∀ e ∈ t, (match e with
        | Ev.annCreated _ _ => False
        | Ev.noteCreated _ _ => False
        | Ev.comCreated _ _ => False
        | _ => True)) →
      cascadeOk ra aa t := by
  intro t
  induction t with
  | nil => intro _ _ _ ; trivial
  | cons e rest ih =>
    intro ra aa h
    refine ⟨?_, ih _ _ (fun x hx => h x (List.mem_cons_of_mem _ hx))⟩
    have he := h e (List.mem_cons_self e rest)
    cases e <;> simp only [] at he ⊢ <;> trivial

theorem processHighlight_trace (source : String) (rid : Nat) (p : LightPass)
    (hl : LightHighlight) :
    ∃ t, (processHighlight source rid p hl).trace = p.trace ++ t ∧
      ∀ ra aa, rid ∈ ra → cascadeOk ra aa t := by
  simp only [processHighlight]
  split
  · split
    · split
      · refine ⟨[Ev.annFound _, Ev.annUpdated _], rfl, ?_⟩
        intro ra aa _
        exact ⟨trivial, trivial, trivial⟩
      · refine ⟨[Ev.annFound _], rfl, ?_⟩
        intro ra aa _
        exact ⟨trivial, trivial⟩
    · refine ⟨[Ev.annFound _], rfl, ?_⟩
      intro ra aa _
      exact ⟨trivial, trivial⟩
  · refine ⟨[Ev.annCreated _ rid], rfl, ?_⟩
    intro ra aa h
    exact ⟨h, trivial⟩

theorem processHighlightList_trace (source : String) (rid : Nat) :
    ∀ (hs : List LightHighlight) (p : LightPass),
      ∃ t, (processHighlightList source rid p hs).trace = p.trace ++ t ∧
        ∀ ra aa, rid ∈ ra → cascadeOk ra aa t := by
  intro hs
  induction hs with
  | nil =>
    intro p
    exact ⟨[], (List.append_nil _).symm, fun _ _ _ => trivial⟩
  | cons hd rest ih =>
    intro p
    obtain ⟨t1, ht1, hc1⟩ := processHighlight_trace source rid p hd
    obtain ⟨t2, ht2, hc2⟩ := ih (processHighlight source rid p hd)
    refine ⟨t1 ++ t2, ?_, ?_⟩
    · show (processHighlightList source rid (processHighlight source rid p hd) rest).trace = _
      rw [ht2, ht1, List.append_assoc]
    · intro ra aa h
      refine cascadeOk_append t1 t2 ra aa (hc1 ra aa h) ?_
      exact hc2 _ _ (mem_resAvailList t1 h)

theorem findOrCreateResource_evs (st : Store) (url : String) :
    (findOrCreateResource st url).2.2.2
        = [Ev.resFound (findOrCreateResource st url).2.1] ∨
    (findOrCreateResource st url).2.2.2
        = [Ev.resCreated (findOrCreateResource st url).2.1] := by
  simp only [findOrCreateResource]
  split
  · left
    rfl
  · right
    rfl

theorem processUrlGroup_trace (source : String) (p : LightPass)
    (g : String × List LightHighlight) :
    ∃ t, (processUrlGroup source p g).trace = p.trace ++ t ∧
      ∀ ra aa, cascadeOk ra aa t := by
  obtain ⟨t2, ht2, hc2⟩ := processHighlightList_trace source
    (findOrCreateResource p.store g.1).2.1 g.2
    { p with store := (findOrCreateResource p.store g.1).1,
             resp := if (findOrCreateResource p.store g.1).2.2.1 then
                 { p.resp with resources_created := p.resp.resources_created + 1 }
               else p.resp,
             trace := p.trace ++ (findOrCreateResource p.store g.1).2.2.2 }
  refine ⟨(findOrCreateResource p.store g.1).2.2.2 ++ t2, ?_, ?_⟩
  · exact ht2.trans (List.append_assoc ..)
  · intro ra aa
    rcases findOrCreateResource_evs p.store g.1 with hevs | hevs <;>
      rw [hevs] <;>
      refine cascadeOk_append _ t2 ra aa (by exact ⟨trivial, trivial⟩) (hc2 _ _ ?_) <;>
      exact List.mem_cons_self _ _

theorem processUrlGroups_trace (source : String) :
    ∀ (gs : List (String × List LightHighlight)) (p : LightPass),
      ∃ t, (processUrlGroups source p gs).trace = p.trace ++ t ∧
        ∀ ra aa, cascadeOk ra aa t := by
  intro gs
  induction gs with
  | nil =>
    intro p
    exact ⟨[], (List.append_nil _).symm, fun _ _ => trivial⟩
  | cons g rest ih =>
    intro p
    obtain ⟨t1, ht1, hc1⟩ := processUrlGroup_trace source p g
    obtain ⟨t2, ht2, hc2⟩ := ih (processUrlGroup source p g)
    refine ⟨t1 ++ t2, ?_, ?_⟩
    · show (processUrlGroups source (processUrlGroup source p g) rest).trace = _
      rw [ht2, ht1, List.append_assoc]
    · intro ra aa
      exact cascadeOk_append t1 t2 ra aa (hc1 ra aa) (hc2 _ _)

theorem sweepOrphans_light_trace :
    ∀ (os : List Annot) (p : LightPass),
      ∃ t, (sweepOrphans p os).trace = p.trace ++ t ∧
        ∀ e ∈ t, ∃ i, e = Ev.annDeleted i := by
  intro os
  induction os with
  | nil =>
    intro p
    exact ⟨[], (List.append_nil _).symm, by simp⟩
  | cons o rest ih =>
    intro p
    obtain ⟨t, ht, hall⟩ := ih (sweepOrphan p o)
    have step : ∃ s, (sweepOrphan p o).trace = p.trace ++ s ∧
        ∀ e ∈ s, ∃ i, e = Ev.annDeleted i := by
      simp only [sweepOrphan]
      split
      · split
        · exact ⟨[Ev.annDeleted o.id], rfl, by simp⟩
        · exact ⟨[], (List.append_nil _).symm, by simp⟩
      · exact ⟨[], (List.append_nil _).symm, by simp⟩
    obtain ⟨s, hs, hsall⟩ := step
    refine ⟨s ++ t, ?_, ?_⟩
    · show (sweepOrphans (sweepOrphan p o) rest).trace = _
      rw [ht, hs, List.append_assoc]
    · intro e he
      rcases List.mem_append.mp he with h | h
      · exact hsall e h
      · exact hall e h

/-- The canonical id a classification hands to the caller (the payload of
Created/Updated/Unchanged, nothing for Error); the second component of
SyncResult::record. -/
def SyncRes.idOf : SyncRes Nat → Option Nat
  | SyncRes.created i => some i
  | SyncRes.updated i => some i
  | SyncRes.unchanged i => some i
  | SyncRes.error => none

theorem upsertResource_cascade (st : Store) (eid title ch : String) :
    (∀ ra aa : List Nat, cascadeOk ra aa (upsertResource st eid title ch).2.2) ∧
    (∀ (ra : List Nat) (id : Nat), (upsertResource st eid title ch).2.1.idOf = some id →
        id ∈ resAvailList ra (upsertResource st eid title ch).2.2) := by
  simp only [upsertResource]
  split
  · split
    · refine ⟨fun ra aa => ⟨trivial, trivial⟩, ?_⟩
      intro ra id h
      simp only [SyncRes.idOf, Option.some.injEq] at h
      simp [resAvailList, resAvailStep, List.foldl, ← h]
    · split
      · refine ⟨fun ra aa => ⟨trivial, trivial, trivial⟩, ?_⟩
        intro ra id h
        simp only [SyncRes.idOf, Option.some.injEq] at h
        simp [resAvailList, resAvailStep, List.foldl, ← h]
      · refine ⟨fun ra aa => ⟨trivial, trivial⟩, ?_⟩
        intro ra id h
        simp [SyncRes.idOf] at h
  · refine ⟨fun ra aa => ⟨trivial, trivial⟩, ?_⟩
    intro ra id h
    simp only [SyncRes.idOf, Option.some.injEq] at h
    simp [resAvailList, resAvailStep, List.foldl, ← h]

theorem syncResource_c8 (p : RPass) (item : ResearchItem) :
    ∃ t, (syncResource p item).1.trace = p.trace ++ t ∧
      (∀ ra aa : List Nat, cascadeOk ra aa t) ∧
      (∀ (ra : List Nat) (rid : Nat), (syncResource p item).2 = some rid →
          rid ∈ resAvailList ra t) := by
  refine ⟨(upsertResource p.store ("research:" ++ item.id) item.title
      (computeResourceHash item.title)).2.2, ?_, (upsertResource_cascade ..).1, ?_⟩
  · simp only [syncResource]
    split <;> rfl
  · intro ra rid h
    apply (upsertResource_cascade p.store ("research:" ++ item.id) item.title
      (computeResourceHash item.title)).2 ra rid
    revert h
    simp only [syncResource]
    split <;> rename_i heq <;> intro h
    · rw [heq]
      simpa [SyncRes.idOf] using h
    · rw [heq]
      simpa [SyncRes.idOf] using h
    · rw [heq]
      simpa [SyncRes.idOf] using h
    · cases h

theorem upsertAnnot_cascade (st : Store) (eid : String) (row : ResearchAnnotRow)
    (rid : Nat) (ch : String) :
    (∀ ra aa : List Nat, rid ∈ ra → cascadeOk ra aa (upsertAnnot st eid row rid ch).2.2) ∧
    (∀ (aa : List Nat) (id : Nat), (upsertAnnot st eid row rid ch).2.1.idOf = some id →
        id ∈ annAvailList aa (upsertAnnot st eid row rid ch).2.2) := by
  simp only [upsertAnnot]
  split
  · split
    · refine ⟨fun ra aa _ => ⟨trivial, trivial⟩, ?_⟩
      intro aa id h
      simp only [SyncRes.idOf, Option.some.injEq] at h
      simp [annAvailList, annAvailStep, List.foldl, ← h]
    · split
      · refine ⟨fun ra aa _ => ⟨trivial, trivial, trivial⟩, ?_⟩
        intro aa id h
        simp only [SyncRes.idOf, Option.some.injEq] at h
        simp [annAvailList, annAvailStep, List.foldl, ← h]
      · refine ⟨fun ra aa _ => ⟨trivial, trivial⟩, ?_⟩
        intro aa id h
        simp [SyncRes.idOf] at h
  · refine ⟨fun ra aa hm => ⟨hm, trivial⟩, ?_⟩
    intro aa id h
    simp only [SyncRes.idOf, Option.some.injEq] at h
    simp [annAvailList, annAvailStep, List.foldl, ← h]

theorem syncAnnot_c8 (p : RPass) (row : ResearchAnnotRow) (rid : Nat) :
    ∃ t, (syncAnnot p row rid).1.trace = p.trace ++ t ∧
      (∀ ra aa : List Nat, rid ∈ ra → cascadeOk ra aa t) ∧
      (∀ (aa : List Nat) (aid : Nat), (syncAnnot p row rid).2 = some aid →
          aid ∈ annAvailList aa t) := by
  refine ⟨(upsertAnnot p.store ("research:" ++ row.id) row rid
      (computeAnnotationHash row.text row.color)).2.2, ?_, (upsertAnnot_cascade ..).1, ?_⟩
  · simp only [syncAnnot]
    split <;> rfl
  · intro aa aid h
    apply (upsertAnnot_cascade p.store ("research:" ++ row.id) row rid
      (computeAnnotationHash row.text row.color)).2 aa aid
    revert h
    simp only [syncAnnot]
    split <;> rename_i heq <;> intro h
    · rw [heq]
      simpa [SyncRes.idOf] using h
    · rw [heq]
      simpa [SyncRes.idOf] using h
    · rw [heq]
      simpa [SyncRes.idOf] using h
    · cases h

theorem upsertComment_cascade (st : Store) (eid content : String) (aid : Nat)
    (ch : String) :
    ∀ ra aa : List Nat, aid ∈ aa → cascadeOk ra aa (upsertComment st eid content aid ch).2.2 := by
  simp only [upsertComment]
  split
  · split
    · exact fun ra aa _ => ⟨trivial, trivial⟩
    · split
      · exact fun ra aa _ => ⟨trivial, trivial, trivial⟩
      · exact fun ra aa _ => ⟨trivial, trivial⟩
  · exact fun ra aa hm => ⟨hm, trivial⟩

theorem syncComment_c8 (p : RPass) (row : ResearchCommentRow) (aid : Nat) :
    ∃ t, (syncComment p row aid).trace = p.trace ++ t ∧
      ∀ ra aa : List Nat, aid ∈ aa → cascadeOk ra aa t := by
  refine ⟨(upsertComment p.store ("research:" ++ row.id) row.content aid
      (computeCommentHash row.content)).2.2, ?_, upsertComment_cascade _ _ _ _ _⟩
  simp only [syncComment]
  split <;> rfl

theorem syncCommentList_c8 (aid : Nat) :
    ∀ (rows : List ResearchCommentRow) (p : RPass),
      ∃ t, (syncCommentList p aid rows).trace = p.trace ++ t ∧
        ∀ ra aa : List Nat, aid ∈ aa → cascadeOk ra aa t := by
  intro rows
  induction rows with
  | nil =>
    intro p
    exact ⟨[], (List.append_nil _).symm, fun _ _ _ => trivial⟩
  | cons r rest ih =>
    intro p
    obtain ⟨t1, ht1, hc1⟩ := syncComment_c8 p r aid
    obtain ⟨t2, ht2, hc2⟩ := ih (syncComment p r aid)
    refine ⟨t1 ++ t2, ?_, ?_⟩
    · show (syncCommentList (syncComment p r aid) aid rest).trace = _
      rw [ht2, ht1, List.append_assoc]
    · intro ra aa h
      exact cascadeOk_append t1 t2 ra aa (hc1 ra aa h) (hc2 _ _ (mem_annAvailList t1 h))

theorem upsertNote_cascade (st : Store) (eid content : String) (rid : Nat)
    (ch : String) :
    ∀ ra aa : List Nat, rid ∈ ra → cascadeOk ra aa (upsertNote st eid content rid ch).2.2 := by
  simp only [upsertNote]
  split
  · split
    · exact fun ra aa _ => ⟨trivial, trivial⟩
    · split
      · exact fun ra aa _ => ⟨trivial, trivial, trivial⟩
      · exact fun ra aa _ => ⟨trivial, trivial⟩
  · exact fun ra aa hm => ⟨hm, trivial⟩

theorem syncNote_c8 (p : RPass) (row : ResearchNoteRow) (rid : Nat) :
    ∃ t, (syncNote p row rid).trace = p.trace ++ t ∧
      ∀ ra aa : List Nat, rid ∈ ra → cascadeOk ra aa t := by
  refine ⟨(upsertNote p.store ("research:" ++ row.id) row.content rid
      (computeNoteHash row.content)).2.2, ?_, upsertNote_cascade _ _ _ _ _⟩
  simp only [syncNote]
  split <;> rfl

theorem syncNoteList_c8 (rid : Nat) :
    ∀ (rows : List ResearchNoteRow) (p : RPass),
      ∃ t, (syncNoteList p rid rows).trace = p.trace ++ t ∧
        ∀ ra aa : List Nat, rid ∈ ra → cascadeOk ra aa t := by
  intro rows
  induction rows with
  | nil =>
    intro p
    exact ⟨[], (List.append_nil _).symm, fun _ _ _ => trivial⟩
  | cons r rest ih =>
    intro p
    obtain ⟨t1, ht1, hc1⟩ := syncNote_c8 p r rid
    obtain ⟨t2, ht2, hc2⟩ := ih (syncNote p r rid)
    refine ⟨t1 ++ t2, ?_, ?_⟩
    · show (syncNoteList (syncNote p r rid) rid rest).trace = _
      rw [ht2, ht1, List.append_assoc]
    · intro ra aa h
      exact cascadeOk_append t1 t2 ra aa (hc1 ra aa h) (hc2 _ _ (mem_resAvailList t1 h))

theorem syncAnnotAndComments_c8 (db : ResearchDb) (p : RPass)
    (row : ResearchAnnotRow) (rid : Nat) :
    ∃ t, (syncAnnotAndComments db p row rid).trace = p.trace ++ t ∧
      ∀ ra aa : List Nat, rid ∈ ra → cascadeOk ra aa t := by
  obtain ⟨t1, ht1, hc1, hid⟩ := syncAnnot_c8 p row rid
  simp only [syncAnnotAndComments]
  split
  · rename_i p' aid heq
    have hp' : (syncAnnot p row rid).1 = p' := congrArg Prod.fst heq
    have haid : (syncAnnot p row rid).2 = some aid := congrArg Prod.snd heq
    obtain ⟨t2, ht2, hc2⟩ := syncCommentList_c8 aid (fetchResearchComments db row.id) p'
    refine ⟨t1 ++ t2, ?_, ?_⟩
    · rw [show syncAnnotComments db p' row aid
            = syncCommentList p' aid (fetchResearchComments db row.id) from rfl,
         ht2, ← hp', ht1, List.append_assoc]
    · intro ra aa h
      refine cascadeOk_append t1 t2 ra aa (hc1 ra aa h) ?_
      exact hc2 _ _ (hid _ aid haid)
  · rename_i p' heq
    have hp' : (syncAnnot p row rid).1 = p' := congrArg Prod.fst heq
    refine ⟨t1, ?_, fun ra aa h => hc1 ra aa h⟩
    rw [← hp', ht1]

theorem syncAnnotList_c8 (db : ResearchDb) (rid : Nat) :
    ∀ (rows : List ResearchAnnotRow) (p : RPass),
      ∃ t, (syncAnnotList db p rid rows).trace = p.trace ++ t ∧
        ∀ ra aa : List Nat, rid ∈ ra → cascadeOk ra aa t := by
  intro rows
  induction rows with
  | nil =>
    intro p
    exact ⟨[], (List.append_nil _).symm, fun _ _ _ => trivial⟩
  | cons r rest ih =>
    intro p
    obtain ⟨t1, ht1, hc1⟩ := syncAnnotAndComments_c8 db p r rid
    obtain ⟨t2, ht2, hc2⟩ := ih (syncAnnotAndComments db p r rid)
    refine ⟨t1 ++ t2, ?_, ?_⟩
    · show (syncAnnotList db (syncAnnotAndComments db p r rid) rid rest).trace = _
      rw [ht2, ht1, List.append_assoc]
    · intro ra aa h
      exact cascadeOk_append t1 t2 ra aa (hc1 ra aa h) (hc2 _ _ (mem_resAvailList t1 h))

theorem syncItem_c8 (db : ResearchDb) (p : RPass) (item : ResearchItem) :
    ∃ t, (syncItem db p item).trace = p.trace ++ t ∧
      ∀ ra aa : List Nat, cascadeOk ra aa t := by
  obtain ⟨t1, ht1, hc1, hid⟩ := syncResource_c8 p item
  simp only [syncItem]
  split
  · rename_i p' rid heq
    have hp' : (syncResource p item).1 = p' := congrArg Prod.fst heq
    have hrid : (syncResource p item).2 = some rid := congrArg Prod.snd heq
    obtain ⟨t2, ht2, hc2⟩ := syncAnnotList_c8 db rid (fetchResearchAnnots db item.id) p'
    obtain ⟨t3, ht3, hc3⟩ := syncNoteList_c8 rid (fetchResearchNotes db item.id)
      (syncAnnotList db p' rid (fetchResearchAnnots db item.id))
    refine ⟨t1 ++ (t2 ++ t3), ?_, ?_⟩
    · rw [show syncItemNotes db (syncItemAnnots db p' item rid) item rid
            = syncNoteList (syncAnnotList db p' rid (fetchResearchAnnots db item.id)) rid
                (fetchResearchNotes db item.id) from rfl,
         ht3]
      rw [show syncAnnotList db p' rid (fetchResearchAnnots db item.id)
            = syncItemAnnots db p' item rid from rfl] at ht2 ⊢
      rw [ht2, ← hp', ht1, List.append_assoc, List.append_assoc]
    · intro ra aa
      refine cascadeOk_append t1 (t2 ++ t3) ra aa (hc1 ra aa) ?_
      have hin : rid ∈ resAvailList ra t1 := hid ra rid hrid
      refine cascadeOk_append t2 t3 _ _ (hc2 _ _ hin) ?_
      exact hc3 _ _ (mem_resAvailList t2 hin)
  · rename_i p' heq
    have hp' : (syncResource p item).1 = p' := congrArg Prod.fst heq
    refine ⟨t1, ?_, fun ra aa => hc1 ra aa⟩
    rw [← hp', ht1]

theorem syncItemList_c8 (db : ResearchDb) :
    ∀ (items : List ResearchItem) (p : RPass),
      ∃ t, (syncItemList db p items).trace = p.trace ++ t ∧
        ∀ ra aa : List Nat, cascadeOk ra aa t := by
  intro items
  induction items with
  | nil =>
    intro p
    exact ⟨[], (List.append_nil _).symm, fun _ _ => trivial⟩
  | cons i rest ih =>
    intro p
    obtain ⟨t1, ht1, hc1⟩ := syncItem_c8 db p i
    obtain ⟨t2, ht2, hc2⟩ := ih (syncItem db p i)
    refine ⟨t1 ++ t2, ?_, ?_⟩
    · show (syncItemList db (syncItem db p i) rest).trace = _
      rw [ht2, ht1, List.append_assoc]
    · intro ra aa
      exact cascadeOk_append t1 t2 ra aa (hc1 ra aa) (hc2 _ _)

theorem neutral_of_annDeleted {t : List Ev} (h : ∀ e ∈ t, ∃ i, e = Ev.annDeleted i) :
    ∀ ra aa : List Nat, cascadeOk ra aa t := by
  intro ra aa
  refine cascadeOk_of_neutral t ra aa ?_
  intro e he
  obtain ⟨i, hi⟩ := h e he
  rw [hi]
  trivial

theorem neutral_of_comDeleted {t : List Ev} (h : ∀ e ∈ t, ∃ i, e = Ev.comDeleted i) :
    ∀ ra aa : List Nat, cascadeOk ra aa t := by
  intro ra aa
  refine cascadeOk_of_neutral t ra aa ?_
  intro e he
  obtain ⟨i, hi⟩ := h e he
  rw [hi]
  trivial

theorem neutral_of_noteDeleted {t : List Ev} (h : ∀ e ∈ t, ∃ i, e = Ev.noteDeleted i) :
    ∀ ra aa : List Nat, cascadeOk ra aa t := by
  intro ra aa
  refine cascadeOk_of_neutral t ra aa ?_
  intro e he
  obtain ⟨i, hi⟩ := h e he
  rw [hi]
  trivial

theorem neutral_of_resDeleted {t : List Ev} (h : ∀ e ∈ t, ∃ i, e = Ev.resDeleted i) :
    ∀ ra aa : List Nat, cascadeOk ra aa t := by
  intro ra aa
  refine cascadeOk_of_neutral t ra aa ?_
  intro e he
  obtain ⟨i, hi⟩ := h e he
  rw [hi]
  trivial

/-- Claim C8.  In both reconciliation passes, every Annotation create in
the trace references a resource id produced by an earlier successful
resource create or lookup of that pass, and every Comment create
references an annotation id produced by an earlier successful annotation
create or lookup (note creates likewise reference an earlier resource id):
the traces are cascade-consistent starting from no available parents. -/
theorem C8_cascade_integrity :
    (∀ (st : Store) (req : LightSyncRequest),
        cascadeOk [] [] (syncHighlights st req).2.2) ∧
    (∀ (st : Store) (db : ResearchDb) (items : List ResearchItem),
        cascadeOk [] [] (syncAllEntities st db items).2.2) := by
  constructor
  · intro st req
    obtain ⟨t1, ht1, hc1⟩ := processUrlGroups_trace req.source req.highlights
      { store := st, resp := LightSyncResponse.zero, seen := [], trace := [] }
    obtain ⟨t2, ht2, hall2⟩ := sweepOrphans_light_trace
      ((processUrlGroups req.source
          { store := st, resp := LightSyncResponse.zero, seen := [], trace := [] }
          req.highlights).store.findAnnotsBySource req.source
        (match req.scope with
         | some scopeUrl =>
           match (processUrlGroups req.source
               { store := st, resp := LightSyncResponse.zero, seen := [], trace := [] }
               req.highlights).store.findResourceByTitle scopeUrl with
           | some r => some r.id
           | none => none
         | none => none))
      (processUrlGroups req.source
        { store := st, resp := LightSyncResponse.zero, seen := [], trace := [] }
        req.highlights)
    have key : (syncHighlights st req).2.2
        = (processUrlGroups req.source
            { store := st, resp := LightSyncResponse.zero, seen := [], trace := [] }
            req.highlights).trace ++ t2 := ht2
    rw [key, ht1]
    refine cascadeOk_append t1 t2 [] [] (hc1 [] []) ?_
    exact neutral_of_annDeleted hall2 _ _
  · intro st db items
    obtain ⟨u, hu, hcu⟩ := syncItemList_c8 db items (RPass.init st)
    obtain ⟨d1, hd1, hall1⟩ :=
      sweepComOrphanList_trace _ (syncItemList db (RPass.init st) items)
    obtain ⟨d2, hd2, hall2⟩ :=
      sweepAnnOrphanList_trace _ (deleteOrphanComments (syncItemList db (RPass.init st) items))
    obtain ⟨d3, hd3, hall3⟩ :=
      sweepNoteOrphanList_trace _ (deleteOrphanAnnots (deleteOrphanComments
        (syncItemList db (RPass.init st) items)))
    obtain ⟨d4, hd4, hall4⟩ :=
      sweepResOrphanList_trace _ (deleteOrphanNotes (deleteOrphanAnnots (deleteOrphanComments
        (syncItemList db (RPass.init st) items))))
    have key : (syncAllEntities st db items).2.2
        = (deleteOrphanNotes (deleteOrphanAnnots (deleteOrphanComments
            (syncItemList db (RPass.init st) items)))).trace ++ d4 := hd4
    rw [key]
    simp only [deleteOrphanNotes]
    rw [hd3]
    simp only [deleteOrphanAnnots]
    rw [hd2]
    simp only [deleteOrphanComments]
    rw [hd1, hu]
    refine cascadeOk_append _ d4 [] [] ?_ (neutral_of_resDeleted hall4 _ _)
    refine cascadeOk_append _ d3 [] [] ?_ (neutral_of_noteDeleted hall3 _ _)
    refine cascadeOk_append _ d2 [] [] ?_ (neutral_of_annDeleted hall2 _ _)
    refine cascadeOk_append _ d1 [] [] ?_ (neutral_of_comDeleted hall1 _ _)
    exact hcu [] []

def c8WitHighlight : LightHighlight :=
  { chunks := [], date := "d", group_id := 7, repr := "body", url := "page" }

def c8WitReq : LightSyncRequest :=
  { source := "light", scope := none, highlights := [("page", [c8WitHighlight])] }

/-- Claim C8, witness: the integrity statement applied at concrete inputs
for both handlers. -/
theorem C8_witness :
    cascadeOk [] [] (syncHighlights emptyStore c8WitReq).2.2 ∧
    cascadeOk [] [] (syncAllEntities emptyStore
      { annotations := [], comments := [], notes := [] }
      [{ id := "z", title := "T" }]).2.2 :=
  ⟨C8_cascade_integrity.1 emptyStore c8WitReq,
   C8_cascade_integrity.2 emptyStore
     { annotations := [], comments := [], notes := [] } [{ id := "z", title := "T" }]⟩

/-! Claim C3: idempotence machinery.  Store well-formedness: rowids of each
table are distinct and below the table's autoincrement counter (true of any
SQLite table and preserved by every operation). -/

def idsOkay (ids : List Nat) (next : Nat) : Prop :=
  ids.Nodup ∧ ∀ i ∈ ids, i < next

def Store.WF (st : Store) : Prop :=
  idsOkay (st.resources.map Resource.id) st.nextResourceId ∧
  idsOkay (st.annotations.map Annot.id) st.nextAnnotId ∧
  idsOkay (st.comments.map Comment.id) st.nextCommentId ∧
  idsOkay (st.notes.map Note.id) st.nextNoteId

instance (st : Store) : Decidable st.WF := by
  unfold Store.WF idsOkay
  infer_instance

theorem idsOkay_append_next {ids : List Nat} {next : Nat} (h : idsOkay ids next) :
    idsOkay (ids ++ [next]) (next + 1) := by
  obtain ⟨hn, hb⟩ := h
  constructor
  · rw [List.nodup_append]
    refine ⟨hn, List.nodup_singleton _, ?_⟩
    intro x hx hx'
    simp only [List.mem_singleton] at hx'
    subst hx'
    exact absurd (hb x hx) (lt_irrefl _)
  · intro i hi
    rcases List.mem_append.mp hi with h | h
    · exact Nat.lt_succ_of_lt (hb i h)
    · simp only [List.mem_singleton] at h
      subst h
      exact Nat.lt_succ_self _
  
theorem idsOkay_map_pres {α : Type} (f : α → α) (idf : α → Nat) (l : List α)
    (next : Nat) (hf : ∀ x, idf (f x) = idf x) (h : idsOkay (l.map idf) next) :
    idsOkay ((l.map f).map idf) next := by
  rw [List.map_map]
  rw [show (idf ∘ f) = fun a => idf (f a) from rfl]
  rw [List.map_congr_left (fun a _ => hf a)]
  exact h

theorem WF_createResource {st : Store} (x : CreateResource) (h : st.WF) :
    (st.createResource x).1.WF := by
  obtain ⟨h1, h2, h3, h4⟩ := h
  refine ⟨?_, h2, h3, h4⟩
  show idsOkay ((st.resources ++ [_]).map Resource.id) (st.nextResourceId + 1)
  rw [List.map_append]
  exact idsOkay_append_next h1

theorem WF_updateResource {st : Store} (i : Nat) (u : UpdateResource) (h : st.WF) :
    (st.updateResource i u).1.WF := by
  obtain ⟨h1, h2, h3, h4⟩ := h
  simp only [Store.updateResource]
  split
  · exact ⟨h1, h2, h3, h4⟩
  · split
    · exact ⟨h1, h2, h3, h4⟩
    · refine ⟨?_, h2, h3, h4⟩
      exact idsOkay_map_pres _ Resource.id st.resources st.nextResourceId
        (fun x => by by_cases hx : (x.id == i && x.deleted_at == none) = true <;>
          simp [hx, applyResourceUpdate]) h1

theorem WF_softDeleteResource {st : Store} (i : Nat) (h : st.WF) :
    (st.softDeleteResource i).1.WF := by
  obtain ⟨h1, h2, h3, h4⟩ := h
  refine ⟨?_, h2, h3, h4⟩
  exact idsOkay_map_pres _ Resource.id st.resources st.nextResourceId
    (fun x => by by_cases hx : (x.id == i) = true <;> simp [hx]) h1

theorem WF_createAnnot {st : Store} (x : CreateAnnot) (h : st.WF) :
    (st.createAnnot x).1.WF := by
  obtain ⟨h1, h2, h3, h4⟩ := h
  refine ⟨h1, ?_, h3, h4⟩
  show idsOkay ((st.annotations ++ [_]).map Annot.id) (st.nextAnnotId + 1)
  rw [List.map_append]
  exact idsOkay_append_next h2

theorem WF_updateAnnot {st : Store} (i : Nat) (u : UpdateAnnot) (h : st.WF) :
    (st.updateAnnot i u).1.WF := by
  obtain ⟨h1, h2, h3, h4⟩ := h
  simp only [Store.updateAnnot]
  split
  · exact ⟨h1, h2, h3, h4⟩
  · split
    · exact ⟨h1, h2, h3, h4⟩
    · refine ⟨h1, ?_, h3, h4⟩
      exact idsOkay_map_pres _ Annot.id st.annotations st.nextAnnotId
        (fun x => by by_cases hx : (x.id == i && x.deleted_at == none) = true <;>
          simp [hx, applyAnnotUpdate]) h2

theorem WF_softDeleteAnnot {st : Store} (i : Nat) (h : st.WF) :
    (st.softDeleteAnnot i).1.WF := by
  obtain ⟨h1, h2, h3, h4⟩ := h
  refine ⟨h1, ?_, h3, h4⟩
  exact idsOkay_map_pres _ Annot.id st.annotations st.nextAnnotId
    (fun x => by by_cases hx : (x.id == i) = true <;> simp [hx]) h2

theorem WF_createComment {st : Store} (x : CreateComment) (h : st.WF) :
    (st.createComment x).1.WF := by
  obtain ⟨h1, h2, h3, h4⟩ := h
  refine ⟨h1, h2, ?_, h4⟩
  show idsOkay ((st.comments ++ [_]).map Comment.id) (st.nextCommentId + 1)
  rw [List.map_append]
  exact idsOkay_append_next h3

theorem WF_updateComment {st : Store} (i : Nat) (u : UpdateComment) (h : st.WF) :
    (st.updateComment i u).1.WF := by
  obtain ⟨h1, h2, h3, h4⟩ := h
  simp only [Store.updateComment]
  split
  · exact ⟨h1, h2, h3, h4⟩
  · refine ⟨h1, h2, ?_, h4⟩
    exact idsOkay_map_pres _ Comment.id st.comments st.nextCommentId
      (fun x => by by_cases hx : (x.id == i && x.deleted_at == none) = true <;>
        simp [hx]) h3

theorem WF_softDeleteComment {st : Store} (i : Nat) (h : st.WF) :
    (st.softDeleteComment i).1.WF := by
  obtain ⟨h1, h2, h3, h4⟩ := h
  refine ⟨h1, h2, ?_, h4⟩
  exact idsOkay_map_pres _ Comment.id st.comments st.nextCommentId
    (fun x => by by_cases hx : (x.id == i) = true <;> simp [hx]) h3

theorem WF_createNote {st : Store} (x : CreateNote) (h : st.WF) :
    (st.createNote x).1.WF := by
  obtain ⟨h1, h2, h3, h4⟩ := h
  refine ⟨h1, h2, h3, ?_⟩
  show idsOkay ((st.notes ++ [_]).map Note.id) (st.nextNoteId + 1)
  rw [List.map_append]
  exact idsOkay_append_next h4

theorem WF_updateNote {st : Store} (i : Nat) (u : UpdateNote) (h : st.WF) :
    (st.updateNote i u).1.WF := by
  obtain ⟨h1, h2, h3, h4⟩ := h
  simp only [Store.updateNote]
  split
  · exact ⟨h1, h2, h3, h4⟩
  · refine ⟨h1, h2, h3, ?_⟩
    exact idsOkay_map_pres _ Note.id st.notes st.nextNoteId
      (fun x => by by_cases hx : (x.id == i && x.deleted_at == none) = true <;>
        simp [hx]) h4

theorem WF_softDeleteNote {st : Store} (i : Nat) (h : st.WF) :
    (st.softDeleteNote i).1.WF := by
  obtain ⟨h1, h2, h3, h4⟩ := h
  refine ⟨h1, h2, h3, ?_⟩
  exact idsOkay_map_pres _ Note.id st.notes st.nextNoteId
    (fun x => by by_cases hx : (x.id == i) = true <;> simp [hx]) h4

/-! Per-table lemmas about lookup, create, update and soft delete, used by
the idempotence proof. -/

/-- A live annotation carrying external id e with content hash ch is
findable. -/
def annFact (st : Store) (e ch : String) : Prop :=
  ∃ a, st.findAnnotByExternalId e = some a ∧ a.content_hash = some ch

/-- A live resource carrying external id e with content hash ch is
findable. -/
def resFact (st : Store) (e ch : String) : Prop :=
  ∃ r, st.findResourceByExternalId e = some r ∧ r.content_hash = some ch

/-- A live resource with the given title exists. -/
def resTitleFact (st : Store) (url : String) : Prop :=
  (st.findResourceByTitle url).isSome

def annUpdMap (u : UpdateAnnot) (i t : Nat) : Annot → Annot :=
  fun a => if a.id == i && a.deleted_at == none then applyAnnotUpdate a u t else a

def resUpdMap (u : UpdateResource) (i t : Nat) : Resource → Resource :=
  fun r => if r.id == i && r.deleted_at == none then applyResourceUpdate r u t else r

def createdAnnotRow (st : Store) (x : CreateAnnot) : Annot :=
  { id := st.nextAnnotId, resource_id := x.resource_id, text := x.text,
    color := x.color, boundary := x.boundary, external_id := x.external_id,
    content_hash := x.content_hash, deleted_at := none,
    created_at := st.time, updated_at := st.time }

def createdResourceRow (st : Store) (x : CreateResource) : Resource :=
  { id := st.nextResourceId, title := x.title, resource_type := x.resource_type,
    external_id := x.external_id, content_hash := x.content_hash,
    config := none, deleted_at := none, created_at := st.time, updated_at := st.time }

theorem findAnnot_mem {st : Store} {e : String} {a : Annot}
    (h : st.findAnnotByExternalId e = some a) :
    a ∈ st.annotations ∧ a.external_id = some e ∧ a.deleted_at = none := by
  have hm := List.mem_of_find?_eq_some h
  have hp := List.find?_some h
  simp only [Bool.and_eq_true, beq_iff_eq] at hp
  exact ⟨hm, hp.1, hp.2⟩

theorem findResource_mem {st : Store} {e : String} {r : Resource}
    (h : st.findResourceByExternalId e = some r) :
    r ∈ st.resources ∧ r.external_id = some e ∧ r.deleted_at = none := by
  have hm := List.mem_of_find?_eq_some h
  have hp := List.find?_some h
  simp only [Bool.and_eq_true, beq_iff_eq] at hp
  exact ⟨hm, hp.1, hp.2⟩

theorem findResourceTitle_mem {st : Store} {url : String} {r : Resource}
    (h : st.findResourceByTitle url = some r) :
    r ∈ st.resources ∧ r.title = url ∧ r.deleted_at = none := by
  have hm := List.mem_of_find?_eq_some h
  have hp := List.find?_some h
  simp only [Bool.and_eq_true, beq_iff_eq] at hp
  exact ⟨hm, hp.1, hp.2⟩

theorem getAnnot_of_mem {st : Store} {a : Annot}
    (hwf : (st.annotations.map Annot.id).Nodup)
    (hm : a ∈ st.annotations) (hl : a.deleted_at = none) :
    st.getAnnot a.id = some a := by
  cases hf : st.getAnnot a.id with
  | none =>
    exfalso
    have := List.find?_eq_none.mp hf a hm
    simp [hl] at this
  | some b =>
    have hbm := List.mem_of_find?_eq_some hf
    have hbp := List.find?_some hf
    simp only [Bool.and_eq_true, beq_iff_eq] at hbp
    rw [nodup_map_eq_of_eq hwf hbm hm hbp.1]

theorem getResource_of_mem {st : Store} {r : Resource}
    (hwf : (st.resources.map Resource.id).Nodup)
    (hm : r ∈ st.resources) (hl : r.deleted_at = none) :
    st.getResource r.id = some r := by
  cases hf : st.getResource r.id with
  | none =>
    exfalso
    have := List.find?_eq_none.mp hf r hm
    simp [hl] at this
  | some b =>
    have hbm := List.mem_of_find?_eq_some hf
    have hbp := List.find?_some hf
    simp only [Bool.and_eq_true, beq_iff_eq] at hbp
    rw [nodup_map_eq_of_eq hwf hbm hm hbp.1]

theorem annUpdMap_pres (u : UpdateAnnot) (i t : Nat) (a : Annot) :
    (annUpdMap u i t a).id = a.id ∧ (annUpdMap u i t a).external_id = a.external_id ∧
    (annUpdMap u i t a).deleted_at = a.deleted_at := by
  by_cases h : (a.id == i && a.deleted_at == none) = true <;>
    simp [annUpdMap, h, applyAnnotUpdate]

theorem resUpdMap_pres (u : UpdateResource) (i t : Nat) (r : Resource) :
    (resUpdMap u i t r).id = r.id ∧ (resUpdMap u i t r).external_id = r.external_id ∧
    (resUpdMap u i t r).deleted_at = r.deleted_at := by
  by_cases h : (r.id == i && r.deleted_at == none) = true <;>
    simp [resUpdMap, h, applyResourceUpdate]

theorem updateAnnot_found {st : Store} {u : UpdateAnnot} {e : String} {ex : Annot}
    (hwf : (st.annotations.map Annot.id).Nodup)
    (hfind : st.findAnnotByExternalId e = some ex)
    (hne : (u.text == none && u.color == none && u.boundary == none
        && u.content_hash == none) = false) :
    st.updateAnnot ex.id u =
      ({ st with annotations := st.annotations.map (annUpdMap u ex.id st.time),
                 time := st.time + 1 },
       some (applyAnnotUpdate ex u st.time)) := by
  obtain ⟨hm, he, hl⟩ := findAnnot_mem hfind
  have hget := getAnnot_of_mem hwf hm hl
  simp only [Store.updateAnnot, hget, hne, Bool.false_eq_true, if_false]
  have hmap : ((st.annotations.map (annUpdMap u ex.id st.time)).find?
      (fun a => a.id == ex.id && a.deleted_at == none))
      = (st.annotations.find? (fun a => a.id == ex.id && a.deleted_at == none)).map
          (annUpdMap u ex.id st.time) := by
    refine find?_map_congr _ _ _ ?_
    intro x _
    rw [(annUpdMap_pres u ex.id st.time x).1, (annUpdMap_pres u ex.id st.time x).2.2]
  refine Prod.ext rfl ?_
  show ((st.annotations.map (annUpdMap u ex.id st.time)).find?
      (fun a => a.id == ex.id && a.deleted_at == none)) = _
  rw [hmap]
  rw [show st.annotations.find? (fun a => a.id == ex.id && a.deleted_at == none)
      = st.getAnnot ex.id from rfl, hget]
  show some (annUpdMap u ex.id st.time ex) = _
  simp [annUpdMap, hl]

theorem updateResource_found {st : Store} {u : UpdateResource} {e : String} {ex : Resource}
    (hwf : (st.resources.map Resource.id).Nodup)
    (hfind : st.findResourceByExternalId e = some ex)
    (hne : (u.title == none && u.resource_type == none && u.content_hash == none
        && u.config == none) = false) :
    st.updateResource ex.id u =
      ({ st with resources := st.resources.map (resUpdMap u ex.id st.time),
                 time := st.time + 1 },
       some (applyResourceUpdate ex u st.time)) := by
  obtain ⟨hm, he, hl⟩ := findResource_mem hfind
  have hget := getResource_of_mem hwf hm hl
  simp only [Store.updateResource, hget, hne, Bool.false_eq_true, if_false]
  have hmap : ((st.resources.map (resUpdMap u ex.id st.time)).find?
      (fun r => r.id == ex.id && r.deleted_at == none))
      = (st.resources.find? (fun r => r.id == ex.id && r.deleted_at == none)).map
          (resUpdMap u ex.id st.time) := by
    refine find?_map_congr _ _ _ ?_
    intro x _
    rw [(resUpdMap_pres u ex.id st.time x).1, (resUpdMap_pres u ex.id st.time x).2.2]
  refine Prod.ext rfl ?_
  show ((st.resources.map (resUpdMap u ex.id st.time)).find?
      (fun r => r.id == ex.id && r.deleted_at == none)) = _
  rw [hmap]
  rw [show st.resources.find? (fun r => r.id == ex.id && r.deleted_at == none)
      = st.getResource ex.id from rfl, hget]
  show some (resUpdMap u ex.id st.time ex) = _
  simp [resUpdMap, hl]

theorem findAnnot_map_pres (st : Store) (f : Annot → Annot) (t : Nat)
    (hf : ∀ a, (f a).external_id = a.external_id ∧ (f a).deleted_at = a.deleted_at)
    (e : String) :
    (Store.mk st.resources (st.annotations.map f) st.comments st.notes
        st.nextResourceId st.nextAnnotId st.nextCommentId st.nextNoteId t
      ).findAnnotByExternalId e
      = (st.findAnnotByExternalId e).map f := by
  refine find?_map_congr _ _ _ ?_
  intro x _
  rw [(hf x).1, (hf x).2]

theorem findResource_map_pres (st : Store) (f : Resource → Resource) (t : Nat)
    (hf : ∀ r, (f r).external_id = r.external_id ∧ (f r).deleted_at = r.deleted_at)
    (e : String) :
    (Store.mk (st.resources.map f) st.annotations st.comments st.notes
        st.nextResourceId st.nextAnnotId st.nextCommentId st.nextNoteId t
      ).findResourceByExternalId e
      = (st.findResourceByExternalId e).map f := by
  refine find?_map_congr _ _ _ ?_
  intro x _
  rw [(hf x).1, (hf x).2]

/-- An annotation update on a row found under another external id leaves
every annFact for a different id intact. -/
theorem annFact_after_update {st : Store} {u : UpdateAnnot} {e e' ch' : String} {ex : Annot}
    (hwf : (st.annotations.map Annot.id).Nodup)
    (hfind : st.findAnnotByExternalId e = some ex)
    (hne : (u.text == none && u.color == none && u.boundary == none
        && u.content_hash == none) = false)
    (hdiff : e' ≠ e)
    (hfact : annFact st e' ch') :
    annFact (st.updateAnnot ex.id u).1 e' ch' := by
  obtain ⟨b, hb, hbh⟩ := hfact
  rw [updateAnnot_found hwf hfind hne]
  have hmap := findAnnot_map_pres st (annUpdMap u ex.id st.time) (st.time + 1)
    (fun a => ⟨(annUpdMap_pres u ex.id st.time a).2.1, (annUpdMap_pres u ex.id st.time a).2.2⟩) e'
  refine ⟨b, ?_, hbh⟩
  show (Store.mk st.resources (st.annotations.map (annUpdMap u ex.id st.time)) st.comments
      st.notes st.nextResourceId st.nextAnnotId st.nextCommentId st.nextNoteId
      (st.time + 1)).findAnnotByExternalId e' = some b
  rw [hmap, hb]
  obtain ⟨hbm, hbe, hbl⟩ := findAnnot_mem hb
  obtain ⟨hxm, hxe, hxl⟩ := findAnnot_mem hfind
  have hbne : (b.id == ex.id) = false := by
    by_cases hid : b.id = ex.id
    · exfalso
      have : b = ex := nodup_map_eq_of_eq hwf hbm hxm hid
      rw [this] at hbe
      rw [hxe] at hbe
      exact hdiff (Option.some.inj hbe).symm
    · simp [hid]
  simp [annUpdMap, hbne]

/-- The self fact after an update that writes the new content hash. -/
theorem annFact_after_update_self {st : Store} {u : UpdateAnnot} {e ch : String} {ex : Annot}
    (hwf : (st.annotations.map Annot.id).Nodup)
    (hfind : st.findAnnotByExternalId e = some ex)
    (hne : (u.text == none && u.color == none && u.boundary == none
        && u.content_hash == none) = false)
    (hch : u.content_hash = some ch) :
    annFact (st.updateAnnot ex.id u).1 e ch := by
  rw [updateAnnot_found hwf hfind hne]
  have hmap := findAnnot_map_pres st (annUpdMap u ex.id st.time) (st.time + 1)
    (fun a => ⟨(annUpdMap_pres u ex.id st.time a).2.1, (annUpdMap_pres u ex.id st.time a).2.2⟩) e
  obtain ⟨hxm, hxe, hxl⟩ := findAnnot_mem hfind
  refine ⟨annUpdMap u ex.id st.time ex, ?_, ?_⟩
  · show (Store.mk st.resources (st.annotations.map (annUpdMap u ex.id st.time)) st.comments
        st.notes st.nextResourceId st.nextAnnotId st.nextCommentId st.nextNoteId
        (st.time + 1)).findAnnotByExternalId e = _
    rw [hmap, hfind]
    rfl
  · simp [annUpdMap, hxl, applyAnnotUpdate, hch]

theorem annFact_after_create {st : Store} {x : CreateAnnot} {e ch : String}
    (hf : annFact st e ch) : annFact (st.createAnnot x).1 e ch := by
  obtain ⟨a, ha, hah⟩ := hf
  exact ⟨a, find?_append_some _ ha, hah⟩

theorem findAnnot_create_new {st : Store} {x : CreateAnnot} {e : String}
    (hnone : st.findAnnotByExternalId e = none) (hx : x.external_id = some e) :
    (st.createAnnot x).1.findAnnotByExternalId e = some (createdAnnotRow st x) := by
  show ((st.annotations ++ [createdAnnotRow st x]).find? _) = _
  rw [find?_append_none _ hnone]
  simp [List.find?, createdAnnotRow, hx]

theorem resFact_after_createAnnot {st : Store} {x : CreateAnnot} {e ch : String}
    (hf : resFact st e ch) : resFact (st.createAnnot x).1 e ch := hf

theorem resFact_after_create {st : Store} {x : CreateResource} {e ch : String}
    (hf : resFact st e ch) : resFact (st.createResource x).1 e ch := by
  obtain ⟨r, hr, hrh⟩ := hf
  exact ⟨r, find?_append_some _ hr, hrh⟩

theorem findResource_create_new {st : Store} {x : CreateResource} {e : String}
    (hnone : st.findResourceByExternalId e = none) (hx : x.external_id = some e) :
    (st.createResource x).1.findResourceByExternalId e = some (createdResourceRow st x) := by
  show ((st.resources ++ [createdResourceRow st x]).find? _) = _
  rw [find?_append_none _ hnone]
  simp [List.find?, createdResourceRow, hx]

theorem resFact_after_update {st : Store} {u : UpdateResource} {e e' ch' : String}
    {ex : Resource}
    (hwf : (st.resources.map Resource.id).Nodup)
    (hfind : st.findResourceByExternalId e = some ex)
    (hne : (u.title == none && u.resource_type == none && u.content_hash == none
        && u.config == none) = false)
    (hdiff : e' ≠ e)
    (hf : resFact st e' ch') :
    resFact (st.updateResource ex.id u).1 e' ch' := by
  obtain ⟨b, hb, hbh⟩ := hf
  rw [updateResource_found hwf hfind hne]
  have hmap := findResource_map_pres st (resUpdMap u ex.id st.time) (st.time + 1)
    (fun r => ⟨(resUpdMap_pres u ex.id st.time r).2.1, (resUpdMap_pres u ex.id st.time r).2.2⟩) e'
  refine ⟨b, ?_, hbh⟩
  show (Store.mk (st.resources.map (resUpdMap u ex.id st.time)) st.annotations st.comments
      st.notes st.nextResourceId st.nextAnnotId st.nextCommentId st.nextNoteId
      (st.time + 1)).findResourceByExternalId e' = some b
  rw [hmap, hb]
  obtain ⟨hbm, hbe, hbl⟩ := findResource_mem hb
  obtain ⟨hxm, hxe, hxl⟩ := findResource_mem hfind
  have hbne : (b.id == ex.id) = false := by
    by_cases hid : b.id = ex.id
    · exfalso
      have : b = ex := nodup_map_eq_of_eq hwf hbm hxm hid
      rw [this] at hbe
      rw [hxe] at hbe
      exact hdiff (Option.some.inj hbe).symm
    · simp [hid]
  simp [resUpdMap, hbne]

theorem resFact_after_update_self {st : Store} {u : UpdateResource} {e ch : String}
    {ex : Resource}
    (hwf : (st.resources.map Resource.id).Nodup)
    (hfind : st.findResourceByExternalId e = some ex)
    (hne : (u.title == none && u.resource_type == none && u.content_hash == none
        && u.config == none) = false)
    (hch : u.content_hash = some ch) :
    resFact (st.updateResource ex.id u).1 e ch := by
  rw [updateResource_found hwf hfind hne]
  have hmap := findResource_map_pres st (resUpdMap u ex.id st.time) (st.time + 1)
    (fun r => ⟨(resUpdMap_pres u ex.id st.time r).2.1, (resUpdMap_pres u ex.id st.time r).2.2⟩) e
  obtain ⟨hxm, hxe, hxl⟩ := findResource_mem hfind
  refine ⟨resUpdMap u ex.id st.time ex, ?_, ?_⟩
  · show (Store.mk (st.resources.map (resUpdMap u ex.id st.time)) st.annotations st.comments
        st.notes st.nextResourceId st.nextAnnotId st.nextCommentId st.nextNoteId
        (st.time + 1)).findResourceByExternalId e = _
    rw [hmap, hfind]
    rfl
  · simp [resUpdMap, hxl, applyResourceUpdate, hch]

theorem annFact_after_softDelete {st : Store} {j : Nat} {e ch : String}
    (hwf : (st.annotations.map Annot.id).Nodup)
    (hfact : annFact st e ch)
    (hno : ∀ o ∈ st.annotations, o.id = j → o.external_id ≠ some e) :
    annFact (st.softDeleteAnnot j).1 e ch := by
  obtain ⟨a, ha, hah⟩ := hfact
  obtain ⟨ham, hae, hal⟩ := findAnnot_mem ha
  have hmap : ((st.annotations.map (fun b =>
        if b.id == j then { b with deleted_at := some st.time } else b)).find?
      (fun b => b.external_id == some e && b.deleted_at == none))
      = (st.annotations.find? (fun b => b.external_id == some e && b.deleted_at == none)).map
          (fun b => if b.id == j then { b with deleted_at := some st.time } else b) := by
    refine find?_map_congr _ _ _ ?_
    intro x hx
    by_cases hid : (x.id == j) = true
    · have hxe : x.external_id ≠ some e := hno x hx (beq_iff_eq.mp hid)
      have hxe' : (x.external_id == some e) = false := by simp [hxe]
      simp [hid, hxe']
    · simp only [hid, Bool.false_eq_true, if_false]
  have haj : (a.id == j) = false := by
    by_cases hid : a.id = j
    · exact absurd hae (hno a ham hid)
    · simp [hid]
  have ha' : st.annotations.find?
      (fun b => b.external_id == some e && b.deleted_at == none) = some a := ha
  refine ⟨a, ?_, hah⟩
  show ((st.annotations.map _).find? _) = some a
  rw [hmap, ha']
  simp only [Option.map_some']
  rw [if_neg (by simp [haj] : ¬ (a.id == j) = true)]

theorem softDeleteAnnot_kills (st : Store) (j : Nat) :
    ∀ b ∈ (st.softDeleteAnnot j).1.annotations, b.id = j → b.deleted_at ≠ none := by
  intro b hb hid
  simp only [Store.softDeleteAnnot, List.mem_map] at hb
  obtain ⟨c, _, hc⟩ := hb
  by_cases h : (c.id == j) = true
  · rw [← hc]
    simp [h]
  · rw [← hc] at hid ⊢
    simp only [h, Bool.false_eq_true, if_false] at hid ⊢
    exact absurd hid (by simpa using h)

theorem softDeleteAnnot_dead_stay (st : Store) (j i : Nat)
    (h : ∀ b ∈ st.annotations, b.id = i → b.deleted_at ≠ none) :
    ∀ b ∈ (st.softDeleteAnnot j).1.annotations, b.id = i → b.deleted_at ≠ none := by
  intro b hb hid
  simp only [Store.softDeleteAnnot, List.mem_map] at hb
  obtain ⟨c, hcm, hc⟩ := hb
  by_cases hcd : (c.id == j) = true
  · rw [← hc]
    simp [hcd]
  · rw [← hc] at hid ⊢
    simp only [hcd, Bool.false_eq_true, if_false] at hid ⊢
    exact h c hcm hid

theorem softDeleteAnnot_live_sub (st : Store) (j : Nat) :
    ∀ b ∈ (st.softDeleteAnnot j).1.annotations, b.deleted_at = none →
      b ∈ st.annotations := by
  intro b hb hl
  simp only [Store.softDeleteAnnot, List.mem_map] at hb
  obtain ⟨c, hcm, hc⟩ := hb
  by_cases hcd : (c.id == j) = true
  · rw [← hc] at hl
    simp [hcd] at hl
  · rw [← hc]
    simp only [hcd, Bool.false_eq_true, if_false]
    exact hcm

theorem resFact_after_softDeleteRes {st : Store} {j : Nat} {e ch : String}
    (hwf : (st.resources.map Resource.id).Nodup)
    (hfact : resFact st e ch)
    (hno : ∀ o ∈ st.resources, o.id = j → o.external_id ≠ some e) :
    resFact (st.softDeleteResource j).1 e ch := by
  obtain ⟨a, ha, hah⟩ := hfact
  obtain ⟨ham, hae, hal⟩ := findResource_mem ha
  have hmap : ((st.resources.map (fun b =>
        if b.id == j then { b with deleted_at := some st.time } else b)).find?
      (fun b => b.external_id == some e && b.deleted_at == none))
      = (st.resources.find? (fun b => b.external_id == some e && b.deleted_at == none)).map
          (fun b => if b.id == j then { b with deleted_at := some st.time } else b) := by
    refine find?_map_congr _ _ _ ?_
    intro x hx
    by_cases hid : (x.id == j) = true
    · have hxe : x.external_id ≠ some e := hno x hx (beq_iff_eq.mp hid)
      have hxe' : (x.external_id == some e) = false := by simp [hxe]
      simp [hid, hxe']
    · simp only [hid, Bool.false_eq_true, if_false]
  have haj : (a.id == j) = false := by
    by_cases hid : a.id = j
    · exact absurd hae (hno a ham hid)
    · simp [hid]
  have ha' : st.resources.find?
      (fun b => b.external_id == some e && b.deleted_at == none) = some a := ha
  refine ⟨a, ?_, hah⟩
  show ((st.resources.map _).find? _) = some a
  rw [hmap, ha']
  simp only [Option.map_some']
  rw [if_neg (by simp [haj] : ¬ (a.id == j) = true)]

theorem softDeleteResource_kills (st : Store) (j : Nat) :
    ∀ b ∈ (st.softDeleteResource j).1.resources, b.id = j → b.deleted_at ≠ none := by
  intro b hb hid
  simp only [Store.softDeleteResource, List.mem_map] at hb
  obtain ⟨c, _, hc⟩ := hb
  by_cases h : (c.id == j) = true
  · rw [← hc]
    simp [h]
  · rw [← hc] at hid ⊢
    simp only [h, Bool.false_eq_true, if_false] at hid ⊢
    exact absurd hid (by simpa using h)

theorem softDeleteResource_dead_stay (st : Store) (j i : Nat)
    (h : ∀ b ∈ st.resources, b.id = i → b.deleted_at ≠ none) :
    ∀ b ∈ (st.softDeleteResource j).1.resources, b.id = i → b.deleted_at ≠ none := by
  intro b hb hid
  simp only [Store.softDeleteResource, List.mem_map] at hb
  obtain ⟨c, hcm, hc⟩ := hb
  by_cases hcd : (c.id == j) = true
  · rw [← hc]
    simp [hcd]
  · rw [← hc] at hid ⊢
    simp only [hcd, Bool.false_eq_true, if_false] at hid ⊢
    exact h c hcm hid

theorem softDeleteResource_live_sub (st : Store) (j : Nat) :
    ∀ b ∈ (st.softDeleteResource j).1.resources, b.deleted_at = none →
      b ∈ st.resources := by
  intro b hb hl
  simp only [Store.softDeleteResource, List.mem_map] at hb
  obtain ⟨c, hcm, hc⟩ := hb
  by_cases hcd : (c.id == j) = true
  · rw [← hc] at hl
    simp [hcd] at hl
  · rw [← hc]
    simp only [hcd, Bool.false_eq_true, if_false]
    exact hcm

/-! Congruence through equal tables. -/

theorem findAnnot_congr {st₁ st₂ : Store} (h : st₁.annotations = st₂.annotations)
    (e : String) : st₁.findAnnotByExternalId e = st₂.findAnnotByExternalId e := by
  simp [Store.findAnnotByExternalId, h]

theorem findResource_congr {st₁ st₂ : Store} (h : st₁.resources = st₂.resources)
    (e : String) : st₁.findResourceByExternalId e = st₂.findResourceByExternalId e := by
  simp [Store.findResourceByExternalId, h]

theorem findResourceTitle_congr {st₁ st₂ : Store} (h : st₁.resources = st₂.resources)
    (url : String) : st₁.findResourceByTitle url = st₂.findResourceByTitle url := by
  simp [Store.findResourceByTitle, h]

theorem findComment_congr {st₁ st₂ : Store} (h : st₁.comments = st₂.comments)
    (e : String) : st₁.findCommentByExternalId e = st₂.findCommentByExternalId e := by
  simp [Store.findCommentByExternalId, h]

theorem findNote_congr {st₁ st₂ : Store} (h : st₁.notes = st₂.notes)
    (e : String) : st₁.findNoteByExternalId e = st₂.findNoteByExternalId e := by
  simp [Store.findNoteByExternalId, h]

theorem resTitleFact_after_create {st : Store} {x : CreateResource} {url : String}
    (hf : resTitleFact st url) : resTitleFact (st.createResource x).1 url := by
  exact find?_isSome_append _ hf

/-! Comment and note table lemmas (the research cascade's lower kinds). -/

def comFact (st : Store) (e ch : String) : Prop :=
  ∃ c, st.findCommentByExternalId e = some c ∧ c.content_hash = some ch

def noteFact (st : Store) (e ch : String) : Prop :=
  ∃ n, st.findNoteByExternalId e = some n ∧ n.content_hash = some ch

def comUpdMap (u : UpdateComment) (i t : Nat) : Comment → Comment :=
  fun c => if c.id == i && c.deleted_at == none then
    { c with content := u.content,
             content_hash := match u.content_hash with
                             | some h => some h
                             | none => c.content_hash,
             updated_at := t }
  else c

def noteUpdMap (u : UpdateNote) (i t : Nat) : Note → Note :=
  fun n => if n.id == i && n.deleted_at == none then
    { n with content := u.content,
             content_hash := match u.content_hash with
                             | some h => some h
                             | none => n.content_hash,
             updated_at := t }
  else n

def createdCommentRow (st : Store) (x : CreateComment) : Comment :=
  { id := st.nextCommentId, annotation_id := x.annotation_id, content := x.content,
    external_id := x.external_id, content_hash := x.content_hash,
    deleted_at := none, created_at := st.time, updated_at := st.time }

def createdNoteRow (st : Store) (x : CreateNote) : Note :=
  { id := st.nextNoteId, resource_id := x.resource_id, content := x.content,
    external_id := x.external_id, content_hash := x.content_hash,
    deleted_at := none, created_at := st.time, updated_at := st.time }

theorem findComment_mem {st : Store} {e : String} {c : Comment}
    (h : st.findCommentByExternalId e = some c) :
    c ∈ st.comments ∧ c.external_id = some e ∧ c.deleted_at = none := by
  have hm := List.mem_of_find?_eq_some h
  have hp := List.find?_some h
  simp only [Bool.and_eq_true, beq_iff_eq] at hp
  exact ⟨hm, hp.1, hp.2⟩

theorem findNote_mem {st : Store} {e : String} {n : Note}
    (h : st.findNoteByExternalId e = some n) :
    n ∈ st.notes ∧ n.external_id = some e ∧ n.deleted_at = none := by
  have hm := List.mem_of_find?_eq_some h
  have hp := List.find?_some h
  simp only [Bool.and_eq_true, beq_iff_eq] at hp
  exact ⟨hm, hp.1, hp.2⟩

theorem getComment_of_mem {st : Store} {c : Comment}
    (hwf : (st.comments.map Comment.id).Nodup)
    (hm : c ∈ st.comments) (hl : c.deleted_at = none) :
    st.getComment c.id = some c := by
  cases hf : st.getComment c.id with
  | none =>
    exfalso
    have := List.find?_eq_none.mp hf c hm
    simp [hl] at this
  | some b =>
    have hbm := List.mem_of_find?_eq_some hf
    have hbp := List.find?_some hf
    simp only [Bool.and_eq_true, beq_iff_eq] at hbp
    rw [nodup_map_eq_of_eq hwf hbm hm hbp.1]

theorem getNote_of_mem {st : Store} {n : Note}
    (hwf : (st.notes.map Note.id).Nodup)
    (hm : n ∈ st.notes) (hl : n.deleted_at = none) :
    st.getNote n.id = some n := by
  cases hf : st.getNote n.id with
  | none =>
    exfalso
    have := List.find?_eq_none.mp hf n hm
    simp [hl] at this
  | some b =>
    have hbm := List.mem_of_find?_eq_some hf
    have hbp := List.find?_some hf
    simp only [Bool.and_eq_true, beq_iff_eq] at hbp
    rw [nodup_map_eq_of_eq hwf hbm hm hbp.1]

theorem comUpdMap_pres (u : UpdateComment) (i t : Nat) (c : Comment) :
    (comUpdMap u i t c).id = c.id ∧ (comUpdMap u i t c).external_id = c.external_id ∧
    (comUpdMap u i t c).deleted_at = c.deleted_at := by
  by_cases h : (c.id == i && c.deleted_at == none) = true <;> simp [comUpdMap, h]

theorem noteUpdMap_pres (u : UpdateNote) (i t : Nat) (n : Note) :
    (noteUpdMap u i t n).id = n.id ∧ (noteUpdMap u i t n).external_id = n.external_id ∧
    (noteUpdMap u i t n).deleted_at = n.deleted_at := by
  by_cases h : (n.id == i && n.deleted_at == none) = true <;> simp [noteUpdMap, h]

theorem updateComment_found {st : Store} {u : UpdateComment} {e : String} {ex : Comment}
    (hwf : (st.comments.map Comment.id).Nodup)
    (hfind : st.findCommentByExternalId e = some ex) :
    st.updateComment ex.id u =
      ({ st with comments := st.comments.map (comUpdMap u ex.id st.time),
                 time := st.time + 1 },
       some (comUpdMap u ex.id st.time ex)) := by
  obtain ⟨hm, he, hl⟩ := findComment_mem hfind
  have hget := getComment_of_mem hwf hm hl
  simp only [Store.updateComment, hget]
  have hmap : ((st.comments.map (comUpdMap u ex.id st.time)).find?
      (fun c => c.id == ex.id && c.deleted_at == none))
      = (st.comments.find? (fun c => c.id == ex.id && c.deleted_at == none)).map
          (comUpdMap u ex.id st.time) := by
    refine find?_map_congr _ _ _ ?_
    intro x _
    rw [(comUpdMap_pres u ex.id st.time x).1, (comUpdMap_pres u ex.id st.time x).2.2]
  refine Prod.ext rfl ?_
  show ((st.comments.map (comUpdMap u ex.id st.time)).find?
      (fun c => c.id == ex.id && c.deleted_at == none)) = _
  rw [hmap]
  rw [show st.comments.find? (fun c => c.id == ex.id && c.deleted_at == none)
      = st.getComment ex.id from rfl, hget]
  rfl

theorem updateNote_found {st : Store} {u : UpdateNote} {e : String} {ex : Note}
    (hwf : (st.notes.map Note.id).Nodup)
    (hfind : st.findNoteByExternalId e = some ex) :
    st.updateNote ex.id u =
      ({ st with notes := st.notes.map (noteUpdMap u ex.id st.time),
                 time := st.time + 1 },
       some (noteUpdMap u ex.id st.time ex)) := by
  obtain ⟨hm, he, hl⟩ := findNote_mem hfind
  have hget := getNote_of_mem hwf hm hl
  simp only [Store.updateNote, hget]
  have hmap : ((st.notes.map (noteUpdMap u ex.id st.time)).find?
      (fun n => n.id == ex.id && n.deleted_at == none))
      = (st.notes.find? (fun n => n.id == ex.id && n.deleted_at == none)).map
          (noteUpdMap u ex.id st.time) := by
    refine find?_map_congr _ _ _ ?_
    intro x _
    rw [(noteUpdMap_pres u ex.id st.time x).1, (noteUpdMap_pres u ex.id st.time x).2.2]
  refine Prod.ext rfl ?_
  show ((st.notes.map (noteUpdMap u ex.id st.time)).find?
      (fun n => n.id == ex.id && n.deleted_at == none)) = _
  rw [hmap]
  rw [show st.notes.find? (fun n => n.id == ex.id && n.deleted_at == none)
      = st.getNote ex.id from rfl, hget]
  rfl

theorem findComment_map_pres (st : Store) (f : Comment → Comment) (t : Nat)
    (hf : ∀ c, (f c).external_id = c.external_id ∧ (f c).deleted_at = c.deleted_at)
    (e : String) :
    (Store.mk st.resources st.annotations (st.comments.map f) st.notes
        st.nextResourceId st.nextAnnotId st.nextCommentId st.nextNoteId t
      ).findCommentByExternalId e
      = (st.findCommentByExternalId e).map f := by
  refine find?_map_congr _ _ _ ?_
  intro x _
  rw [(hf x).1, (hf x).2]

theorem findNote_map_pres (st : Store) (f : Note → Note) (t : Nat)
    (hf : ∀ n, (f n).external_id = n.external_id ∧ (f n).deleted_at = n.deleted_at)
    (e : String) :
    (Store.mk st.resources st.annotations st.comments (st.notes.map f)
        st.nextResourceId st.nextAnnotId st.nextCommentId st.nextNoteId t
      ).findNoteByExternalId e
      = (st.findNoteByExternalId e).map f := by
  refine find?_map_congr _ _ _ ?_
  intro x _
  rw [(hf x).1, (hf x).2]

theorem comFact_after_update {st : Store} {u : UpdateComment} {e e' ch' : String}
    {ex : Comment}
    (hwf : (st.comments.map Comment.id).Nodup)
    (hfind : st.findCommentByExternalId e = some ex)
    (hdiff : e' ≠ e)
    (hfact : comFact st e' ch') :
    comFact (st.updateComment ex.id u).1 e' ch' := by
  obtain ⟨b, hb, hbh⟩ := hfact
  rw [updateComment_found hwf hfind]
  have hmap := findComment_map_pres st (comUpdMap u ex.id st.time) (st.time + 1)
    (fun c => ⟨(comUpdMap_pres u ex.id st.time c).2.1, (comUpdMap_pres u ex.id st.time c).2.2⟩) e'
  refine ⟨b, ?_, hbh⟩
  show (Store.mk st.resources st.annotations (st.comments.map (comUpdMap u ex.id st.time))
      st.notes st.nextResourceId st.nextAnnotId st.nextCommentId st.nextNoteId
      (st.time + 1)).findCommentByExternalId e' = some b
  rw [hmap, hb]
  obtain ⟨hbm, hbe, hbl⟩ := findComment_mem hb
  obtain ⟨hxm, hxe, hxl⟩ := findComment_mem hfind
  have hbne : (b.id == ex.id) = false := by
    by_cases hid : b.id = ex.id
    · exfalso
      have : b = ex := nodup_map_eq_of_eq hwf hbm hxm hid
      rw [this] at hbe
      rw [hxe] at hbe
      exact hdiff (Option.some.inj hbe).symm
    · simp [hid]
  simp [comUpdMap, hbne]

theorem comFact_after_update_self {st : Store} {u : UpdateComment} {e ch : String}
    {ex : Comment}
    (hwf : (st.comments.map Comment.id).Nodup)
    (hfind : st.findCommentByExternalId e = some ex)
    (hch : u.content_hash = some ch) :
    comFact (st.updateComment ex.id u).1 e ch := by
  rw [updateComment_found hwf hfind]
  have hmap := findComment_map_pres st (comUpdMap u ex.id st.time) (st.time + 1)
    (fun c => ⟨(comUpdMap_pres u ex.id st.time c).2.1, (comUpdMap_pres u ex.id st.time c).2.2⟩) e
  obtain ⟨hxm, hxe, hxl⟩ := findComment_mem hfind
  refine ⟨comUpdMap u ex.id st.time ex, ?_, ?_⟩
  · show (Store.mk st.resources st.annotations (st.comments.map (comUpdMap u ex.id st.time))
        st.notes st.nextResourceId st.nextAnnotId st.nextCommentId st.nextNoteId
        (st.time + 1)).findCommentByExternalId e = _
    rw [hmap, hfind]
    rfl
  · simp [comUpdMap, hxl, hch]

theorem noteFact_after_update {st : Store} {u : UpdateNote} {e e' ch' : String}
    {ex : Note}
    (hwf : (st.notes.map Note.id).Nodup)
    (hfind : st.findNoteByExternalId e = some ex)
    (hdiff : e' ≠ e)
    (hfact : noteFact st e' ch') :
    noteFact (st.updateNote ex.id u).1 e' ch' := by
  obtain ⟨b, hb, hbh⟩ := hfact
  rw [updateNote_found hwf hfind]
  have hmap := findNote_map_pres st (noteUpdMap u ex.id st.time) (st.time + 1)
    (fun n => ⟨(noteUpdMap_pres u ex.id st.time n).2.1, (noteUpdMap_pres u ex.id st.time n).2.2⟩) e'
  refine ⟨b, ?_, hbh⟩
  show (Store.mk st.resources st.annotations st.comments
      (st.notes.map (noteUpdMap u ex.id st.time)) st.nextResourceId st.nextAnnotId
      st.nextCommentId st.nextNoteId (st.time + 1)).findNoteByExternalId e' = some b
  rw [hmap, hb]
  obtain ⟨hbm, hbe, hbl⟩ := findNote_mem hb
  obtain ⟨hxm, hxe, hxl⟩ := findNote_mem hfind
  have hbne : (b.id == ex.id) = false := by
    by_cases hid : b.id = ex.id
    · exfalso
      have : b = ex := nodup_map_eq_of_eq hwf hbm hxm hid
      rw [this] at hbe
      rw [hxe] at hbe
      exact hdiff (Option.some.inj hbe).symm
    · simp [hid]
  simp [noteUpdMap, hbne]

theorem noteFact_after_update_self {st : Store} {u : UpdateNote} {e ch : String}
    {ex : Note}
    (hwf : (st.notes.map Note.id).Nodup)
    (hfind : st.findNoteByExternalId e = some ex)
    (hch : u.content_hash = some ch) :
    noteFact (st.updateNote ex.id u).1 e ch := by
  rw [updateNote_found hwf hfind]
  have hmap := findNote_map_pres st (noteUpdMap u ex.id st.time) (st.time + 1)
    (fun n => ⟨(noteUpdMap_pres u ex.id st.time n).2.1, (noteUpdMap_pres u ex.id st.time n).2.2⟩) e
  obtain ⟨hxm, hxe, hxl⟩ := findNote_mem hfind
  refine ⟨noteUpdMap u ex.id st.time ex, ?_, ?_⟩
  · show (Store.mk st.resources st.annotations st.comments
        (st.notes.map (noteUpdMap u ex.id st.time)) st.nextResourceId st.nextAnnotId
        st.nextCommentId st.nextNoteId (st.time + 1)).findNoteByExternalId e = _
    rw [hmap, hfind]
    rfl
  · simp [noteUpdMap, hxl, hch]

theorem comFact_after_create {st : Store} {x : CreateComment} {e ch : String}
    (hf : comFact st e ch) : comFact (st.createComment x).1 e ch := by
  obtain ⟨c, hc, hch⟩ := hf
  exact ⟨c, find?_append_some _ hc, hch⟩

theorem findComment_create_new {st : Store} {x : CreateComment} {e : String}
    (hnone : st.findCommentByExternalId e = none) (hx : x.external_id = some e) :
    (st.createComment x).1.findCommentByExternalId e = some (createdCommentRow st x) := by
  show ((st.comments ++ [createdCommentRow st x]).find? _) = _
  rw [find?_append_none _ hnone]
  simp [List.find?, createdCommentRow, hx]

theorem noteFact_after_create {st : Store} {x : CreateNote} {e ch : String}
    (hf : noteFact st e ch) : noteFact (st.createNote x).1 e ch := by
  obtain ⟨n, hn, hnh⟩ := hf
  exact ⟨n, find?_append_some _ hn, hnh⟩

theorem findNote_create_new {st : Store} {x : CreateNote} {e : String}
    (hnone : st.findNoteByExternalId e = none) (hx : x.external_id = some e) :
    (st.createNote x).1.findNoteByExternalId e = some (createdNoteRow st x) := by
  show ((st.notes ++ [createdNoteRow st x]).find? _) = _
  rw [find?_append_none _ hnone]
  simp [List.find?, createdNoteRow, hx]

theorem comFact_after_softDelete {st : Store} {j : Nat} {e ch : String}
    (hfact : comFact st e ch)
    (hno : ∀ o ∈ st.comments, o.id = j → o.external_id ≠ some e) :
    comFact (st.softDeleteComment j).1 e ch := by
  obtain ⟨a, ha, hah⟩ := hfact
  obtain ⟨ham, hae, hal⟩ := findComment_mem ha
  have hmap : ((st.comments.map (fun b =>
        if b.id == j then { b with deleted_at := some st.time } else b)).find?
      (fun b => b.external_id == some e && b.deleted_at == none))
      = (st.comments.find? (fun b => b.external_id == some e && b.deleted_at == none)).map
          (fun b => if b.id == j then { b with deleted_at := some st.time } else b) := by
    refine find?_map_congr _ _ _ ?_
    intro x hx
    by_cases hidj : (x.id == j) = true
    · have hxe : x.external_id ≠ some e := hno x hx (beq_iff_eq.mp hidj)
      have hxe' : (x.external_id == some e) = false := by simp [hxe]
      simp [hidj, hxe']
    · simp only [hidj, Bool.false_eq_true, if_false]
  have haj : (a.id == j) = false := by
    by_cases hid : a.id = j
    · exact absurd hae (hno a ham hid)
    · simp [hid]
  have ha' : st.comments.find?
      (fun b => b.external_id == some e && b.deleted_at == none) = some a := ha
  refine ⟨a, ?_, hah⟩
  show ((st.comments.map _).find? _) = some a
  rw [hmap, ha']
  simp only [Option.map_some']
  rw [if_neg (by simp [haj] : ¬ (a.id == j) = true)]

theorem softDeleteComment_kills (st : Store) (j : Nat) :
    ∀ b ∈ (st.softDeleteComment j).1.comments, b.id = j → b.deleted_at ≠ none := by
  intro b hb hid
  simp only [Store.softDeleteComment, List.mem_map] at hb
  obtain ⟨c, _, hc⟩ := hb
  by_cases h : (c.id == j) = true
  · rw [← hc]
    simp [h]
  · rw [← hc] at hid ⊢
    simp only [h, Bool.false_eq_true, if_false] at hid ⊢
    exact absurd hid (by simpa using h)

theorem softDeleteComment_dead_stay (st : Store) (j i : Nat)
    (h : ∀ b ∈ st.comments, b.id = i → b.deleted_at ≠ none) :
    ∀ b ∈ (st.softDeleteComment j).1.comments, b.id = i → b.deleted_at ≠ none := by
  intro b hb hid
  simp only [Store.softDeleteComment, List.mem_map] at hb
  obtain ⟨c, hcm, hc⟩ := hb
  by_cases hcd : (c.id == j) = true
  · rw [← hc]
    simp [hcd]
  · rw [← hc] at hid ⊢
    simp only [hcd, Bool.false_eq_true, if_false] at hid ⊢
    exact h c hcm hid

theorem softDeleteComment_live_sub (st : Store) (j : Nat) :
    ∀ b ∈ (st.softDeleteComment j).1.comments, b.deleted_at = none →
      b ∈ st.comments := by
  intro b hb hl
  simp only [Store.softDeleteComment, List.mem_map] at hb
  obtain ⟨c, hcm, hc⟩ := hb
  by_cases hcd : (c.id == j) = true
  · rw [← hc] at hl
    simp [hcd] at hl
  · rw [← hc]
    simp only [hcd, Bool.false_eq_true, if_false]
    exact hcm

theorem noteFact_after_softDelete {st : Store} {j : Nat} {e ch : String}
    (hfact : noteFact st e ch)
    (hno : ∀ o ∈ st.notes, o.id = j → o.external_id ≠ some e) :
    noteFact (st.softDeleteNote j).1 e ch := by
  obtain ⟨a, ha, hah⟩ := hfact
  obtain ⟨ham, hae, hal⟩ := findNote_mem ha
  have hmap : ((st.notes.map (fun b =>
        if b.id == j then { b with deleted_at := some st.time } else b)).find?
      (fun b => b.external_id == some e && b.deleted_at == none))
      = (st.notes.find? (fun b => b.external_id == some e && b.deleted_at == none)).map
          (fun b => if b.id == j then { b with deleted_at := some st.time } else b) := by
    refine find?_map_congr _ _ _ ?_
    intro x hx
    by_cases hidj : (x.id == j) = true
    · have hxe : x.external_id ≠ some e := hno x hx (beq_iff_eq.mp hidj)
      have hxe' : (x.external_id == some e) = false := by simp [hxe]
      simp [hidj, hxe']
    · simp only [hidj, Bool.false_eq_true, if_false]
  have haj : (a.id == j) = false := by
    by_cases hid : a.id = j
    · exact absurd hae (hno a ham hid)
    · simp [hid]
  have ha' : st.notes.find?
      (fun b => b.external_id == some e && b.deleted_at == none) = some a := ha
  refine ⟨a, ?_, hah⟩
  show ((st.notes.map _).find? _) = some a
  rw [hmap, ha']
  simp only [Option.map_some']
  rw [if_neg (by simp [haj] : ¬ (a.id == j) = true)]

theorem softDeleteNote_kills (st : Store) (j : Nat) :
    ∀ b ∈ (st.softDeleteNote j).1.notes, b.id = j → b.deleted_at ≠ none := by
  intro b hb hid
  simp only [Store.softDeleteNote, List.mem_map] at hb
  obtain ⟨c, _, hc⟩ := hb
  by_cases h : (c.id == j) = true
  · rw [← hc]
    simp [h]
  · rw [← hc] at hid ⊢
    simp only [h, Bool.false_eq_true, if_false] at hid ⊢
    exact absurd hid (by simpa using h)

theorem softDeleteNote_dead_stay (st : Store) (j i : Nat)
    (h : ∀ b ∈ st.notes, b.id = i → b.deleted_at ≠ none) :
    ∀ b ∈ (st.softDeleteNote j).1.notes, b.id = i → b.deleted_at ≠ none := by
  intro b hb hid
  simp only [Store.softDeleteNote, List.mem_map] at hb
  obtain ⟨c, hcm, hc⟩ := hb
  by_cases hcd : (c.id == j) = true
  · rw [← hc]
    simp [hcd]
  · rw [← hc] at hid ⊢
    simp only [hcd, Bool.false_eq_true, if_false] at hid ⊢
    exact h c hcm hid

theorem softDeleteNote_live_sub (st : Store) (j : Nat) :
    ∀ b ∈ (st.softDeleteNote j).1.notes, b.deleted_at = none →
      b ∈ st.notes := by
  intro b hb hl
  simp only [Store.softDeleteNote, List.mem_map] at hb
  obtain ⟨c, hcm, hc⟩ := hb
  by_cases hcd : (c.id == j) = true
  · rw [← hc] at hl
    simp [hcd] at hl
  · rw [← hc]
    simp only [hcd, Bool.false_eq_true, if_false]
    exact hcm

/-! Idempotence of the light sync: auxiliary definitions. -/

/-- The external id the light handler computes for a highlight
(src/light/handler.rs line 82). -/
def lightEidOf (source : String) (h : LightHighlight) : String :=
  source ++ ":" ++ toString h.group_id

/-- The content hash the light handler computes for a highlight (line 83). -/
def lightChOf (h : LightHighlight) : String :=
  computeAnnotationHash h.repr (some "yellow")

/-- All external ids of a request's URL groups, in processing order. -/
def groupEids (source : String) (gs : List (String × List LightHighlight)) : List String :=
  gs.flatMap (fun g => g.2.map (lightEidOf source))

def lightEids (req : LightSyncRequest) : List String :=
  groupEids req.source req.highlights

theorem annFact_congr {st₁ st₂ : Store} (h : st₁.annotations = st₂.annotations)
    {e ch : String} (hf : annFact st₁ e ch) : annFact st₂ e ch := by
  obtain ⟨a, ha, hh⟩ := hf
  exact ⟨a, ((findAnnot_congr h e).symm).trans ha, hh⟩

theorem resFact_congr {st₁ st₂ : Store} (h : st₁.resources = st₂.resources)
    {e ch : String} (hf : resFact st₁ e ch) : resFact st₂ e ch := by
  obtain ⟨a, ha, hh⟩ := hf
  exact ⟨a, ((findResource_congr h e).symm).trans ha, hh⟩

theorem comFact_congr {st₁ st₂ : Store} (h : st₁.comments = st₂.comments)
    {e ch : String} (hf : comFact st₁ e ch) : comFact st₂ e ch := by
  obtain ⟨a, ha, hh⟩ := hf
  exact ⟨a, ((findComment_congr h e).symm).trans ha, hh⟩

theorem noteFact_congr {st₁ st₂ : Store} (h : st₁.notes = st₂.notes)
    {e ch : String} (hf : noteFact st₁ e ch) : noteFact st₂ e ch := by
  obtain ⟨a, ha, hh⟩ := hf
  exact ⟨a, ((findNote_congr h e).symm).trans ha, hh⟩

theorem resTitleFact_congr {st₁ st₂ : Store} (h : st₁.resources = st₂.resources)
    {url : String} (hf : resTitleFact st₁ url) : resTitleFact st₂ url := by
  unfold resTitleFact at hf ⊢
  rw [← findResourceTitle_congr h url]
  exact hf

theorem contains_of_mem {l : List String} {e : String} (h : e ∈ l) :
    l.contains e = true := by
  simpa using h

/-- One run-1 highlight step: the store stays well-formed, the external id
is appended to seen, the highlight's annotation fact is established, and
facts at other external ids are preserved. -/
theorem processHighlight_run1 (source : String) (rid : Nat) (p : LightPass)
    (hl : LightHighlight) (hwf : p.store.WF) :
    (processHighlight source rid p hl).store.WF ∧
    (processHighlight source rid p hl).seen = p.seen ++ [lightEidOf source hl] ∧
    annFact (processHighlight source rid p hl).store (lightEidOf source hl) (lightChOf hl) ∧
    (∀ e' ch', e' ≠ lightEidOf source hl → annFact p.store e' ch' →
      annFact (processHighlight source rid p hl).store e' ch') := by
  simp only [processHighlight]
  split
  · rename_i existing heq
    have hfind : p.store.findAnnotByExternalId (lightEidOf source hl) = some existing := heq
    split
    · split
      · rename_i st' x heq2
        have h2 : p.store.updateAnnot existing.id
            { text := some hl.repr, color := some "yellow",
              boundary := some (lightBoundary hl),
              content_hash := some (lightChOf hl) } = (st', some x) := heq2
        have hst : (p.store.updateAnnot existing.id
            { text := some hl.repr, color := some "yellow",
              boundary := some (lightBoundary hl),
              content_hash := some (lightChOf hl) }).1 = st' := congrArg Prod.fst h2
        refine ⟨?_, rfl, ?_, ?_⟩
        · show st'.WF
          rw [← hst]
          exact WF_updateAnnot _ _ hwf
        · show annFact st' (lightEidOf source hl) (lightChOf hl)
          rw [← hst]
          exact annFact_after_update_self hwf.2.1.1 hfind rfl rfl
        · intro e' ch' hne hf
          show annFact st' e' ch'
          rw [← hst]
          exact annFact_after_update hwf.2.1.1 hfind rfl hne hf
      · rename_i st' heq2
        have h2 : p.store.updateAnnot existing.id
            { text := some hl.repr, color := some "yellow",
              boundary := some (lightBoundary hl),
              content_hash := some (lightChOf hl) } = (st', none) := heq2
        rw [updateAnnot_found hwf.2.1.1 hfind (by rfl)] at h2
        exact absurd (congrArg Prod.snd h2) (by simp)
    · rename_i hbne
      have hb : existing.content_hash = some (lightChOf hl) := by
        have h' : (existing.content_hash != some (lightChOf hl)) = false :=
          eq_false_of_ne_true hbne
        simpa using h'
      exact ⟨hwf, rfl, ⟨existing, hfind, hb⟩, fun e' ch' _ hf => hf⟩
  · rename_i heq
    have hfind : p.store.findAnnotByExternalId (lightEidOf source hl) = none := heq
    refine ⟨?_, rfl, ?_, ?_⟩
    · exact WF_createAnnot _ hwf
    · exact ⟨createdAnnotRow p.store _, findAnnot_create_new hfind rfl, rfl⟩
    · intro e' ch' _ hf
      exact annFact_after_create hf

/-- Run-1 over a highlight list (the inner loop): establishes every
highlight's fact when the list's external ids are pairwise distinct. -/
theorem processHighlightList_run1 (source : String) (rid : Nat) :
    ∀ (hs : List LightHighlight) (p : LightPass), p.store.WF →
      (hs.map (lightEidOf source)).Nodup →
      (processHighlightList source rid p hs).store.WF ∧
      (processHighlightList source rid p hs).seen = p.seen ++ hs.map (lightEidOf source) ∧
      (∀ h' ∈ hs, annFact (processHighlightList source rid p hs).store
        (lightEidOf source h') (lightChOf h')) ∧
      (∀ e' ch', e' ∉ hs.map (lightEidOf source) → annFact p.store e' ch' →
        annFact (processHighlightList source rid p hs).store e' ch') := by
  intro hs
  induction hs with
  | nil =>
    intro p hwf _
    exact ⟨hwf, (List.append_nil _).symm, fun h' hh => absurd hh (List.not_mem_nil h'),
      fun e' ch' _ hf => hf⟩
  | cons hd t ih =>
    intro p hwf hnd
    rw [List.map_cons, List.nodup_cons] at hnd
    obtain ⟨hhd, hnt⟩ := hnd
    obtain ⟨hwf1, hseen1, hfact1, hpres1⟩ := processHighlight_run1 source rid p hd hwf
    obtain ⟨hwf2, hseen2, hfact2, hpres2⟩ := ih (processHighlight source rid p hd) hwf1 hnt
    refine ⟨hwf2, ?_, ?_, ?_⟩
    · show (processHighlightList source rid (processHighlight source rid p hd) t).seen = _
      rw [hseen2, hseen1, List.append_assoc]
      rfl
    · intro h' hh
      rcases List.mem_cons.mp hh with h | h
      · subst h
        exact hpres2 _ _ hhd hfact1
      · exact hfact2 h' h
    · intro e' ch' hne hf
      rw [List.map_cons, List.mem_cons] at hne
      push_neg at hne
      exact hpres2 e' ch' hne.2 (hpres1 e' ch' hne.1 hf)

/-- Run-1 find_or_create_resource: well-formedness, the title fact for the
URL, and preservation of annotation and title facts. -/
theorem findOrCreateResource_run1 (st : Store) (url : String) (hwf : st.WF) :
    (findOrCreateResource st url).1.WF ∧
    resTitleFact (findOrCreateResource st url).1 url ∧
    (∀ e' ch', annFact st e' ch' → annFact (findOrCreateResource st url).1 e' ch') ∧
    (∀ u', resTitleFact st u' → resTitleFact (findOrCreateResource st url).1 u') := by
  simp only [findOrCreateResource]
  split
  · rename_i r heq
    refine ⟨hwf, ?_, fun e' ch' hf => hf, fun u' hf => hf⟩
    show resTitleFact st url
    unfold resTitleFact
    rw [show st.findResourceByTitle url = some r from heq]
    rfl
  · rename_i heq
    have hnone : st.findResourceByTitle url = none := heq
    refine ⟨WF_createResource _ hwf, ?_, ?_, ?_⟩
    · unfold resTitleFact
      show ((st.resources ++ [createdResourceRow st
          { title := url, resource_type := ResourceType.website,
            external_id := none,
            content_hash := some (computeResourceHash url) }]).find? _).isSome = true
      rw [find?_append_none _ hnone]
      simp [List.find?, createdResourceRow]
    · intro e' ch' hf
      exact annFact_congr rfl hf
    · intro u' hf
      exact resTitleFact_after_create hf

theorem groupEids_cons (source : String) (g : String × List LightHighlight)
    (t : List (String × List LightHighlight)) :
    groupEids source (g :: t) = g.2.map (lightEidOf source) ++ groupEids source t := by
  simp [groupEids]

/-- Run-1 over one URL group: the group's resource title fact and all its
highlight facts are established; distinct other facts survive. -/
theorem processUrlGroup_run1 (source : String) (p : LightPass)
    (g : String × List LightHighlight) (hwf : p.store.WF)
    (hnd : (g.2.map (lightEidOf source)).Nodup) :
    (processUrlGroup source p g).store.WF ∧
    (processUrlGroup source p g).seen = p.seen ++ g.2.map (lightEidOf source) ∧
    resTitleFact (processUrlGroup source p g).store g.1 ∧
    (∀ h' ∈ g.2, annFact (processUrlGroup source p g).store
       (lightEidOf source h') (lightChOf h')) ∧
    (∀ e' ch', e' ∉ g.2.map (lightEidOf source) → annFact p.store e' ch' →
       annFact (processUrlGroup source p g).store e' ch') ∧
    (∀ u', resTitleFact p.store u' →
       resTitleFact (processUrlGroup source p g).store u') := by
  obtain ⟨hqwf, hqtitle, hqann, hqtpres⟩ := findOrCreateResource_run1 p.store g.1 hwf
  have hEq : processUrlGroup source p g
      = processHighlightList source (findOrCreateResource p.store g.1).2.1
          { p with store := (findOrCreateResource p.store g.1).1,
                   resp := if (findOrCreateResource p.store g.1).2.2.1 then
                       { p.resp with resources_created := p.resp.resources_created + 1 }
                     else p.resp,
                   trace := p.trace ++ (findOrCreateResource p.store g.1).2.2.2 } g.2 := rfl
  rw [hEq]
  obtain ⟨hW, hS, hF, hP⟩ := processHighlightList_run1 source
    (findOrCreateResource p.store g.1).2.1 g.2
    { p with store := (findOrCreateResource p.store g.1).1,
             resp := if (findOrCreateResource p.store g.1).2.2.1 then
                 { p.resp with resources_created := p.resp.resources_created + 1 }
               else p.resp,
             trace := p.trace ++ (findOrCreateResource p.store g.1).2.2.2 }
    hqwf hnd
  have hrframe := (processHighlightList_store_frame source
    (findOrCreateResource p.store g.1).2.1 g.2
    { p with store := (findOrCreateResource p.store g.1).1,
             resp := if (findOrCreateResource p.store g.1).2.2.1 then
                 { p.resp with resources_created := p.resp.resources_created + 1 }
               else p.resp,
             trace := p.trace ++ (findOrCreateResource p.store g.1).2.2.2 }).1
  refine ⟨hW, hS, ?_, hF, ?_, ?_⟩
  · exact resTitleFact_congr hrframe.symm hqtitle
  · intro e' ch' hne hf
    exact hP e' ch' hne (hqann e' ch' hf)
  · intro u' hf
    exact resTitleFact_congr hrframe.symm (hqtpres u' hf)

/-- Run-1 over all URL groups. -/
theorem processUrlGroups_run1 (source : String) :
    ∀ (gs : List (String × List LightHighlight)) (p : LightPass), p.store.WF →
      (groupEids source gs).Nodup →
      (processUrlGroups source p gs).store.WF ∧
      (processUrlGroups source p gs).seen = p.seen ++ groupEids source gs ∧
      (∀ g ∈ gs, resTitleFact (processUrlGroups source p gs).store g.1) ∧
      (∀ g ∈ gs, ∀ h' ∈ g.2, annFact (processUrlGroups source p gs).store
        (lightEidOf source h') (lightChOf h')) ∧
      (∀ e' ch', e' ∉ groupEids source gs → annFact p.store e' ch' →
        annFact (processUrlGroups source p gs).store e' ch') ∧
      (∀ u', resTitleFact p.store u' →
        resTitleFact (processUrlGroups source p gs).store u') := by
  intro gs
  induction gs with
  | nil =>
    intro p hwf _
    exact ⟨hwf, (List.append_nil _).symm,
      fun g hg => absurd hg (List.not_mem_nil g),
      fun g hg => absurd hg (List.not_mem_nil g),
      fun e' ch' _ hf => hf, fun u' hf => hf⟩
  | cons g t ih =>
    intro p hwf hnd
    rw [groupEids_cons, List.nodup_append] at hnd
    obtain ⟨ndg, ndt, disj⟩ := hnd
    obtain ⟨hwf1, hseen1, htitle1, hfact1, hpres1, htpres1⟩ :=
      processUrlGroup_run1 source p g hwf ndg
    obtain ⟨hwf2, hseen2, htitle2, hfact2, hpres2, htpres2⟩ :=
      ih (processUrlGroup source p g) hwf1 ndt
    refine ⟨hwf2, ?_, ?_, ?_, ?_, ?_⟩
    · show (processUrlGroups source (processUrlGroup source p g) t).seen = _
      rw [hseen2, hseen1, groupEids_cons, List.append_assoc]
    · intro g' hg'
      rcases List.mem_cons.mp hg' with h | h
      · subst h
        exact htpres2 g'.1 htitle1
      · exact htitle2 g' h
    · intro g' hg' h' hh'
      rcases List.mem_cons.mp hg' with h | h
      · subst h
        refine hpres2 _ _ ?_ (hfact1 h' hh')
        intro hmem
        exact disj (List.mem_map_of_mem _ hh') hmem
      · exact hfact2 g' h h' hh'
    · intro e' ch' hne hf
      rw [groupEids_cons] at hne
      rw [List.mem_append] at hne
      push_neg at hne
      exact hpres2 e' ch' hne.2 (hpres1 e' ch' hne.1 hf)
    · intro u' hf
      exact htpres2 u' (htpres1 u' hf)

/-! The run-1 orphan sweep: facts of seen external ids survive, and
afterwards every live source-matching annotation is seen. -/

/-- The (id, external id) projection of the annotations table; the sweep
never changes it. -/
def annPairs (st : Store) : List (Nat × Option String) :=
  st.annotations.map (fun a => (a.id, a.external_id))

theorem annPairs_fst (st : Store) :
    (annPairs st).map Prod.fst = st.annotations.map Annot.id := by
  simp only [annPairs, List.map_map]
  apply List.map_congr_left
  intro a _
  rfl

theorem softDeleteAnnot_pairs (st : Store) (j : Nat) :
    annPairs (st.softDeleteAnnot j).1 = annPairs st := by
  simp only [Store.softDeleteAnnot, annPairs, List.map_map]
  apply List.map_congr_left
  intro a _
  by_cases h : a.id = j <;> simp [h]

theorem sweepOrphan_seen (p : LightPass) (o : Annot) :
    (sweepOrphan p o).seen = p.seen := by
  simp only [sweepOrphan]
  split
  · split <;> rfl
  · rfl

theorem sweepOrphan_of_contains {p : LightPass} {o : Annot}
    (hc : p.seen.contains (o.external_id.getD "") = true) :
    sweepOrphan p o = p := by
  have hm : o.external_id.getD "" ∈ p.seen := by simpa using hc
  simp [sweepOrphan, hm]

theorem sweepOrphan_store_of_not {p : LightPass} {o : Annot}
    (hc : p.seen.contains (o.external_id.getD "") = false) :
    (sweepOrphan p o).store = (p.store.softDeleteAnnot o.id).1 := by
  simp only [sweepOrphan, hc, Bool.not_false, if_true]
  split
  · rename_i st' heq
    exact (congrArg Prod.fst heq).symm
  · rename_i st' heq
    exact (congrArg Prod.fst heq).symm

theorem sweepOrphan_WF {p : LightPass} (o : Annot) (hwf : p.store.WF) :
    (sweepOrphan p o).store.WF := by
  by_cases hc : p.seen.contains (o.external_id.getD "") = true
  · rw [sweepOrphan_of_contains hc]
    exact hwf
  · rw [sweepOrphan_store_of_not (eq_false_of_ne_true hc)]
    exact WF_softDeleteAnnot _ hwf

theorem sweepOrphans_WF : ∀ (os : List Annot) (p : LightPass), p.store.WF →
    (sweepOrphans p os).store.WF := by
  intro os
  induction os with
  | nil => intro p hwf ; exact hwf
  | cons o t ih => intro p hwf ; exact ih _ (sweepOrphan_WF o hwf)

theorem sweepOrphans_seen : ∀ (os : List Annot) (p : LightPass),
    (sweepOrphans p os).seen = p.seen := by
  intro os
  induction os with
  | nil => intro p ; rfl
  | cons o t ih => intro p ; exact (ih _).trans (sweepOrphan_seen p o)

/-- Facts whose external id is in the seen set survive the orphan sweep. -/
theorem sweepOrphans_annFact : ∀ (os : List Annot) (p : LightPass) (stPre : Store)
    (e ch : String),
    annPairs p.store = annPairs stPre →
    (stPre.annotations.map Annot.id).Nodup →
    (∀ o ∈ os, (o.id, o.external_id) ∈ annPairs stPre) →
    p.seen.contains e = true →
    annFact p.store e ch →
    annFact (sweepOrphans p os).store e ch := by
  intro os
  induction os with
  | nil => intro p stPre e ch _ _ _ _ hf ; exact hf
  | cons o t ih =>
    intro p stPre e ch hcorr hnd hos hseen hf
    by_cases hc : p.seen.contains (o.external_id.getD "") = true
    · show annFact (sweepOrphans (sweepOrphan p o) t).store e ch
      rw [sweepOrphan_of_contains hc]
      exact ih p stPre e ch hcorr hnd
        (fun o' ho' => hos o' (List.mem_cons_of_mem _ ho')) hseen hf
    · have hc' : p.seen.contains (o.external_id.getD "") = false := eq_false_of_ne_true hc
      have hwfann : (p.store.annotations.map Annot.id).Nodup := by
        rw [← annPairs_fst, hcorr, annPairs_fst]
        exact hnd
      have hno : ∀ b ∈ p.store.annotations, b.id = o.id → b.external_id ≠ some e := by
        intro b hb hid hbe
        have hbpair : (b.id, b.external_id) ∈ annPairs stPre := by
          rw [← hcorr]
          exact List.mem_map_of_mem _ hb
        have hopair : (o.id, o.external_id) ∈ annPairs stPre := hos o (List.mem_cons_self o t)
        have hndp : ((annPairs stPre).map Prod.fst).Nodup := by
          rw [annPairs_fst]
          exact hnd
        have hpeq : (b.id, b.external_id) = (o.id, o.external_id) :=
          nodup_map_eq_of_eq hndp hbpair hopair hid
        have hsnd : b.external_id = o.external_id := congrArg Prod.snd hpeq
        rw [hbe] at hsnd
        have hgd : o.external_id.getD "" = e := by
          rw [← hsnd]
          rfl
        rw [hgd] at hc'
        exact absurd (hseen.symm.trans hc') (by simp)
      show annFact (sweepOrphans (sweepOrphan p o) t).store e ch
      refine ih (sweepOrphan p o) stPre e ch ?_ hnd
        (fun o' ho' => hos o' (List.mem_cons_of_mem _ ho')) ?_ ?_
      · rw [sweepOrphan_store_of_not hc', softDeleteAnnot_pairs]
        exact hcorr
      · rw [sweepOrphan_seen]
        exact hseen
      · rw [sweepOrphan_store_of_not hc']
        exact annFact_after_softDelete hwfann hf hno

/-- After the sweep, every live annotation matching the orphan predicate
carries a seen external id (provided every matching live row was on the
initial orphan list). -/
theorem sweepOrphans_sweep_complete (pred : Annot → Bool)
    (hpred : ∀ a, pred a = true → ∃ e, a.external_id = some e) :
    ∀ (os : List Annot) (p : LightPass),
    (∀ a ∈ p.store.annotations, a.deleted_at = none → pred a = true →
      (∃ e, a.external_id = some e ∧ p.seen.contains e = true) ∨
      ∃ o ∈ os, o.id = a.id ∧ o.external_id = a.external_id) →
    ∀ a ∈ (sweepOrphans p os).store.annotations, a.deleted_at = none → pred a = true →
      ∃ e, a.external_id = some e ∧ p.seen.contains e = true := by
  intro os
  induction os with
  | nil =>
    intro p hInv a ha hl hp
    rcases hInv a ha hl hp with h | ⟨o, ho, _⟩
    · exact h
    · exact absurd ho (List.not_mem_nil o)
  | cons o t ih =>
    intro p hInv a ha hl hp
    by_cases hc : p.seen.contains (o.external_id.getD "") = true
    · rw [show sweepOrphans p (o :: t) = sweepOrphans (sweepOrphan p o) t from rfl,
        sweepOrphan_of_contains hc] at ha
      refine ih p ?_ a ha hl hp
      intro b hb hbl hbp
      rcases hInv b hb hbl hbp with h | ⟨o', ho', hid, heid⟩
      · exact Or.inl h
      · rcases List.mem_cons.mp ho' with rfl | ho''
        · obtain ⟨e, he⟩ := hpred b hbp
          left
          refine ⟨e, he, ?_⟩
          rw [heid, he] at hc
          simpa using hc
        · exact Or.inr ⟨o', ho'', hid, heid⟩
    · have hc' : p.seen.contains (o.external_id.getD "") = false := eq_false_of_ne_true hc
      have hstep : (sweepOrphan p o).store = (p.store.softDeleteAnnot o.id).1 :=
        sweepOrphan_store_of_not hc'
      have ha' : a ∈ (sweepOrphans (sweepOrphan p o) t).store.annotations := ha
      have hinv : ∀ b ∈ (sweepOrphan p o).store.annotations, b.deleted_at = none →
          pred b = true →
          (∃ e, b.external_id = some e ∧ (sweepOrphan p o).seen.contains e = true) ∨
          ∃ o' ∈ t, o'.id = b.id ∧ o'.external_id = b.external_id := by
        intro b hb hbl hbp
        rw [hstep] at hb
        have hbmem : b ∈ p.store.annotations :=
          softDeleteAnnot_live_sub p.store o.id b hb hbl
        have hbid : b.id ≠ o.id := by
          intro hdeq
          exact softDeleteAnnot_kills p.store o.id b hb hdeq hbl
        rcases hInv b hbmem hbl hbp with h | ⟨o', ho', hid, heid⟩
        · obtain ⟨e', he', hc2⟩ := h
          exact Or.inl ⟨e', he', by rw [sweepOrphan_seen] ; exact hc2⟩
        · rcases List.mem_cons.mp ho' with rfl | ho''
          · exact absurd hid.symm hbid
          · exact Or.inr ⟨o', ho'', hid, heid⟩
      obtain ⟨e, he1, he2⟩ := ih (sweepOrphan p o) hinv a ha' hl hp
      rw [sweepOrphan_seen] at he2
      exact ⟨e, he1, he2⟩

/-- A sweep whose every candidate is seen does nothing at all. -/
theorem sweepOrphans_noop : ∀ (os : List Annot) (p : LightPass),
    (∀ o ∈ os, ∃ e, o.external_id = some e ∧ p.seen.contains e = true) →
    sweepOrphans p os = p := by
  intro os
  induction os with
  | nil => intro p _ ; rfl
  | cons o t ih =>
    intro p h
    obtain ⟨e, he, hc⟩ := h o (List.mem_cons_self o t)
    have hco : p.seen.contains (o.external_id.getD "") = true := by
      rw [he]
      exact hc
    show sweepOrphans (sweepOrphan p o) t = p
    rw [sweepOrphan_of_contains hco]
    exact ih p (fun o' ho' => h o' (List.mem_cons_of_mem _ ho'))

/-! The second run of the light sync: every step takes its unchanged
branch. -/

theorem processHighlight_run2 (source : String) (rid : Nat) (p : LightPass)
    (hl : LightHighlight)
    (hfact : annFact p.store (lightEidOf source hl) (lightChOf hl)) :
    (processHighlight source rid p hl).store = p.store ∧
    (processHighlight source rid p hl).resp =
      { p.resp with annotations_unchanged := p.resp.annotations_unchanged + 1 } ∧
    (processHighlight source rid p hl).seen = p.seen ++ [lightEidOf source hl] := by
  obtain ⟨a, ha, hh⟩ := hfact
  simp only [processHighlight]
  split
  · rename_i existing heq
    have hfind : p.store.findAnnotByExternalId (lightEidOf source hl) = some existing := heq
    have hex : existing = a := by
      rw [hfind] at ha
      exact Option.some.inj ha
    subst hex
    split
    · rename_i hbne
      rw [hh] at hbne
      simp [lightChOf] at hbne
    · exact ⟨rfl, rfl, rfl⟩
  · rename_i heq
    have hfind : p.store.findAnnotByExternalId (lightEidOf source hl) = none := heq
    rw [hfind] at ha
    cases ha

theorem processHighlightList_run2 (source : String) (rid : Nat) :
    ∀ (hs : List LightHighlight) (p : LightPass),
      (∀ h' ∈ hs, annFact p.store (lightEidOf source h') (lightChOf h')) →
      (processHighlightList source rid p hs).store = p.store ∧
      (processHighlightList source rid p hs).resp =
        { p.resp with annotations_unchanged := p.resp.annotations_unchanged + hs.length } ∧
      (processHighlightList source rid p hs).seen =
        p.seen ++ hs.map (lightEidOf source) := by
  intro hs
  induction hs with
  | nil =>
    intro p _
    exact ⟨rfl, rfl, (List.append_nil _).symm⟩
  | cons hd t ih =>
    intro p hfacts
    obtain ⟨hs1, hr1, hn1⟩ := processHighlight_run2 source rid p hd
      (hfacts hd (List.mem_cons_self hd t))
    obtain ⟨hs2, hr2, hn2⟩ := ih (processHighlight source rid p hd)
      (fun h' hh' => by rw [hs1] ; exact hfacts h' (List.mem_cons_of_mem _ hh'))
    refine ⟨?_, ?_, ?_⟩
    · show (processHighlightList source rid (processHighlight source rid p hd) t).store = _
      rw [hs2, hs1]
    · show (processHighlightList source rid (processHighlight source rid p hd) t).resp = _
      rw [hr2, hr1]
      show { p.resp with annotations_unchanged :=
          p.resp.annotations_unchanged + 1 + t.length }
        = { p.resp with annotations_unchanged :=
            p.resp.annotations_unchanged + (t.length + 1) }
      exact congrArg (fun n => { p.resp with annotations_unchanged := n })
        (show p.resp.annotations_unchanged + 1 + t.length
            = p.resp.annotations_unchanged + (t.length + 1) by omega)
    · show (processHighlightList source rid (processHighlight source rid p hd) t).seen = _
      rw [hn2, hn1, List.append_assoc]
      rfl

theorem processUrlGroup_run2 (source : String) (p : LightPass)
    (g : String × List LightHighlight)
    (hres : resTitleFact p.store g.1)
    (hfacts : ∀ h' ∈ g.2, annFact p.store (lightEidOf source h') (lightChOf h')) :
    (processUrlGroup source p g).store = p.store ∧
    (processUrlGroup source p g).resp =
      { p.resp with annotations_unchanged := p.resp.annotations_unchanged + g.2.length } ∧
    (processUrlGroup source p g).seen = p.seen ++ g.2.map (lightEidOf source) := by
  obtain ⟨r, hr⟩ := Option.isSome_iff_exists.mp hres
  have hfocr : findOrCreateResource p.store g.1 = (p.store, r.id, false, [Ev.resFound r.id]) := by
    simp only [findOrCreateResource, hr]
  have hq : processUrlGroup source p g
      = processHighlightList source r.id
          { p with trace := p.trace ++ [Ev.resFound r.id] } g.2 := by
    show processHighlightList source (findOrCreateResource p.store g.1).2.1
        { p with store := (findOrCreateResource p.store g.1).1,
                 resp := if (findOrCreateResource p.store g.1).2.2.1 then
                     { p.resp with resources_created := p.resp.resources_created + 1 }
                   else p.resp,
                 trace := p.trace ++ (findOrCreateResource p.store g.1).2.2.2 } g.2
      = processHighlightList source r.id
          { p with trace := p.trace ++ [Ev.resFound r.id] } g.2
    rw [hfocr]
    rfl
  rw [hq]
  obtain ⟨hs, hrp, hn⟩ := processHighlightList_run2 source r.id g.2
    { p with trace := p.trace ++ [Ev.resFound r.id] } hfacts
  exact ⟨hs, hrp, hn⟩

theorem processUrlGroups_run2 (source : String) :
    ∀ (gs : List (String × List LightHighlight)) (p : LightPass),
      (∀ g ∈ gs, resTitleFact p.store g.1) →
      (∀ g ∈ gs, ∀ h' ∈ g.2, annFact p.store (lightEidOf source h') (lightChOf h')) →
      (processUrlGroups source p gs).store = p.store ∧
      (processUrlGroups source p gs).resp =
        { p.resp with annotations_unchanged :=
            p.resp.annotations_unchanged + (groupEids source gs).length } ∧
      (processUrlGroups source p gs).seen = p.seen ++ groupEids source gs := by
  intro gs
  induction gs with
  | nil =>
    intro p _ _
    exact ⟨rfl, rfl, (List.append_nil _).symm⟩
  | cons g t ih =>
    intro p hres hfacts
    obtain ⟨hs1, hr1, hn1⟩ := processUrlGroup_run2 source p g
      (hres g (List.mem_cons_self g t))
      (fun h' hh' => hfacts g (List.mem_cons_self g t) h' hh')
    obtain ⟨hs2, hr2, hn2⟩ := ih (processUrlGroup source p g)
      (fun g' hg' => by rw [hs1] ; exact hres g' (List.mem_cons_of_mem _ hg'))
      (fun g' hg' h' hh' => by rw [hs1] ; exact hfacts g' (List.mem_cons_of_mem _ hg') h' hh')
    refine ⟨?_, ?_, ?_⟩
    · show (processUrlGroups source (processUrlGroup source p g) t).store = _
      rw [hs2, hs1]
    · show (processUrlGroups source (processUrlGroup source p g) t).resp = _
      rw [hr2, hr1]
      show { p.resp with annotations_unchanged :=
          p.resp.annotations_unchanged + g.2.length + (groupEids source t).length }
        = { p.resp with annotations_unchanged :=
            p.resp.annotations_unchanged + (groupEids source (g :: t)).length }
      refine congrArg (fun n => { p.resp with annotations_unchanged := n }) ?_
      rw [groupEids_cons, List.length_append, List.length_map]
      omega
    · show (processUrlGroups source (processUrlGroup source p g) t).seen = _
      rw [hn2, hn1, groupEids_cons, List.append_assoc]

/-! Decomposition of sync_highlights into its two phases. -/

def lightPhase1 (st : Store) (req : LightSyncRequest) : LightPass :=
  processUrlGroups req.source
    { store := st, resp := LightSyncResponse.zero, seen := [], trace := [] } req.highlights

def lightOqr (st : Store) (req : LightSyncRequest) : Option Nat :=
  match req.scope with
  | some scopeUrl =>
    match (lightPhase1 st req).store.findResourceByTitle scopeUrl with
    | some r => some r.id
    | none => none
  | none => none

def lightOrphans (st : Store) (req : LightSyncRequest) : List Annot :=
  (lightPhase1 st req).store.findAnnotsBySource req.source (lightOqr st req)

def lightFinal (st : Store) (req : LightSyncRequest) : LightPass :=
  sweepOrphans (lightPhase1 st req) (lightOrphans st req)

theorem syncHighlights_eq (st : Store) (req : LightSyncRequest) :
    syncHighlights st req
      = ((lightFinal st req).store, (lightFinal st req).resp, (lightFinal st req).trace) := rfl

/-- The row predicate of find_annotations_by_source_prefix. -/
def lightOrphanPred (source : String) (rid : Option Nat) (a : Annot) : Bool :=
  (match a.external_id with | some e => likeSourceMatch source e | none => false)
  && a.deleted_at == none
  && (match rid with | some i => a.resource_id == i | none => true)

theorem findAnnotsBySource_eq (st : Store) (source : String) (rid : Option Nat) :
    st.findAnnotsBySource source rid
      = st.annotations.filter (lightOrphanPred source rid) := rfl

theorem lightOrphanPred_some {source : String} {rid : Option Nat} {a : Annot}
    (h : lightOrphanPred source rid a = true) : ∃ e, a.external_id = some e := by
  cases hae : a.external_id with
  | none =>
    simp only [lightOrphanPred, hae] at h
    simp at h
  | some e => exact ⟨e, rfl⟩

theorem lightOrphanPred_live {source : String} {rid : Option Nat} {a : Annot}
    (h : lightOrphanPred source rid a = true) : a.deleted_at = none := by
  simp only [lightOrphanPred, Bool.and_eq_true, beq_iff_eq] at h
  exact h.1.2

/-- The light sync is idempotent when the request's external ids are
pairwise distinct: the second of two identical syncs reports zero creates,
updates and deletes and counts every highlight unchanged. -/
theorem light_second_run (st : Store) (req : LightSyncRequest)
    (hwf : st.WF) (hnd : (lightEids req).Nodup) :
    (syncHighlights (syncHighlights st req).1 req).2.1
      = ⟨0, 0, 0, 0, (lightEids req).length⟩ := by
  obtain ⟨h1wf, h1seen, h1res, h1ann, hpres, htpres⟩ :=
    processUrlGroups_run1 req.source req.highlights
      ⟨st, LightSyncResponse.zero, [], []⟩ hwf hnd
  have hwf1 : (lightPhase1 st req).store.WF := h1wf
  have hseenP1 : (lightPhase1 st req).seen = lightEids req := by
    have h := h1seen
    rw [List.nil_append] at h
    exact h
  have hrfr : (lightFinal st req).store.resources = (lightPhase1 st req).store.resources :=
    (sweepOrphans_store_frame (lightOrphans st req) (lightPhase1 st req)).1
  have hwfF : (lightFinal st req).store.WF :=
    sweepOrphans_WF (lightOrphans st req) (lightPhase1 st req) hwf1
  have hos : ∀ o ∈ lightOrphans st req,
      (o.id, o.external_id) ∈ annPairs (lightPhase1 st req).store :=
    fun o ho => List.mem_map_of_mem _ (List.mem_of_mem_filter ho)
  have hres1 : ∀ g ∈ req.highlights, resTitleFact (lightFinal st req).store g.1 :=
    fun g hg => resTitleFact_congr hrfr.symm (h1res g hg)
  have hann1 : ∀ g ∈ req.highlights, ∀ h' ∈ g.2,
      annFact (lightFinal st req).store (lightEidOf req.source h') (lightChOf h') := by
    intro g hg h' hh'
    have hmem : lightEidOf req.source h' ∈ lightEids req :=
      List.mem_flatMap.mpr ⟨g, hg, List.mem_map_of_mem _ hh'⟩
    have hcont : (lightPhase1 st req).seen.contains (lightEidOf req.source h') = true := by
      rw [hseenP1]
      exact contains_of_mem hmem
    exact sweepOrphans_annFact (lightOrphans st req) (lightPhase1 st req)
      (lightPhase1 st req).store _ _ rfl hwf1.2.1.1 hos hcont (h1ann g hg h' hh')
  have hP : ∀ a ∈ (lightFinal st req).store.annotations, a.deleted_at = none →
      lightOrphanPred req.source (lightOqr st req) a = true →
      ∃ e, a.external_id = some e ∧ (lightPhase1 st req).seen.contains e = true := by
    refine sweepOrphans_sweep_complete (lightOrphanPred req.source (lightOqr st req))
      (fun a ha => lightOrphanPred_some ha) (lightOrphans st req) (lightPhase1 st req) ?_
    intro a ha hl hp
    exact Or.inr ⟨a, List.mem_filter.mpr ⟨ha, hp⟩, rfl, rfl⟩
  -- second run, phase 1
  obtain ⟨h2s, h2r, h2n⟩ := processUrlGroups_run2 req.source req.highlights
    ⟨(lightFinal st req).store, LightSyncResponse.zero, [], []⟩ hres1 hann1
  have h2s' : (lightPhase1 ((lightFinal st req).store) req).store = (lightFinal st req).store :=
    h2s
  have h2n' : (lightPhase1 ((lightFinal st req).store) req).seen = lightEids req := by
    have h := h2n
    rw [List.nil_append] at h
    exact h
  -- the scope resolves identically in both runs
  have hoq : lightOqr ((lightFinal st req).store) req = lightOqr st req := by
    unfold lightOqr
    cases req.scope with
    | none => rfl
    | some s =>
      have hft : (lightPhase1 ((lightFinal st req).store) req).store.findResourceByTitle s
          = (lightPhase1 st req).store.findResourceByTitle s := by
        apply findResourceTitle_congr
        exact (congrArg Store.resources h2s').trans hrfr
      show (match (lightPhase1 ((lightFinal st req).store) req).store.findResourceByTitle s with
          | some r => some r.id
          | none => none)
        = (match (lightPhase1 st req).store.findResourceByTitle s with
          | some r => some r.id
          | none => none)
      rw [hft]
  -- the second sweep is a no-op
  have horph : ∀ o ∈ lightOrphans ((lightFinal st req).store) req,
      ∃ e, o.external_id = some e ∧
        (lightPhase1 ((lightFinal st req).store) req).seen.contains e = true := by
    intro o ho
    have hlist : lightOrphans ((lightFinal st req).store) req
        = ((lightFinal st req).store.annotations).filter
            (lightOrphanPred req.source (lightOqr st req)) := by
      unfold lightOrphans
      rw [hoq]
      rw [findAnnotsBySource_eq]
      rw [congrArg Store.annotations h2s']
    rw [hlist] at ho
    obtain ⟨hom, hop⟩ := List.mem_filter.mp ho
    obtain ⟨e, he1, he2⟩ := hP o hom (lightOrphanPred_live hop) hop
    refine ⟨e, he1, ?_⟩
    rw [h2n']
    rw [hseenP1] at he2
    exact he2
  have hfin : lightFinal ((lightFinal st req).store) req
      = lightPhase1 ((lightFinal st req).store) req :=
    sweepOrphans_noop (lightOrphans ((lightFinal st req).store) req)
      (lightPhase1 ((lightFinal st req).store) req) horph
  show (lightFinal ((lightFinal st req).store) req).resp = _
  rw [hfin]
  have h2r' : (lightPhase1 ((lightFinal st req).store) req).resp =
      { LightSyncResponse.zero with annotations_unchanged :=
          0 + (groupEids req.source req.highlights).length } := h2r
  rw [h2r']
  exact congrArg (fun n => (⟨0, 0, 0, 0, n⟩ : LightSyncResponse))
    (show 0 + (groupEids req.source req.highlights).length
        = (lightEids req).length from Nat.zero_add _)

/-! Idempotence of the research sync: run-1 establishes every row's fact. -/

/-- The external id the research handler computes for a row. -/
def rEid (s : String) : String := "research:" ++ s

def comRowEids (cs : List ResearchCommentRow) : List String :=
  cs.map (fun c => rEid c.id)

def annRowEids (rows : List ResearchAnnotRow) : List String :=
  rows.map (fun a => rEid a.id)

def noteRowEids (ns : List ResearchNoteRow) : List String :=
  ns.map (fun n => rEid n.id)

def comEidsOfAnnot (db : ResearchDb) (row : ResearchAnnotRow) : List String :=
  comRowEids (fetchResearchComments db row.id)

def comEidsOfRows (db : ResearchDb) (rows : List ResearchAnnotRow) : List String :=
  rows.flatMap (comEidsOfAnnot db)

def annEidsOfItem (db : ResearchDb) (item : ResearchItem) : List String :=
  annRowEids (fetchResearchAnnots db item.id)

def comEidsOfItem (db : ResearchDb) (item : ResearchItem) : List String :=
  comEidsOfRows db (fetchResearchAnnots db item.id)

def noteEidsOfItem (db : ResearchDb) (item : ResearchItem) : List String :=
  noteRowEids (fetchResearchNotes db item.id)

def resEids (items : List ResearchItem) : List String :=
  items.map (fun i => rEid i.id)

def annEidsR (db : ResearchDb) (items : List ResearchItem) : List String :=
  items.flatMap (annEidsOfItem db)

def comEidsR (db : ResearchDb) (items : List ResearchItem) : List String :=
  items.flatMap (comEidsOfItem db)

def noteEidsR (db : ResearchDb) (items : List ResearchItem) : List String :=
  items.flatMap (noteEidsOfItem db)

/-- upsert_resource on a well-formed store never errors, establishes the
resource fact for its external id, leaves the other tables alone and
preserves resource facts at other ids. -/
theorem upsertResource_run1 {st : Store} (eid title ch : String) (hwf : st.WF) :
    (upsertResource st eid title ch).1.WF ∧
    (upsertResource st eid title ch).2.1 ≠ SyncRes.error ∧
    resFact (upsertResource st eid title ch).1 eid ch ∧
    (upsertResource st eid title ch).1.annotations = st.annotations ∧
    (upsertResource st eid title ch).1.comments = st.comments ∧
    (upsertResource st eid title ch).1.notes = st.notes ∧
    (∀ e' ch', e' ≠ eid → resFact st e' ch' →
      resFact (upsertResource st eid title ch).1 e' ch') := by
  simp only [upsertResource]
  split
  · rename_i r heq
    have hfind : st.findResourceByExternalId eid = some r := heq
    split
    · rename_i hbeq
      have hch : r.content_hash = some ch := by simpa using hbeq
      exact ⟨hwf, fun h => SyncRes.noConfusion h, ⟨r, hfind, hch⟩, rfl, rfl, rfl,
        fun e' ch' _ hf => hf⟩
    · split
      · rename_i st' x heq2
        have h2 : st.updateResource r.id
            { title := some title, resource_type := none,
              content_hash := some ch, config := none } = (st', some x) := heq2
        have hst : (st.updateResource r.id
            { title := some title, resource_type := none,
              content_hash := some ch, config := none }).1 = st' := congrArg Prod.fst h2
        refine ⟨?_, fun h => SyncRes.noConfusion h, ?_, ?_, ?_, ?_, ?_⟩
        · show st'.WF
          rw [← hst]
          exact WF_updateResource _ _ hwf
        · show resFact st' eid ch
          rw [← hst]
          exact resFact_after_update_self hwf.1.1 hfind (by rfl) (by rfl)
        · show st'.annotations = st.annotations
          rw [← hst]
          exact (updateResource_frame st _ _).1
        · show st'.comments = st.comments
          rw [← hst]
          exact (updateResource_frame st _ _).2.1
        · show st'.notes = st.notes
          rw [← hst]
          exact (updateResource_frame st _ _).2.2
        · intro e' ch' hne hf
          show resFact st' e' ch'
          rw [← hst]
          exact resFact_after_update hwf.1.1 hfind (by rfl) hne hf
      · rename_i st' heq2
        have h2 : st.updateResource r.id
            { title := some title, resource_type := none,
              content_hash := some ch, config := none } = (st', none) := heq2
        rw [updateResource_found hwf.1.1 hfind (by rfl)] at h2
        exact absurd (congrArg Prod.snd h2) (by simp)
  · rename_i heq
    have hfind : st.findResourceByExternalId eid = none := heq
    refine ⟨WF_createResource _ hwf, fun h => SyncRes.noConfusion h, ?_, rfl, rfl, rfl, ?_⟩
    · exact ⟨createdResourceRow st _, findResource_create_new hfind rfl, rfl⟩
    · intro e' ch' _ hf
      exact resFact_after_create hf

/-- upsert_annotation analogue of the resource lemma. -/
theorem upsertAnnot_run1 {st : Store} (eid : String) (row : ResearchAnnotRow)
    (rid : Nat) (ch : String) (hwf : st.WF) :
    (upsertAnnot st eid row rid ch).1.WF ∧
    (upsertAnnot st eid row rid ch).2.1 ≠ SyncRes.error ∧
    annFact (upsertAnnot st eid row rid ch).1 eid ch ∧
    (upsertAnnot st eid row rid ch).1.resources = st.resources ∧
    (upsertAnnot st eid row rid ch).1.comments = st.comments ∧
    (upsertAnnot st eid row rid ch).1.notes = st.notes ∧
    (∀ e' ch', e' ≠ eid → annFact st e' ch' →
      annFact (upsertAnnot st eid row rid ch).1 e' ch') := by
  simp only [upsertAnnot]
  split
  · rename_i a heq
    have hfind : st.findAnnotByExternalId eid = some a := heq
    split
    · rename_i hbeq
      have hch : a.content_hash = some ch := by simpa using hbeq
      exact ⟨hwf, fun h => SyncRes.noConfusion h, ⟨a, hfind, hch⟩, rfl, rfl, rfl,
        fun e' ch' _ hf => hf⟩
    · split
      · rename_i st' x heq2
        have h2 : st.updateAnnot a.id
            { text := some row.text, color := row.color,
              boundary := some (Boundary.research row.page_number row.position),
              content_hash := some ch } = (st', some x) := heq2
        have hst : (st.updateAnnot a.id
            { text := some row.text, color := row.color,
              boundary := some (Boundary.research row.page_number row.position),
              content_hash := some ch }).1 = st' := congrArg Prod.fst h2
        refine ⟨?_, fun h => SyncRes.noConfusion h, ?_, ?_, ?_, ?_, ?_⟩
        · show st'.WF
          rw [← hst]
          exact WF_updateAnnot _ _ hwf
        · show annFact st' eid ch
          rw [← hst]
          exact annFact_after_update_self hwf.2.1.1 hfind (by rfl) (by rfl)
        · show st'.resources = st.resources
          rw [← hst]
          exact (updateAnnot_frame st _ _).1
        · show st'.comments = st.comments
          rw [← hst]
          exact (updateAnnot_frame st _ _).2.1
        · show st'.notes = st.notes
          rw [← hst]
          exact (updateAnnot_frame st _ _).2.2
        · intro e' ch' hne hf
          show annFact st' e' ch'
          rw [← hst]
          exact annFact_after_update hwf.2.1.1 hfind (by rfl) hne hf
      · rename_i st' heq2
        have h2 : st.updateAnnot a.id
            { text := some row.text, color := row.color,
              boundary := some (Boundary.research row.page_number row.position),
              content_hash := some ch } = (st', none) := heq2
        rw [updateAnnot_found hwf.2.1.1 hfind (by rfl)] at h2
        exact absurd (congrArg Prod.snd h2) (by simp)
  · rename_i heq
    have hfind : st.findAnnotByExternalId eid = none := heq
    refine ⟨WF_createAnnot _ hwf, fun h => SyncRes.noConfusion h, ?_, rfl, rfl, rfl, ?_⟩
    · exact ⟨createdAnnotRow st _, findAnnot_create_new hfind rfl, rfl⟩
    · intro e' ch' _ hf
      exact annFact_after_create hf

/-- upsert_comment analogue. -/
theorem upsertComment_run1 {st : Store} (eid content : String) (aid : Nat)
    (ch : String) (hwf : st.WF) :
    (upsertComment st eid content aid ch).1.WF ∧
    (upsertComment st eid content aid ch).2.1 ≠ SyncRes.error ∧
    comFact (upsertComment st eid content aid ch).1 eid ch ∧
    (upsertComment st eid content aid ch).1.resources = st.resources ∧
    (upsertComment st eid content aid ch).1.annotations = st.annotations ∧
    (upsertComment st eid content aid ch).1.notes = st.notes ∧
    (∀ e' ch', e' ≠ eid → comFact st e' ch' →
      comFact (upsertComment st eid content aid ch).1 e' ch') := by
  simp only [upsertComment]
  split
  · rename_i c heq
    have hfind : st.findCommentByExternalId eid = some c := heq
    split
    · rename_i hbeq
      have hch : c.content_hash = some ch := by simpa using hbeq
      exact ⟨hwf, fun h => SyncRes.noConfusion h, ⟨c, hfind, hch⟩, rfl, rfl, rfl,
        fun e' ch' _ hf => hf⟩
    · split
      · rename_i st' x heq2
        have h2 : st.updateComment c.id { content := content, content_hash := some ch }
            = (st', some x) := heq2
        have hst : (st.updateComment c.id
            { content := content, content_hash := some ch }).1 = st' :=
          congrArg Prod.fst h2
        refine ⟨?_, fun h => SyncRes.noConfusion h, ?_, ?_, ?_, ?_, ?_⟩
        · show st'.WF
          rw [← hst]
          exact WF_updateComment _ _ hwf
        · show comFact st' eid ch
          rw [← hst]
          exact comFact_after_update_self hwf.2.2.1.1 hfind (by rfl)
        · show st'.resources = st.resources
          rw [← hst]
          exact (updateComment_frame st _ _).1
        · show st'.annotations = st.annotations
          rw [← hst]
          exact (updateComment_frame st _ _).2.1
        · show st'.notes = st.notes
          rw [← hst]
          exact (updateComment_frame st _ _).2.2
        · intro e' ch' hne hf
          show comFact st' e' ch'
          rw [← hst]
          exact comFact_after_update hwf.2.2.1.1 hfind hne hf
      · rename_i st' heq2
        have h2 : st.updateComment c.id { content := content, content_hash := some ch }
            = (st', none) := heq2
        rw [updateComment_found hwf.2.2.1.1 hfind] at h2
        exact absurd (congrArg Prod.snd h2) (by simp)
  · rename_i heq
    have hfind : st.findCommentByExternalId eid = none := heq
    refine ⟨WF_createComment _ hwf, fun h => SyncRes.noConfusion h, ?_, rfl, rfl, rfl, ?_⟩
    · exact ⟨createdCommentRow st _, findComment_create_new hfind rfl, rfl⟩
    · intro e' ch' _ hf
      exact comFact_after_create hf

/-- upsert_note analogue. -/
theorem upsertNote_run1 {st : Store} (eid content : String) (rid : Nat)
    (ch : String) (hwf : st.WF) :
    (upsertNote st eid content rid ch).1.WF ∧
    (upsertNote st eid content rid ch).2.1 ≠ SyncRes.error ∧
    noteFact (upsertNote st eid content rid ch).1 eid ch ∧
    (upsertNote st eid content rid ch).1.resources = st.resources ∧
    (upsertNote st eid content rid ch).1.annotations = st.annotations ∧
    (upsertNote st eid content rid ch).1.comments = st.comments ∧
    (∀ e' ch', e' ≠ eid → noteFact st e' ch' →
      noteFact (upsertNote st eid content rid ch).1 e' ch') := by
  simp only [upsertNote]
  split
  · rename_i n heq
    have hfind : st.findNoteByExternalId eid = some n := heq
    split
    · rename_i hbeq
      have hch : n.content_hash = some ch := by simpa using hbeq
      exact ⟨hwf, fun h => SyncRes.noConfusion h, ⟨n, hfind, hch⟩, rfl, rfl, rfl,
        fun e' ch' _ hf => hf⟩
    · split
      · rename_i st' x heq2
        have h2 : st.updateNote n.id { content := content, content_hash := some ch }
            = (st', some x) := heq2
        have hst : (st.updateNote n.id
            { content := content, content_hash := some ch }).1 = st' :=
          congrArg Prod.fst h2
        refine ⟨?_, fun h => SyncRes.noConfusion h, ?_, ?_, ?_, ?_, ?_⟩
        · show st'.WF
          rw [← hst]
          exact WF_updateNote _ _ hwf
        · show noteFact st' eid ch
          rw [← hst]
          exact noteFact_after_update_self hwf.2.2.2.1 hfind (by rfl)
        · show st'.resources = st.resources
          rw [← hst]
          exact (updateNote_frame st _ _).1
        · show st'.annotations = st.annotations
          rw [← hst]
          exact (updateNote_frame st _ _).2.1
        · show st'.comments = st.comments
          rw [← hst]
          exact (updateNote_frame st _ _).2.2
        · intro e' ch' hne hf
          show noteFact st' e' ch'
          rw [← hst]
          exact noteFact_after_update hwf.2.2.2.1 hfind hne hf
      · rename_i st' heq2
        have h2 : st.updateNote n.id { content := content, content_hash := some ch }
            = (st', none) := heq2
        rw [updateNote_found hwf.2.2.2.1 hfind] at h2
        exact absurd (congrArg Prod.snd h2) (by simp)
  · rename_i heq
    have hfind : st.findNoteByExternalId eid = none := heq
    refine ⟨WF_createNote _ hwf, fun h => SyncRes.noConfusion h, ?_, rfl, rfl, rfl, ?_⟩
    · exact ⟨createdNoteRow st _, findNote_create_new hfind rfl, rfl⟩
    · intro e' ch' _ hf
      exact noteFact_after_create hf

/-- sync_resource on a well-formed store always returns a canonical id. -/
theorem syncResource_run1 (p : RPass) (item : ResearchItem) (hwf : p.store.WF) :
    ∃ q rid, syncResource p item = (q, some rid) ∧
    q.store.WF ∧
    resFact q.store (rEid item.id) (computeResourceHash item.title) ∧
    q.store.annotations = p.store.annotations ∧
    q.store.comments = p.store.comments ∧
    q.store.notes = p.store.notes ∧
    q.seenRes = p.seenRes ++ [rEid item.id] ∧
    q.seenAnn = p.seenAnn ∧
    q.seenCom = p.seenCom ∧
    q.seenNote = p.seenNote ∧
    (∀ e' ch', e' ≠ rEid item.id → resFact p.store e' ch' → resFact q.store e' ch') := by
  obtain ⟨hW, hE, hF, hA, hC, hN, hP⟩ := upsertResource_run1 (rEid item.id) item.title
    (computeResourceHash item.title) hwf
  simp only [syncResource]
  split
  · rename_i x heq
    exact ⟨_, x, rfl, hW, hF, hA, hC, hN, rfl, rfl, rfl, rfl, hP⟩
  · rename_i x heq
    exact ⟨_, x, rfl, hW, hF, hA, hC, hN, rfl, rfl, rfl, rfl, hP⟩
  · rename_i x heq
    exact ⟨_, x, rfl, hW, hF, hA, hC, hN, rfl, rfl, rfl, rfl, hP⟩
  · rename_i heq
    exact absurd heq hE

/-- sync_annotation on a well-formed store always returns a canonical id. -/
theorem syncAnnot_run1 (p : RPass) (row : ResearchAnnotRow) (rid : Nat)
    (hwf : p.store.WF) :
    ∃ q aid, syncAnnot p row rid = (q, some aid) ∧
    q.store.WF ∧
    annFact q.store (rEid row.id) (computeAnnotationHash row.text row.color) ∧
    q.store.resources = p.store.resources ∧
    q.store.comments = p.store.comments ∧
    q.store.notes = p.store.notes ∧
    q.seenRes = p.seenRes ∧
    q.seenAnn = p.seenAnn ++ [rEid row.id] ∧
    q.seenCom = p.seenCom ∧
    q.seenNote = p.seenNote ∧
    (∀ e' ch', e' ≠ rEid row.id → annFact p.store e' ch' → annFact q.store e' ch') := by
  obtain ⟨hW, hE, hF, hR, hC, hN, hP⟩ := upsertAnnot_run1 (rEid row.id) row rid
    (computeAnnotationHash row.text row.color) hwf
  simp only [syncAnnot]
  split
  · rename_i x heq
    exact ⟨_, x, rfl, hW, hF, hR, hC, hN, rfl, rfl, rfl, rfl, hP⟩
  · rename_i x heq
    exact ⟨_, x, rfl, hW, hF, hR, hC, hN, rfl, rfl, rfl, rfl, hP⟩
  · rename_i x heq
    exact ⟨_, x, rfl, hW, hF, hR, hC, hN, rfl, rfl, rfl, rfl, hP⟩
  · rename_i heq
    exact absurd heq hE

/-- sync_comment: fact established, comment stats bumped, everything else
framed. -/
theorem syncComment_run1 (p : RPass) (row : ResearchCommentRow) (aid : Nat)
    (hwf : p.store.WF) :
    (syncComment p row aid).store.WF ∧
    comFact (syncComment p row aid).store (rEid row.id)
      (computeCommentHash row.content) ∧
    (syncComment p row aid).store.resources = p.store.resources ∧
    (syncComment p row aid).store.annotations = p.store.annotations ∧
    (syncComment p row aid).store.notes = p.store.notes ∧
    (syncComment p row aid).seenRes = p.seenRes ∧
    (syncComment p row aid).seenAnn = p.seenAnn ∧
    (syncComment p row aid).seenCom = p.seenCom ++ [rEid row.id] ∧
    (syncComment p row aid).seenNote = p.seenNote ∧
    (∀ e' ch', e' ≠ rEid row.id → comFact p.store e' ch' →
      comFact (syncComment p row aid).store e' ch') := by
  obtain ⟨hW, hE, hF, hR, hA, hN, hP⟩ := upsertComment_run1 (rEid row.id)
    row.content aid (computeCommentHash row.content) hwf
  simp only [syncComment]
  split
  · rename_i x heq
    exact ⟨hW, hF, hR, hA, hN, rfl, rfl, rfl, rfl, hP⟩
  · rename_i x heq
    exact ⟨hW, hF, hR, hA, hN, rfl, rfl, rfl, rfl, hP⟩
  · rename_i x heq
    exact ⟨hW, hF, hR, hA, hN, rfl, rfl, rfl, rfl, hP⟩
  · rename_i heq
    exact absurd heq hE

/-- sync_note analogue. -/
theorem syncNote_run1 (p : RPass) (row : ResearchNoteRow) (rid : Nat)
    (hwf : p.store.WF) :
    (syncNote p row rid).store.WF ∧
    noteFact (syncNote p row rid).store (rEid row.id) (computeNoteHash row.content) ∧
    (syncNote p row rid).store.resources = p.store.resources ∧
    (syncNote p row rid).store.annotations = p.store.annotations ∧
    (syncNote p row rid).store.comments = p.store.comments ∧
    (syncNote p row rid).seenRes = p.seenRes ∧
    (syncNote p row rid).seenAnn = p.seenAnn ∧
    (syncNote p row rid).seenCom = p.seenCom ∧
    (syncNote p row rid).seenNote = p.seenNote ++ [rEid row.id] ∧
    (∀ e' ch', e' ≠ rEid row.id → noteFact p.store e' ch' →
      noteFact (syncNote p row rid).store e' ch') := by
  obtain ⟨hW, hE, hF, hR, hA, hC, hP⟩ := upsertNote_run1 (rEid row.id)
    row.content rid (computeNoteHash row.content) hwf
  simp only [syncNote]
  split
  · rename_i x heq
    exact ⟨hW, hF, hR, hA, hC, rfl, rfl, rfl, rfl, hP⟩
  · rename_i x heq
    exact ⟨hW, hF, hR, hA, hC, rfl, rfl, rfl, rfl, hP⟩
  · rename_i x heq
    exact ⟨hW, hF, hR, hA, hC, rfl, rfl, rfl, rfl, hP⟩
  · rename_i heq
    exact absurd heq hE

theorem comEidsOfRows_cons (db : ResearchDb) (a : ResearchAnnotRow)
    (t : List ResearchAnnotRow) :
    comEidsOfRows db (a :: t) = comEidsOfAnnot db a ++ comEidsOfRows db t := by
  simp [comEidsOfRows]

theorem annEidsR_cons (db : ResearchDb) (i : ResearchItem) (t : List ResearchItem) :
    annEidsR db (i :: t) = annEidsOfItem db i ++ annEidsR db t := by
  simp [annEidsR]

theorem comEidsR_cons (db : ResearchDb) (i : ResearchItem) (t : List ResearchItem) :
    comEidsR db (i :: t) = comEidsOfItem db i ++ comEidsR db t := by
  simp [comEidsR]

theorem noteEidsR_cons (db : ResearchDb) (i : ResearchItem) (t : List ResearchItem) :
    noteEidsR db (i :: t) = noteEidsOfItem db i ++ noteEidsR db t := by
  simp [noteEidsR]

/-- Run-1 over a comment list. -/
theorem syncCommentList_run1 (aid : Nat) :
    ∀ (cs : List ResearchCommentRow) (p : RPass), p.store.WF →
      (comRowEids cs).Nodup →
      (syncCommentList p aid cs).store.WF ∧
      (∀ c ∈ cs, comFact (syncCommentList p aid cs).store (rEid c.id)
        (computeCommentHash c.content)) ∧
      (syncCommentList p aid cs).store.resources = p.store.resources ∧
      (syncCommentList p aid cs).store.annotations = p.store.annotations ∧
      (syncCommentList p aid cs).store.notes = p.store.notes ∧
      (syncCommentList p aid cs).seenRes = p.seenRes ∧
      (syncCommentList p aid cs).seenAnn = p.seenAnn ∧
      (syncCommentList p aid cs).seenCom = p.seenCom ++ comRowEids cs ∧
      (syncCommentList p aid cs).seenNote = p.seenNote ∧
      (∀ e' ch', e' ∉ comRowEids cs → comFact p.store e' ch' →
        comFact (syncCommentList p aid cs).store e' ch') := by
  intro cs
  induction cs with
  | nil =>
    intro p hwf _
    exact ⟨hwf, fun c hc => absurd hc (List.not_mem_nil c), rfl, rfl, rfl, rfl, rfl,
      (List.append_nil _).symm, rfl, fun e' ch' _ hf => hf⟩
  | cons c t ih =>
    intro p hwf hnd
    have hnd' : (rEid c.id :: comRowEids t).Nodup := hnd
    rw [List.nodup_cons] at hnd'
    obtain ⟨hhd, hnt⟩ := hnd'
    obtain ⟨hW1, hF1, hR1, hA1, hN1, hsr1, hsa1, hsc1, hsn1, hP1⟩ :=
      syncComment_run1 p c aid hwf
    obtain ⟨hW2, hF2, hR2, hA2, hN2, hsr2, hsa2, hsc2, hsn2, hP2⟩ :=
      ih (syncComment p c aid) hW1 hnt
    refine ⟨hW2, ?_, hR2.trans hR1, hA2.trans hA1, hN2.trans hN1,
      hsr2.trans hsr1, hsa2.trans hsa1, ?_, hsn2.trans hsn1, ?_⟩
    · intro c' hc'
      rcases List.mem_cons.mp hc' with h | h
      · subst h
        exact hP2 _ _ hhd hF1
      · exact hF2 c' h
    · show (syncCommentList (syncComment p c aid) aid t).seenCom = _
      rw [hsc2, hsc1, List.append_assoc]
      rfl
    · intro e' ch' hne hf
      have hne' : e' ≠ rEid c.id ∧ e' ∉ comRowEids t := by
        rw [show comRowEids (c :: t) = rEid c.id :: comRowEids t from rfl,
          List.mem_cons] at hne
        push_neg at hne
        exact hne
      exact hP2 e' ch' hne'.2 (hP1 e' ch' hne'.1 hf)

/-- Run-1 over a note list. -/
theorem syncNoteList_run1 (rid : Nat) :
    ∀ (ns : List ResearchNoteRow) (p : RPass), p.store.WF →
      (noteRowEids ns).Nodup →
      (syncNoteList p rid ns).store.WF ∧
      (∀ n ∈ ns, noteFact (syncNoteList p rid ns).store (rEid n.id)
        (computeNoteHash n.content)) ∧
      (syncNoteList p rid ns).store.resources = p.store.resources ∧
      (syncNoteList p rid ns).store.annotations = p.store.annotations ∧
      (syncNoteList p rid ns).store.comments = p.store.comments ∧
      (syncNoteList p rid ns).seenRes = p.seenRes ∧
      (syncNoteList p rid ns).seenAnn = p.seenAnn ∧
      (syncNoteList p rid ns).seenCom = p.seenCom ∧
      (syncNoteList p rid ns).seenNote = p.seenNote ++ noteRowEids ns ∧
      (∀ e' ch', e' ∉ noteRowEids ns → noteFact p.store e' ch' →
        noteFact (syncNoteList p rid ns).store e' ch') := by
  intro ns
  induction ns with
  | nil =>
    intro p hwf _
    exact ⟨hwf, fun n hn => absurd hn (List.not_mem_nil n), rfl, rfl, rfl, rfl, rfl,
      rfl, (List.append_nil _).symm, fun e' ch' _ hf => hf⟩
  | cons n t ih =>
    intro p hwf hnd
    have hnd' : (rEid n.id :: noteRowEids t).Nodup := hnd
    rw [List.nodup_cons] at hnd'
    obtain ⟨hhd, hnt⟩ := hnd'
    obtain ⟨hW1, hF1, hR1, hA1, hC1, hsr1, hsa1, hsc1, hsn1, hP1⟩ :=
      syncNote_run1 p n rid hwf
    obtain ⟨hW2, hF2, hR2, hA2, hC2, hsr2, hsa2, hsc2, hsn2, hP2⟩ :=
      ih (syncNote p n rid) hW1 hnt
    refine ⟨hW2, ?_, hR2.trans hR1, hA2.trans hA1, hC2.trans hC1,
      hsr2.trans hsr1, hsa2.trans hsa1, hsc2.trans hsc1, ?_, ?_⟩
    · intro n' hn'
      rcases List.mem_cons.mp hn' with h | h
      · subst h
        exact hP2 _ _ hhd hF1
      · exact hF2 n' h
    · show (syncNoteList (syncNote p n rid) rid t).seenNote = _
      rw [hsn2, hsn1, List.append_assoc]
      rfl
    · intro e' ch' hne hf
      have hne' : e' ≠ rEid n.id ∧ e' ∉ noteRowEids t := by
        rw [show noteRowEids (n :: t) = rEid n.id :: noteRowEids t from rfl,
          List.mem_cons] at hne
        push_neg at hne
        exact hne
      exact hP2 e' ch' hne'.2 (hP1 e' ch' hne'.1 hf)

/-- Run-1 over one annotation and its comments. -/
theorem syncAnnotAndComments_run1 (db : ResearchDb) (p : RPass)
    (row : ResearchAnnotRow) (rid : Nat) (hwf : p.store.WF)
    (hndc : (comEidsOfAnnot db row).Nodup) :
    (syncAnnotAndComments db p row rid).store.WF ∧
    annFact (syncAnnotAndComments db p row rid).store (rEid row.id)
      (computeAnnotationHash row.text row.color) ∧
    (∀ c ∈ fetchResearchComments db row.id,
      comFact (syncAnnotAndComments db p row rid).store (rEid c.id)
        (computeCommentHash c.content)) ∧
    (syncAnnotAndComments db p row rid).store.resources = p.store.resources ∧
    (syncAnnotAndComments db p row rid).store.notes = p.store.notes ∧
    (syncAnnotAndComments db p row rid).seenRes = p.seenRes ∧
    (syncAnnotAndComments db p row rid).seenAnn = p.seenAnn ++ [rEid row.id] ∧
    (syncAnnotAndComments db p row rid).seenCom = p.seenCom ++ comEidsOfAnnot db row ∧
    (syncAnnotAndComments db p row rid).seenNote = p.seenNote ∧
    (∀ e' ch', e' ≠ rEid row.id → annFact p.store e' ch' →
      annFact (syncAnnotAndComments db p row rid).store e' ch') ∧
    (∀ e' ch', e' ∉ comEidsOfAnnot db row → comFact p.store e' ch' →
      comFact (syncAnnotAndComments db p row rid).store e' ch') ∧
    (∀ e' ch', resFact p.store e' ch' →
      resFact (syncAnnotAndComments db p row rid).store e' ch') ∧
    (∀ e' ch', noteFact p.store e' ch' →
      noteFact (syncAnnotAndComments db p row rid).store e' ch') := by
  obtain ⟨q, aid, heq, hqW, hqF, hqR, hqC, hqN, hqsr, hqsa, hqsc, hqsn, hqP⟩ :=
    syncAnnot_run1 p row rid hwf
  have hsac : syncAnnotAndComments db p row rid
      = syncCommentList q aid (fetchResearchComments db row.id) := by
    simp only [syncAnnotAndComments, heq, syncAnnotComments]
  rw [hsac]
  obtain ⟨hW2, hF2, hR2, hA2, hN2, hsr2, hsa2, hsc2, hsn2, hP2⟩ :=
    syncCommentList_run1 aid (fetchResearchComments db row.id) q hqW hndc
  refine ⟨hW2, ?_, hF2, hR2.trans hqR, hN2.trans hqN, hsr2.trans hqsr,
    hsa2.trans hqsa, ?_, hsn2.trans hqsn, ?_, ?_, ?_, ?_⟩
  · exact annFact_congr hA2.symm hqF
  · rw [hsc2, hqsc]
    rfl
  · intro e' ch' hne hf
    exact annFact_congr hA2.symm (hqP e' ch' hne hf)
  · intro e' ch' hne hf
    exact hP2 e' ch' hne (comFact_congr hqC.symm hf)
  · intro e' ch' hf
    exact resFact_congr (hR2.trans hqR).symm hf
  · intro e' ch' hf
    exact noteFact_congr (hN2.trans hqN).symm hf

/-- Run-1 over an annotation list (each with its comments). -/
theorem syncAnnotList_run1 (db : ResearchDb) (rid : Nat) :
    ∀ (rows : List ResearchAnnotRow) (p : RPass), p.store.WF →
      (annRowEids rows).Nodup → (comEidsOfRows db rows).Nodup →
      (syncAnnotList db p rid rows).store.WF ∧
      (∀ a ∈ rows, annFact (syncAnnotList db p rid rows).store (rEid a.id)
        (computeAnnotationHash a.text a.color)) ∧
      (∀ a ∈ rows, ∀ c ∈ fetchResearchComments db a.id,
        comFact (syncAnnotList db p rid rows).store (rEid c.id)
          (computeCommentHash c.content)) ∧
      (syncAnnotList db p rid rows).store.resources = p.store.resources ∧
      (syncAnnotList db p rid rows).store.notes = p.store.notes ∧
      (syncAnnotList db p rid rows).seenRes = p.seenRes ∧
      (syncAnnotList db p rid rows).seenAnn = p.seenAnn ++ annRowEids rows ∧
      (syncAnnotList db p rid rows).seenCom = p.seenCom ++ comEidsOfRows db rows ∧
      (syncAnnotList db p rid rows).seenNote = p.seenNote ∧
      (∀ e' ch', e' ∉ annRowEids rows → annFact p.store e' ch' →
        annFact (syncAnnotList db p rid rows).store e' ch') ∧
      (∀ e' ch', e' ∉ comEidsOfRows db rows → comFact p.store e' ch' →
        comFact (syncAnnotList db p rid rows).store e' ch') ∧
      (∀ e' ch', resFact p.store e' ch' →
        resFact (syncAnnotList db p rid rows).store e' ch') ∧
      (∀ e' ch', noteFact p.store e' ch' →
        noteFact (syncAnnotList db p rid rows).store e' ch') := by
  intro rows
  induction rows with
  | nil =>
    intro p hwf _ _
    exact ⟨hwf, fun a ha => absurd ha (List.not_mem_nil a),
      fun a ha => absurd ha (List.not_mem_nil a), rfl, rfl, rfl,
      (List.append_nil _).symm, (List.append_nil _).symm, rfl,
      fun e' ch' _ hf => hf, fun e' ch' _ hf => hf,
      fun e' ch' hf => hf, fun e' ch' hf => hf⟩
  | cons a t ih =>
    intro p hwf hnda hndc
    have hnda' : (rEid a.id :: annRowEids t).Nodup := hnda
    rw [List.nodup_cons] at hnda'
    obtain ⟨hahd, hant⟩ := hnda'
    have hndc' : (comEidsOfAnnot db a ++ comEidsOfRows db t).Nodup := by
      rw [← comEidsOfRows_cons]
      exact hndc
    rw [List.nodup_append] at hndc'
    obtain ⟨hc1, hc2, hcdisj⟩ := hndc'
    obtain ⟨hW1, hF1, hG1, hR1, hN1, hsr1, hsa1, hsc1, hsn1, hPa1, hPc1, hPr1, hPn1⟩ :=
      syncAnnotAndComments_run1 db p a rid hwf hc1
    obtain ⟨hW2, hF2, hG2, hR2, hN2, hsr2, hsa2, hsc2, hsn2, hPa2, hPc2, hPr2, hPn2⟩ :=
      ih (syncAnnotAndComments db p a rid) hW1 hant hc2
    refine ⟨hW2, ?_, ?_, hR2.trans hR1, hN2.trans hN1, hsr2.trans hsr1, ?_, ?_,
      hsn2.trans hsn1, ?_, ?_, ?_, ?_⟩
    · intro a' ha'
      rcases List.mem_cons.mp ha' with h | h
      · subst h
        exact hPa2 _ _ hahd hF1
      · exact hF2 a' h
    · intro a' ha' c hc
      rcases List.mem_cons.mp ha' with h | h
      · subst h
        refine hPc2 _ _ ?_ (hG1 c hc)
        intro hmem
        exact hcdisj (List.mem_map_of_mem _ hc) hmem
      · exact hG2 a' h c hc
    · show (syncAnnotList db (syncAnnotAndComments db p a rid) rid t).seenAnn = _
      rw [hsa2, hsa1, List.append_assoc]
      rfl
    · show (syncAnnotList db (syncAnnotAndComments db p a rid) rid t).seenCom = _
      rw [hsc2, hsc1, List.append_assoc, comEidsOfRows_cons]
    · intro e' ch' hne hf
      have hne' : e' ≠ rEid a.id ∧ e' ∉ annRowEids t := by
        rw [show annRowEids (a :: t) = rEid a.id :: annRowEids t from rfl,
          List.mem_cons] at hne
        push_neg at hne
        exact hne
      exact hPa2 e' ch' hne'.2 (hPa1 e' ch' hne'.1 hf)
    · intro e' ch' hne hf
      have hne' : e' ∉ comEidsOfAnnot db a ∧ e' ∉ comEidsOfRows db t := by
        rw [comEidsOfRows_cons, List.mem_append] at hne
        push_neg at hne
        exact hne
      exact hPc2 e' ch' hne'.2 (hPc1 e' ch' hne'.1 hf)
    · intro e' ch' hf
      exact hPr2 e' ch' (hPr1 e' ch' hf)
    · intro e' ch' hf
      exact hPn2 e' ch' (hPn1 e' ch' hf)

/-- Run-1 over one item: resource, then its annotations with comments,
then its notes. -/
theorem syncItem_run1 (db : ResearchDb) (p : RPass) (item : ResearchItem)
    (hwf : p.store.WF)
    (hnda : (annEidsOfItem db item).Nodup)
    (hndc : (comEidsOfItem db item).Nodup)
    (hndn : (noteEidsOfItem db item).Nodup) :
    (syncItem db p item).store.WF ∧
    resFact (syncItem db p item).store (rEid item.id) (computeResourceHash item.title) ∧
    (∀ a ∈ fetchResearchAnnots db item.id,
      annFact (syncItem db p item).store (rEid a.id)
        (computeAnnotationHash a.text a.color)) ∧
    (∀ a ∈ fetchResearchAnnots db item.id, ∀ c ∈ fetchResearchComments db a.id,
      comFact (syncItem db p item).store (rEid c.id) (computeCommentHash c.content)) ∧
    (∀ n ∈ fetchResearchNotes db item.id,
      noteFact (syncItem db p item).store (rEid n.id) (computeNoteHash n.content)) ∧
    (syncItem db p item).seenRes = p.seenRes ++ [rEid item.id] ∧
    (syncItem db p item).seenAnn = p.seenAnn ++ annEidsOfItem db item ∧
    (syncItem db p item).seenCom = p.seenCom ++ comEidsOfItem db item ∧
    (syncItem db p item).seenNote = p.seenNote ++ noteEidsOfItem db item ∧
    (∀ e' ch', e' ≠ rEid item.id → resFact p.store e' ch' →
      resFact (syncItem db p item).store e' ch') ∧
    (∀ e' ch', e' ∉ annEidsOfItem db item → annFact p.store e' ch' →
      annFact (syncItem db p item).store e' ch') ∧
    (∀ e' ch', e' ∉ comEidsOfItem db item → comFact p.store e' ch' →
      comFact (syncItem db p item).store e' ch') ∧
    (∀ e' ch', e' ∉ noteEidsOfItem db item → noteFact p.store e' ch' →
      noteFact (syncItem db p item).store e' ch') := by
  obtain ⟨q, rid, heq, hqW, hqF, hqA, hqC, hqN, hqsr, hqsa, hqsc, hqsn, hqP⟩ :=
    syncResource_run1 p item hwf
  have hsi : syncItem db p item
      = syncItemNotes db (syncItemAnnots db q item rid) item rid := by
    simp only [syncItem, heq]
  rw [hsi]
  obtain ⟨hW2, hF2, hG2, hR2, hN2, hsr2, hsa2, hsc2, hsn2, hPa2, hPc2, hPr2, hPn2⟩ :=
    syncAnnotList_run1 db rid (fetchResearchAnnots db item.id) q hqW hnda hndc
  obtain ⟨hW3, hF3, hR3, hA3, hC3, hsr3, hsa3, hsc3, hsn3, hP3⟩ :=
    syncNoteList_run1 rid (fetchResearchNotes db item.id)
      (syncItemAnnots db q item rid) hW2 hndn
  have hsr2' : (syncItemAnnots db q item rid).seenRes = q.seenRes := hsr2
  have hsa2' : (syncItemAnnots db q item rid).seenAnn
      = q.seenAnn ++ annRowEids (fetchResearchAnnots db item.id) := hsa2
  have hsc2' : (syncItemAnnots db q item rid).seenCom
      = q.seenCom ++ comEidsOfRows db (fetchResearchAnnots db item.id) := hsc2
  have hsn2' : (syncItemAnnots db q item rid).seenNote = q.seenNote := hsn2
  refine ⟨hW3, ?_, ?_, ?_, hF3, ?_, ?_, ?_, ?_, ?_, ?_, ?_, ?_⟩
  · exact resFact_congr hR3.symm (hPr2 _ _ hqF)
  · intro a ha
    exact annFact_congr hA3.symm (hF2 a ha)
  · intro a ha c hc
    exact comFact_congr hC3.symm (hG2 a ha c hc)
  · show (syncNoteList (syncItemAnnots db q item rid) rid
        (fetchResearchNotes db item.id)).seenRes = _
    rw [hsr3, hsr2', hqsr]
  · show (syncNoteList (syncItemAnnots db q item rid) rid
        (fetchResearchNotes db item.id)).seenAnn = _
    rw [hsa3, hsa2', hqsa]
    rfl
  · show (syncNoteList (syncItemAnnots db q item rid) rid
        (fetchResearchNotes db item.id)).seenCom = _
    rw [hsc3, hsc2', hqsc]
    rfl
  · show (syncNoteList (syncItemAnnots db q item rid) rid
        (fetchResearchNotes db item.id)).seenNote = _
    rw [hsn3, hsn2', hqsn]
    rfl
  · intro e' ch' hne hf
    exact resFact_congr hR3.symm (hPr2 _ _ (hqP e' ch' hne hf))
  · intro e' ch' hne hf
    exact annFact_congr hA3.symm (hPa2 e' ch' hne (annFact_congr hqA.symm hf))
  · intro e' ch' hne hf
    exact comFact_congr hC3.symm (hPc2 e' ch' hne (comFact_congr hqC.symm hf))
  · intro e' ch' hne hf
    exact hP3 e' ch' hne (noteFact_congr (hN2.trans hqN).symm hf)

/-- Run-1 over the whole item list. -/
theorem syncItemList_run1 (db : ResearchDb) :
    ∀ (items : List ResearchItem) (p : RPass), p.store.WF →
      (resEids items).Nodup → (annEidsR db items).Nodup →
      (comEidsR db items).Nodup → (noteEidsR db items).Nodup →
      (syncItemList db p items).store.WF ∧
      (∀ i ∈ items, resFact (syncItemList db p items).store (rEid i.id)
        (computeResourceHash i.title)) ∧
      (∀ i ∈ items, ∀ a ∈ fetchResearchAnnots db i.id,
        annFact (syncItemList db p items).store (rEid a.id)
          (computeAnnotationHash a.text a.color)) ∧
      (∀ i ∈ items, ∀ a ∈ fetchResearchAnnots db i.id,
        ∀ c ∈ fetchResearchComments db a.id,
        comFact (syncItemList db p items).store (rEid c.id)
          (computeCommentHash c.content)) ∧
      (∀ i ∈ items, ∀ n ∈ fetchResearchNotes db i.id,
        noteFact (syncItemList db p items).store (rEid n.id)
          (computeNoteHash n.content)) ∧
      (syncItemList db p items).seenRes = p.seenRes ++ resEids items ∧
      (syncItemList db p items).seenAnn = p.seenAnn ++ annEidsR db items ∧
      (syncItemList db p items).seenCom = p.seenCom ++ comEidsR db items ∧
      (syncItemList db p items).seenNote = p.seenNote ++ noteEidsR db items ∧
      (∀ e' ch', e' ∉ resEids items → resFact p.store e' ch' →
        resFact (syncItemList db p items).store e' ch') ∧
      (∀ e' ch', e' ∉ annEidsR db items → annFact p.store e' ch' →
        annFact (syncItemList db p items).store e' ch') ∧
      (∀ e' ch', e' ∉ comEidsR db items → comFact p.store e' ch' →
        comFact (syncItemList db p items).store e' ch') ∧
      (∀ e' ch', e' ∉ noteEidsR db items → noteFact p.store e' ch' →
        noteFact (syncItemList db p items).store e' ch') := by
  intro items
  induction items with
  | nil =>
    intro p hwf _ _ _ _
    exact ⟨hwf, fun i hi => absurd hi (List.not_mem_nil i),
      fun i hi => absurd hi (List.not_mem_nil i),
      fun i hi => absurd hi (List.not_mem_nil i),
      fun i hi => absurd hi (List.not_mem_nil i),
      (List.append_nil _).symm, (List.append_nil _).symm,
      (List.append_nil _).symm, (List.append_nil _).symm,
      fun e' ch' _ hf => hf, fun e' ch' _ hf => hf,
      fun e' ch' _ hf => hf, fun e' ch' _ hf => hf⟩
  | cons i t ih =>
    intro p hwf hnr hna hnc hnn
    have hnr' : (rEid i.id :: resEids t).Nodup := hnr
    rw [List.nodup_cons] at hnr'
    obtain ⟨hrhd, hrt⟩ := hnr'
    have hna' : (annEidsOfItem db i ++ annEidsR db t).Nodup := by
      rw [← annEidsR_cons]
      exact hna
    rw [List.nodup_append] at hna'
    obtain ⟨hna1, hna2, hnadisj⟩ := hna'
    have hnc' : (comEidsOfItem db i ++ comEidsR db t).Nodup := by
      rw [← comEidsR_cons]
      exact hnc
    rw [List.nodup_append] at hnc'
    obtain ⟨hnc1, hnc2, hncdisj⟩ := hnc'
    have hnn' : (noteEidsOfItem db i ++ noteEidsR db t).Nodup := by
      rw [← noteEidsR_cons]
      exact hnn
    rw [List.nodup_append] at hnn'
    obtain ⟨hnn1, hnn2, hnndisj⟩ := hnn'
    obtain ⟨hW1, hF1, hG1, hH1, hK1, hsr1, hsa1, hsc1, hsn1, hPr1, hPa1, hPc1, hPn1⟩ :=
      syncItem_run1 db p i hwf hna1 hnc1 hnn1
    obtain ⟨hW2, hF2, hG2, hH2, hK2, hsr2, hsa2, hsc2, hsn2, hPr2, hPa2, hPc2, hPn2⟩ :=
      ih (syncItem db p i) hW1 hrt hna2 hnc2 hnn2
    refine ⟨hW2, ?_, ?_, ?_, ?_, ?_, ?_, ?_, ?_, ?_, ?_, ?_, ?_⟩
    · intro i' hi'
      rcases List.mem_cons.mp hi' with h | h
      · subst h
        exact hPr2 _ _ hrhd hF1
      · exact hF2 i' h
    · intro i' hi' a ha
      rcases List.mem_cons.mp hi' with h | h
      · subst h
        refine hPa2 _ _ ?_ (hG1 a ha)
        intro hmem
        exact hnadisj (List.mem_map_of_mem _ ha) hmem
      · exact hG2 i' h a ha
    · intro i' hi' a ha c hc
      rcases List.mem_cons.mp hi' with h | h
      · subst h
        refine hPc2 _ _ ?_ (hH1 a ha c hc)
        intro hmem
        refine hncdisj ?_ hmem
        exact List.mem_flatMap.mpr ⟨a, ha, List.mem_map_of_mem _ hc⟩
      · exact hH2 i' h a ha c hc
    · intro i' hi' n hn
      rcases List.mem_cons.mp hi' with h | h
      · subst h
        refine hPn2 _ _ ?_ (hK1 n hn)
        intro hmem
        exact hnndisj (List.mem_map_of_mem _ hn) hmem
      · exact hK2 i' h n hn
    · show (syncItemList db (syncItem db p i) t).seenRes = _
      rw [hsr2, hsr1, List.append_assoc]
      rfl
    · show (syncItemList db (syncItem db p i) t).seenAnn = _
      rw [hsa2, hsa1, List.append_assoc, annEidsR_cons]
    · show (syncItemList db (syncItem db p i) t).seenCom = _
      rw [hsc2, hsc1, List.append_assoc, comEidsR_cons]
    · show (syncItemList db (syncItem db p i) t).seenNote = _
      rw [hsn2, hsn1, List.append_assoc, noteEidsR_cons]
    · intro e' ch' hne hf
      have hne' : e' ≠ rEid i.id ∧ e' ∉ resEids t := by
        rw [show resEids (i :: t) = rEid i.id :: resEids t from rfl,
          List.mem_cons] at hne
        push_neg at hne
        exact hne
      exact hPr2 e' ch' hne'.2 (hPr1 e' ch' hne'.1 hf)
    · intro e' ch' hne hf
      have hne' : e' ∉ annEidsOfItem db i ∧ e' ∉ annEidsR db t := by
        rw [annEidsR_cons, List.mem_append] at hne
        push_neg at hne
        exact hne
      exact hPa2 e' ch' hne'.2 (hPa1 e' ch' hne'.1 hf)
    · intro e' ch' hne hf
      have hne' : e' ∉ comEidsOfItem db i ∧ e' ∉ comEidsR db t := by
        rw [comEidsR_cons, List.mem_append] at hne
        push_neg at hne
        exact hne
      exact hPc2 e' ch' hne'.2 (hPc1 e' ch' hne'.1 hf)
    · intro e' ch' hne hf
      have hne' : e' ∉ noteEidsOfItem db i ∧ e' ∉ noteEidsR db t := by
        rw [noteEidsR_cons, List.mem_append] at hne
        push_neg at hne
        exact hne
      exact hPn2 e' ch' hne'.2 (hPn1 e' ch' hne'.1 hf)

/-! The research orphan sweeps: per-kind preservation and completeness. -/

theorem isOrphan_true_elim {eid : Option String} {seen : List String}
    (h : isOrphan eid seen = true) : ∃ e, eid = some e ∧ seen.contains e = false := by
  cases eid with
  | none => simp [isOrphan] at h
  | some e =>
    refine ⟨e, rfl, ?_⟩
    simpa [isOrphan] using h

theorem isOrphan_false_of_contains {eid : Option String} {seen : List String} {e : String}
    (he : eid = some e) (hc : seen.contains e = true) : isOrphan eid seen = false := by
  have hm : e ∈ seen := by simpa using hc
  rw [he]
  simp [isOrphan, hm]

def comPairs (st : Store) : List (Nat × Option String) :=
  st.comments.map (fun c => (c.id, c.external_id))

theorem comPairs_fst (st : Store) :
    (comPairs st).map Prod.fst = st.comments.map Comment.id := by
  simp only [comPairs, List.map_map]
  apply List.map_congr_left
  intro a _
  rfl

theorem softDeleteComment_pairs (st : Store) (j : Nat) :
    comPairs (st.softDeleteComment j).1 = comPairs st := by
  simp only [Store.softDeleteComment, comPairs, List.map_map]
  apply List.map_congr_left
  intro a _
  by_cases h : a.id = j <;> simp [h]

theorem sweepComOrphan_of_seen {p : RPass} {o : Comment}
    (hc : isOrphan o.external_id p.seenCom = false) : sweepComOrphan p o = p := by
  simp [sweepComOrphan, hc]

theorem sweepComOrphan_store_of_orphan {p : RPass} {o : Comment}
    (hc : isOrphan o.external_id p.seenCom = true) :
    (sweepComOrphan p o).store = (p.store.softDeleteComment o.id).1 := by
  simp only [sweepComOrphan, hc, if_true]
  split
  · rename_i st' heq
    exact (congrArg Prod.fst heq).symm
  · rename_i st' heq
    exact (congrArg Prod.fst heq).symm

theorem sweepComOrphan_seen (p : RPass) (o : Comment) :
    (sweepComOrphan p o).seenRes = p.seenRes ∧
    (sweepComOrphan p o).seenAnn = p.seenAnn ∧
    (sweepComOrphan p o).seenCom = p.seenCom ∧
    (sweepComOrphan p o).seenNote = p.seenNote := by
  simp only [sweepComOrphan]
  split
  · split
    · exact ⟨rfl, rfl, rfl, rfl⟩
    · exact ⟨rfl, rfl, rfl, rfl⟩
  · exact ⟨rfl, rfl, rfl, rfl⟩

theorem sweepComOrphan_frame (p : RPass) (o : Comment) :
    (sweepComOrphan p o).store.resources = p.store.resources ∧
    (sweepComOrphan p o).store.annotations = p.store.annotations ∧
    (sweepComOrphan p o).store.notes = p.store.notes := by
  simp only [sweepComOrphan]
  split
  · split
    · rename_i st' heq
      have h1 : (p.store.softDeleteComment o.id).1 = st' := congrArg Prod.fst heq
      rw [← h1]
      exact softDeleteComment_frame p.store o.id
    · rename_i st' heq
      have h1 : (p.store.softDeleteComment o.id).1 = st' := congrArg Prod.fst heq
      rw [← h1]
      exact softDeleteComment_frame p.store o.id
  · exact ⟨rfl, rfl, rfl⟩

theorem sweepComOrphan_WF {p : RPass} (o : Comment) (hwf : p.store.WF) :
    (sweepComOrphan p o).store.WF := by
  by_cases hc : isOrphan o.external_id p.seenCom = true
  · rw [sweepComOrphan_store_of_orphan hc]
    exact WF_softDeleteComment _ hwf
  · rw [sweepComOrphan_of_seen (eq_false_of_ne_true hc)]
    exact hwf

theorem sweepComOrphanList_seen : ∀ (os : List Comment) (p : RPass),
    (sweepComOrphanList p os).seenRes = p.seenRes ∧
    (sweepComOrphanList p os).seenAnn = p.seenAnn ∧
    (sweepComOrphanList p os).seenCom = p.seenCom ∧
    (sweepComOrphanList p os).seenNote = p.seenNote := by
  intro os
  induction os with
  | nil => intro p ; exact ⟨rfl, rfl, rfl, rfl⟩
  | cons o t ih =>
    intro p
    obtain ⟨a2, b2, c2, d2⟩ := ih (sweepComOrphan p o)
    obtain ⟨a1, b1, c1, d1⟩ := sweepComOrphan_seen p o
    exact ⟨a2.trans a1, b2.trans b1, c2.trans c1, d2.trans d1⟩

theorem sweepComOrphanList_frame : ∀ (os : List Comment) (p : RPass),
    (sweepComOrphanList p os).store.resources = p.store.resources ∧
    (sweepComOrphanList p os).store.annotations = p.store.annotations ∧
    (sweepComOrphanList p os).store.notes = p.store.notes := by
  intro os
  induction os with
  | nil => intro p ; exact ⟨rfl, rfl, rfl⟩
  | cons o t ih =>
    intro p
    obtain ⟨a2, b2, c2⟩ := ih (sweepComOrphan p o)
    obtain ⟨a1, b1, c1⟩ := sweepComOrphan_frame p o
    exact ⟨a2.trans a1, b2.trans b1, c2.trans c1⟩

theorem sweepComOrphanList_WF : ∀ (os : List Comment) (p : RPass), p.store.WF →
    (sweepComOrphanList p os).store.WF := by
  intro os
  induction os with
  | nil => intro p hwf ; exact hwf
  | cons o t ih => intro p hwf ; exact ih _ (sweepComOrphan_WF o hwf)

theorem sweepComOrphanList_comFact : ∀ (os : List Comment) (p : RPass) (stPre : Store)
    (e ch : String),
    comPairs p.store = comPairs stPre →
    (stPre.comments.map Comment.id).Nodup →
    (∀ o ∈ os, (o.id, o.external_id) ∈ comPairs stPre) →
    p.seenCom.contains e = true →
    comFact p.store e ch →
    comFact (sweepComOrphanList p os).store e ch := by
  intro os
  induction os with
  | nil => intro p stPre e ch _ _ _ _ hf ; exact hf
  | cons o t ih =>
    intro p stPre e ch hcorr hnd hos hseen hf
    by_cases hc : isOrphan o.external_id p.seenCom = true
    · obtain ⟨eo, heo, hceo⟩ := isOrphan_true_elim hc
      have hwfc : (p.store.comments.map Comment.id).Nodup := by
        rw [← comPairs_fst, hcorr, comPairs_fst]
        exact hnd
      have hno : ∀ b ∈ p.store.comments, b.id = o.id → b.external_id ≠ some e := by
        intro b hb hid hbe
        have hbpair : (b.id, b.external_id) ∈ comPairs stPre := by
          rw [← hcorr]
          exact List.mem_map_of_mem _ hb
        have hopair : (o.id, o.external_id) ∈ comPairs stPre := hos o (List.mem_cons_self o t)
        have hndp : ((comPairs stPre).map Prod.fst).Nodup := by
          rw [comPairs_fst]
          exact hnd
        have hpeq : (b.id, b.external_id) = (o.id, o.external_id) :=
          nodup_map_eq_of_eq hndp hbpair hopair hid
        have hsnd : b.external_id = o.external_id := congrArg Prod.snd hpeq
        rw [hbe, heo] at hsnd
        have : eo = e := (Option.some.inj hsnd).symm
        rw [this] at hceo
        exact absurd (hseen.symm.trans hceo) (by simp)
      show comFact (sweepComOrphanList (sweepComOrphan p o) t).store e ch
      refine ih (sweepComOrphan p o) stPre e ch ?_ hnd
        (fun o' ho' => hos o' (List.mem_cons_of_mem _ ho')) ?_ ?_
      · rw [sweepComOrphan_store_of_orphan hc, softDeleteComment_pairs]
        exact hcorr
      · rw [(sweepComOrphan_seen p o).2.2.1]
        exact hseen
      · rw [sweepComOrphan_store_of_orphan hc]
        exact comFact_after_softDelete hf hno
    · have hc' : isOrphan o.external_id p.seenCom = false := eq_false_of_ne_true hc
      show comFact (sweepComOrphanList (sweepComOrphan p o) t).store e ch
      rw [sweepComOrphan_of_seen hc']
      exact ih p stPre e ch hcorr hnd
        (fun o' ho' => hos o' (List.mem_cons_of_mem _ ho')) hseen hf

theorem sweepComOrphanList_complete (pred : Comment → Bool)
    (hpred : ∀ c, pred c = true → ∃ e, c.external_id = some e) :
    ∀ (os : List Comment) (p : RPass),
    (∀ c ∈ p.store.comments, c.deleted_at = none → pred c = true →
      (∃ e, c.external_id = some e ∧ p.seenCom.contains e = true) ∨
      ∃ o ∈ os, o.id = c.id ∧ o.external_id = c.external_id) →
    ∀ c ∈ (sweepComOrphanList p os).store.comments, c.deleted_at = none →
      pred c = true →
      ∃ e, c.external_id = some e ∧ p.seenCom.contains e = true := by
  intro os
  induction os with
  | nil =>
    intro p hInv c hc hl hp
    rcases hInv c hc hl hp with h | ⟨o, ho, _⟩
    · exact h
    · exact absurd ho (List.not_mem_nil o)
  | cons o t ih =>
    intro p hInv c hc hl hp
    by_cases horp : isOrphan o.external_id p.seenCom = true
    · have hstep : (sweepComOrphan p o).store = (p.store.softDeleteComment o.id).1 :=
        sweepComOrphan_store_of_orphan horp
      have hc' : c ∈ (sweepComOrphanList (sweepComOrphan p o) t).store.comments := hc
      have hinv : ∀ b ∈ (sweepComOrphan p o).store.comments, b.deleted_at = none →
          pred b = true →
          (∃ e, b.external_id = some e ∧ (sweepComOrphan p o).seenCom.contains e = true) ∨
          ∃ o' ∈ t, o'.id = b.id ∧ o'.external_id = b.external_id := by
        intro b hb hbl hbp
        rw [hstep] at hb
        have hbmem : b ∈ p.store.comments :=
          softDeleteComment_live_sub p.store o.id b hb hbl
        have hbid : b.id ≠ o.id := by
          intro hdeq
          exact softDeleteComment_kills p.store o.id b hb hdeq hbl
        rcases hInv b hbmem hbl hbp with h | ⟨o', ho', hid, heid⟩
        · obtain ⟨e', he', hc2⟩ := h
          exact Or.inl ⟨e', he', by rw [(sweepComOrphan_seen p o).2.2.1] ; exact hc2⟩
        · rcases List.mem_cons.mp ho' with rfl | ho''
          · exact absurd hid.symm hbid
          · exact Or.inr ⟨o', ho'', hid, heid⟩
      obtain ⟨e, he1, he2⟩ := ih (sweepComOrphan p o) hinv c hc' hl hp
      rw [(sweepComOrphan_seen p o).2.2.1] at he2
      exact ⟨e, he1, he2⟩
    · have horp' : isOrphan o.external_id p.seenCom = false := eq_false_of_ne_true horp
      rw [show sweepComOrphanList p (o :: t) = sweepComOrphanList (sweepComOrphan p o) t
          from rfl, sweepComOrphan_of_seen horp'] at hc
      refine ih p ?_ c hc hl hp
      intro b hb hbl hbp
      rcases hInv b hb hbl hbp with h | ⟨o', ho', hid, heid⟩
      · exact Or.inl h
      · rcases List.mem_cons.mp ho' with rfl | ho''
        · obtain ⟨e, he⟩ := hpred b hbp
          left
          refine ⟨e, he, ?_⟩
          rw [heid, he] at horp'
          simpa [isOrphan] using horp'
        · exact Or.inr ⟨o', ho'', hid, heid⟩

theorem sweepComOrphanList_noop : ∀ (os : List Comment) (p : RPass),
    (∀ o ∈ os, ∃ e, o.external_id = some e ∧ p.seenCom.contains e = true) →
    sweepComOrphanList p os = p := by
  intro os
  induction os with
  | nil => intro p _ ; rfl
  | cons o t ih =>
    intro p h
    obtain ⟨e, he, hce⟩ := h o (List.mem_cons_self o t)
    show sweepComOrphanList (sweepComOrphan p o) t = p
    rw [sweepComOrphan_of_seen (isOrphan_false_of_contains he hce)]
    exact ih p (fun o' ho' => h o' (List.mem_cons_of_mem _ ho'))

theorem sweepAnnOrphan_of_seen {p : RPass} {o : Annot}
    (hc : isOrphan o.external_id p.seenAnn = false) : sweepAnnOrphan p o = p := by
  simp [sweepAnnOrphan, hc]

theorem sweepAnnOrphan_store_of_orphan {p : RPass} {o : Annot}
    (hc : isOrphan o.external_id p.seenAnn = true) :
    (sweepAnnOrphan p o).store = (p.store.softDeleteAnnot o.id).1 := by
  simp only [sweepAnnOrphan, hc, if_true]
  split
  · rename_i st' heq
    exact (congrArg Prod.fst heq).symm
  · rename_i st' heq
    exact (congrArg Prod.fst heq).symm

theorem sweepAnnOrphan_seen (p : RPass) (o : Annot) :
    (sweepAnnOrphan p o).seenRes = p.seenRes ∧
    (sweepAnnOrphan p o).seenAnn = p.seenAnn ∧
    (sweepAnnOrphan p o).seenCom = p.seenCom ∧
    (sweepAnnOrphan p o).seenNote = p.seenNote := by
  simp only [sweepAnnOrphan]
  split
  · split
    · exact ⟨rfl, rfl, rfl, rfl⟩
    · exact ⟨rfl, rfl, rfl, rfl⟩
  · exact ⟨rfl, rfl, rfl, rfl⟩

theorem sweepAnnOrphan_frame (p : RPass) (o : Annot) :
    (sweepAnnOrphan p o).store.resources = p.store.resources ∧
    (sweepAnnOrphan p o).store.comments = p.store.comments ∧
    (sweepAnnOrphan p o).store.notes = p.store.notes := by
  simp only [sweepAnnOrphan]
  split
  · split
    · rename_i st' heq
      have h1 : (p.store.softDeleteAnnot o.id).1 = st' := congrArg Prod.fst heq
      rw [← h1]
      exact softDeleteAnnot_frame p.store o.id
    · rename_i st' heq
      have h1 : (p.store.softDeleteAnnot o.id).1 = st' := congrArg Prod.fst heq
      rw [← h1]
      exact softDeleteAnnot_frame p.store o.id
  · exact ⟨rfl, rfl, rfl⟩

theorem sweepAnnOrphan_WF {p : RPass} (o : Annot) (hwf : p.store.WF) :
    (sweepAnnOrphan p o).store.WF := by
  by_cases hc : isOrphan o.external_id p.seenAnn = true
  · rw [sweepAnnOrphan_store_of_orphan hc]
    exact WF_softDeleteAnnot _ hwf
  · rw [sweepAnnOrphan_of_seen (eq_false_of_ne_true hc)]
    exact hwf

theorem sweepAnnOrphanList_seen : ∀ (os : List Annot) (p : RPass),
    (sweepAnnOrphanList p os).seenRes = p.seenRes ∧
    (sweepAnnOrphanList p os).seenAnn = p.seenAnn ∧
    (sweepAnnOrphanList p os).seenCom = p.seenCom ∧
    (sweepAnnOrphanList p os).seenNote = p.seenNote := by
  intro os
  induction os with
  | nil => intro p ; exact ⟨rfl, rfl, rfl, rfl⟩
  | cons o t ih =>
    intro p
    obtain ⟨a2, b2, c2, d2⟩ := ih (sweepAnnOrphan p o)
    obtain ⟨a1, b1, c1, d1⟩ := sweepAnnOrphan_seen p o
    exact ⟨a2.trans a1, b2.trans b1, c2.trans c1, d2.trans d1⟩

theorem sweepAnnOrphanList_frame : ∀ (os : List Annot) (p : RPass),
    (sweepAnnOrphanList p os).store.resources = p.store.resources ∧
    (sweepAnnOrphanList p os).store.comments = p.store.comments ∧
    (sweepAnnOrphanList p os).store.notes = p.store.notes := by
  intro os
  induction os with
  | nil => intro p ; exact ⟨rfl, rfl, rfl⟩
  | cons o t ih =>
    intro p
    obtain ⟨a2, b2, c2⟩ := ih (sweepAnnOrphan p o)
    obtain ⟨a1, b1, c1⟩ := sweepAnnOrphan_frame p o
    exact ⟨a2.trans a1, b2.trans b1, c2.trans c1⟩

theorem sweepAnnOrphanList_WF : ∀ (os : List Annot) (p : RPass), p.store.WF →
    (sweepAnnOrphanList p os).store.WF := by
  intro os
  induction os with
  | nil => intro p hwf ; exact hwf
  | cons o t ih => intro p hwf ; exact ih _ (sweepAnnOrphan_WF o hwf)

theorem sweepAnnOrphanList_annFact : ∀ (os : List Annot) (p : RPass) (stPre : Store)
    (e ch : String),
    annPairs p.store = annPairs stPre →
    (stPre.annotations.map Annot.id).Nodup →
    (∀ o ∈ os, (o.id, o.external_id) ∈ annPairs stPre) →
    p.seenAnn.contains e = true →
    annFact p.store e ch →
    annFact (sweepAnnOrphanList p os).store e ch := by
  intro os
  induction os with
  | nil => intro p stPre e ch _ _ _ _ hf ; exact hf
  | cons o t ih =>
    intro p stPre e ch hcorr hnd hos hseen hf
    by_cases hc : isOrphan o.external_id p.seenAnn = true
    · obtain ⟨eo, heo, hceo⟩ := isOrphan_true_elim hc
      have hwfc : (p.store.annotations.map Annot.id).Nodup := by
        rw [← annPairs_fst, hcorr, annPairs_fst]
        exact hnd
      have hno : ∀ b ∈ p.store.annotations, b.id = o.id → b.external_id ≠ some e := by
        intro b hb hid hbe
        have hbpair : (b.id, b.external_id) ∈ annPairs stPre := by
          rw [← hcorr]
          exact List.mem_map_of_mem _ hb
        have hopair : (o.id, o.external_id) ∈ annPairs stPre := hos o (List.mem_cons_self o t)
        have hndp : ((annPairs stPre).map Prod.fst).Nodup := by
          rw [annPairs_fst]
          exact hnd
        have hpeq : (b.id, b.external_id) = (o.id, o.external_id) :=
          nodup_map_eq_of_eq hndp hbpair hopair hid
        have hsnd : b.external_id = o.external_id := congrArg Prod.snd hpeq
        rw [hbe, heo] at hsnd
        have heq : eo = e := (Option.some.inj hsnd).symm
        rw [heq] at hceo
        exact absurd (hseen.symm.trans hceo) (by simp)
      show annFact (sweepAnnOrphanList (sweepAnnOrphan p o) t).store e ch
      refine ih (sweepAnnOrphan p o) stPre e ch ?_ hnd
        (fun o' ho' => hos o' (List.mem_cons_of_mem _ ho')) ?_ ?_
      · rw [sweepAnnOrphan_store_of_orphan hc, softDeleteAnnot_pairs]
        exact hcorr
      · rw [(sweepAnnOrphan_seen p o).2.1]
        exact hseen
      · rw [sweepAnnOrphan_store_of_orphan hc]
        exact annFact_after_softDelete hwfc hf hno
    · have hc' : isOrphan o.external_id p.seenAnn = false := eq_false_of_ne_true hc
      show annFact (sweepAnnOrphanList (sweepAnnOrphan p o) t).store e ch
      rw [sweepAnnOrphan_of_seen hc']
      exact ih p stPre e ch hcorr hnd
        (fun o' ho' => hos o' (List.mem_cons_of_mem _ ho')) hseen hf

theorem sweepAnnOrphanList_complete (pred : Annot → Bool)
    (hpred : ∀ a, pred a = true → ∃ e, a.external_id = some e) :
    ∀ (os : List Annot) (p : RPass),
    (∀ a ∈ p.store.annotations, a.deleted_at = none → pred a = true →
      (∃ e, a.external_id = some e ∧ p.seenAnn.contains e = true) ∨
      ∃ o ∈ os, o.id = a.id ∧ o.external_id = a.external_id) →
    ∀ a ∈ (sweepAnnOrphanList p os).store.annotations, a.deleted_at = none →
      pred a = true →
      ∃ e, a.external_id = some e ∧ p.seenAnn.contains e = true := by
  intro os
  induction os with
  | nil =>
    intro p hInv a ha hl hp
    rcases hInv a ha hl hp with h | ⟨o, ho, _⟩
    · exact h
    · exact absurd ho (List.not_mem_nil o)
  | cons o t ih =>
    intro p hInv a ha hl hp
    by_cases horp : isOrphan o.external_id p.seenAnn = true
    · have hstep : (sweepAnnOrphan p o).store = (p.store.softDeleteAnnot o.id).1 :=
        sweepAnnOrphan_store_of_orphan horp
      have ha' : a ∈ (sweepAnnOrphanList (sweepAnnOrphan p o) t).store.annotations := ha
      have hinv : ∀ b ∈ (sweepAnnOrphan p o).store.annotations, b.deleted_at = none →
          pred b = true →
          (∃ e, b.external_id = some e ∧ (sweepAnnOrphan p o).seenAnn.contains e = true) ∨
          ∃ o' ∈ t, o'.id = b.id ∧ o'.external_id = b.external_id := by
        intro b hb hbl hbp
        rw [hstep] at hb
        have hbmem : b ∈ p.store.annotations :=
          softDeleteAnnot_live_sub p.store o.id b hb hbl
        have hbid : b.id ≠ o.id := by
          intro hdeq
          exact softDeleteAnnot_kills p.store o.id b hb hdeq hbl
        rcases hInv b hbmem hbl hbp with h | ⟨o', ho', hid, heid⟩
        · obtain ⟨e', he', hc2⟩ := h
          exact Or.inl ⟨e', he', by rw [(sweepAnnOrphan_seen p o).2.1] ; exact hc2⟩
        · rcases List.mem_cons.mp ho' with rfl | ho''
          · exact absurd hid.symm hbid
          · exact Or.inr ⟨o', ho'', hid, heid⟩
      obtain ⟨e, he1, he2⟩ := ih (sweepAnnOrphan p o) hinv a ha' hl hp
      rw [(sweepAnnOrphan_seen p o).2.1] at he2
      exact ⟨e, he1, he2⟩
    · have horp' : isOrphan o.external_id p.seenAnn = false := eq_false_of_ne_true horp
      rw [show sweepAnnOrphanList p (o :: t) = sweepAnnOrphanList (sweepAnnOrphan p o) t
          from rfl, sweepAnnOrphan_of_seen horp'] at ha
      refine ih p ?_ a ha hl hp
      intro b hb hbl hbp
      rcases hInv b hb hbl hbp with h | ⟨o', ho', hid, heid⟩
      · exact Or.inl h
      · rcases List.mem_cons.mp ho' with rfl | ho''
        · obtain ⟨e, he⟩ := hpred b hbp
          left
          refine ⟨e, he, ?_⟩
          rw [heid, he] at horp'
          simpa [isOrphan] using horp'
        · exact Or.inr ⟨o', ho'', hid, heid⟩

theorem sweepAnnOrphanList_noop : ∀ (os : List Annot) (p : RPass),
    (∀ o ∈ os, ∃ e, o.external_id = some e ∧ p.seenAnn.contains e = true) →
    sweepAnnOrphanList p os = p := by
  intro os
  induction os with
  | nil => intro p _ ; rfl
  | cons o t ih =>
    intro p h
    obtain ⟨e, he, hce⟩ := h o (List.mem_cons_self o t)
    show sweepAnnOrphanList (sweepAnnOrphan p o) t = p
    rw [sweepAnnOrphan_of_seen (isOrphan_false_of_contains he hce)]
    exact ih p (fun o' ho' => h o' (List.mem_cons_of_mem _ ho'))

def notePairs (st : Store) : List (Nat × Option String) :=
  st.notes.map (fun n => (n.id, n.external_id))

theorem notePairs_fst (st : Store) :
    (notePairs st).map Prod.fst = st.notes.map Note.id := by
  simp only [notePairs, List.map_map]
  apply List.map_congr_left
  intro a _
  rfl

theorem softDeleteNote_pairs (st : Store) (j : Nat) :
    notePairs (st.softDeleteNote j).1 = notePairs st := by
  simp only [Store.softDeleteNote, notePairs, List.map_map]
  apply List.map_congr_left
  intro a _
  by_cases h : a.id = j <;> simp [h]

theorem sweepNoteOrphan_of_seen {p : RPass} {o : Note}
    (hc : isOrphan o.external_id p.seenNote = false) : sweepNoteOrphan p o = p := by
  simp [sweepNoteOrphan, hc]

theorem sweepNoteOrphan_store_of_orphan {p : RPass} {o : Note}
    (hc : isOrphan o.external_id p.seenNote = true) :
    (sweepNoteOrphan p o).store = (p.store.softDeleteNote o.id).1 := by
  simp only [sweepNoteOrphan, hc, if_true]
  split
  · rename_i st' heq
    exact (congrArg Prod.fst heq).symm
  · rename_i st' heq
    exact (congrArg Prod.fst heq).symm

theorem sweepNoteOrphan_seen (p : RPass) (o : Note) :
    (sweepNoteOrphan p o).seenRes = p.seenRes ∧
    (sweepNoteOrphan p o).seenAnn = p.seenAnn ∧
    (sweepNoteOrphan p o).seenCom = p.seenCom ∧
    (sweepNoteOrphan p o).seenNote = p.seenNote := by
  simp only [sweepNoteOrphan]
  split
  · split
    · exact ⟨rfl, rfl, rfl, rfl⟩
    · exact ⟨rfl, rfl, rfl, rfl⟩
  · exact ⟨rfl, rfl, rfl, rfl⟩

theorem sweepNoteOrphan_frame (p : RPass) (o : Note) :
    (sweepNoteOrphan p o).store.resources = p.store.resources ∧
    (sweepNoteOrphan p o).store.annotations = p.store.annotations ∧
    (sweepNoteOrphan p o).store.comments = p.store.comments := by
  simp only [sweepNoteOrphan]
  split
  · split
    · rename_i st' heq
      have h1 : (p.store.softDeleteNote o.id).1 = st' := congrArg Prod.fst heq
      rw [← h1]
      exact softDeleteNote_frame p.store o.id
    · rename_i st' heq
      have h1 : (p.store.softDeleteNote o.id).1 = st' := congrArg Prod.fst heq
      rw [← h1]
      exact softDeleteNote_frame p.store o.id
  · exact ⟨rfl, rfl, rfl⟩

theorem sweepNoteOrphan_WF {p : RPass} (o : Note) (hwf : p.store.WF) :
    (sweepNoteOrphan p o).store.WF := by
  by_cases hc : isOrphan o.external_id p.seenNote = true
  · rw [sweepNoteOrphan_store_of_orphan hc]
    exact WF_softDeleteNote _ hwf
  · rw [sweepNoteOrphan_of_seen (eq_false_of_ne_true hc)]
    exact hwf

theorem sweepNoteOrphanList_seen : ∀ (os : List Note) (p : RPass),
    (sweepNoteOrphanList p os).seenRes = p.seenRes ∧
    (sweepNoteOrphanList p os).seenAnn = p.seenAnn ∧
    (sweepNoteOrphanList p os).seenCom = p.seenCom ∧
    (sweepNoteOrphanList p os).seenNote = p.seenNote := by
  intro os
  induction os with
  | nil => intro p ; exact ⟨rfl, rfl, rfl, rfl⟩
  | cons o t ih =>
    intro p
    obtain ⟨a2, b2, c2, d2⟩ := ih (sweepNoteOrphan p o)
    obtain ⟨a1, b1, c1, d1⟩ := sweepNoteOrphan_seen p o
    exact ⟨a2.trans a1, b2.trans b1, c2.trans c1, d2.trans d1⟩

theorem sweepNoteOrphanList_frame : ∀ (os : List Note) (p : RPass),
    (sweepNoteOrphanList p os).store.resources = p.store.resources ∧
    (sweepNoteOrphanList p os).store.annotations = p.store.annotations ∧
    (sweepNoteOrphanList p os).store.comments = p.store.comments := by
  intro os
  induction os with
  | nil => intro p ; exact ⟨rfl, rfl, rfl⟩
  | cons o t ih =>
    intro p
    obtain ⟨a2, b2, c2⟩ := ih (sweepNoteOrphan p o)
    obtain ⟨a1, b1, c1⟩ := sweepNoteOrphan_frame p o
    exact ⟨a2.trans a1, b2.trans b1, c2.trans c1⟩

theorem sweepNoteOrphanList_WF : ∀ (os : List Note) (p : RPass), p.store.WF →
    (sweepNoteOrphanList p os).store.WF := by
  intro os
  induction os with
  | nil => intro p hwf ; exact hwf
  | cons o t ih => intro p hwf ; exact ih _ (sweepNoteOrphan_WF o hwf)

theorem sweepNoteOrphanList_noteFact : ∀ (os : List Note) (p : RPass) (stPre : Store)
    (e ch : String),
    notePairs p.store = notePairs stPre →
    (stPre.notes.map Note.id).Nodup →
    (∀ o ∈ os, (o.id, o.external_id) ∈ notePairs stPre) →
    p.seenNote.contains e = true →
    noteFact p.store e ch →
    noteFact (sweepNoteOrphanList p os).store e ch := by
  intro os
  induction os with
  | nil => intro p stPre e ch _ _ _ _ hf ; exact hf
  | cons o t ih =>
    intro p stPre e ch hcorr hnd hos hseen hf
    by_cases hc : isOrphan o.external_id p.seenNote = true
    · obtain ⟨eo, heo, hceo⟩ := isOrphan_true_elim hc
      have hno : ∀ b ∈ p.store.notes, b.id = o.id → b.external_id ≠ some e := by
        intro b hb hid hbe
        have hbpair : (b.id, b.external_id) ∈ notePairs stPre := by
          rw [← hcorr]
          exact List.mem_map_of_mem _ hb
        have hopair : (o.id, o.external_id) ∈ notePairs stPre := hos o (List.mem_cons_self o t)
        have hndp : ((notePairs stPre).map Prod.fst).Nodup := by
          rw [notePairs_fst]
          exact hnd
        have hpeq : (b.id, b.external_id) = (o.id, o.external_id) :=
          nodup_map_eq_of_eq hndp hbpair hopair hid
        have hsnd : b.external_id = o.external_id := congrArg Prod.snd hpeq
        rw [hbe, heo] at hsnd
        have heq : eo = e := (Option.some.inj hsnd).symm
        rw [heq] at hceo
        exact absurd (hseen.symm.trans hceo) (by simp)
      show noteFact (sweepNoteOrphanList (sweepNoteOrphan p o) t).store e ch
      refine ih (sweepNoteOrphan p o) stPre e ch ?_ hnd
        (fun o' ho' => hos o' (List.mem_cons_of_mem _ ho')) ?_ ?_
      · rw [sweepNoteOrphan_store_of_orphan hc, softDeleteNote_pairs]
        exact hcorr
      · rw [(sweepNoteOrphan_seen p o).2.2.2]
        exact hseen
      · rw [sweepNoteOrphan_store_of_orphan hc]
        exact noteFact_after_softDelete hf hno
    · have hc' : isOrphan o.external_id p.seenNote = false := eq_false_of_ne_true hc
      show noteFact (sweepNoteOrphanList (sweepNoteOrphan p o) t).store e ch
      rw [sweepNoteOrphan_of_seen hc']
      exact ih p stPre e ch hcorr hnd
        (fun o' ho' => hos o' (List.mem_cons_of_mem _ ho')) hseen hf

theorem sweepNoteOrphanList_complete (pred : Note → Bool)
    (hpred : ∀ n, pred n = true → ∃ e, n.external_id = some e) :
    ∀ (os : List Note) (p : RPass),
    (∀ n ∈ p.store.notes, n.deleted_at = none → pred n = true →
      (∃ e, n.external_id = some e ∧ p.seenNote.contains e = true) ∨
      ∃ o ∈ os, o.id = n.id ∧ o.external_id = n.external_id) →
    ∀ n ∈ (sweepNoteOrphanList p os).store.notes, n.deleted_at = none →
      pred n = true →
      ∃ e, n.external_id = some e ∧ p.seenNote.contains e = true := by
  intro os
  induction os with
  | nil =>
    intro p hInv n hn hl hp
    rcases hInv n hn hl hp with h | ⟨o, ho, _⟩
    · exact h
    · exact absurd ho (List.not_mem_nil o)
  | cons o t ih =>
    intro p hInv n hn hl hp
    by_cases horp : isOrphan o.external_id p.seenNote = true
    · have hstep : (sweepNoteOrphan p o).store = (p.store.softDeleteNote o.id).1 :=
        sweepNoteOrphan_store_of_orphan horp
      have hn' : n ∈ (sweepNoteOrphanList (sweepNoteOrphan p o) t).store.notes := hn
      have hinv : ∀ b ∈ (sweepNoteOrphan p o).store.notes, b.deleted_at = none →
          pred b = true →
          (∃ e, b.external_id = some e ∧ (sweepNoteOrphan p o).seenNote.contains e = true) ∨
          ∃ o' ∈ t, o'.id = b.id ∧ o'.external_id = b.external_id := by
        intro b hb hbl hbp
        rw [hstep] at hb
        have hbmem : b ∈ p.store.notes :=
          softDeleteNote_live_sub p.store o.id b hb hbl
        have hbid : b.id ≠ o.id := by
          intro hdeq
          exact softDeleteNote_kills p.store o.id b hb hdeq hbl
        rcases hInv b hbmem hbl hbp with h | ⟨o', ho', hid, heid⟩
        · obtain ⟨e', he', hc2⟩ := h
          exact Or.inl ⟨e', he', by rw [(sweepNoteOrphan_seen p o).2.2.2] ; exact hc2⟩
        · rcases List.mem_cons.mp ho' with rfl | ho''
          · exact absurd hid.symm hbid
          · exact Or.inr ⟨o', ho'', hid, heid⟩
      obtain ⟨e, he1, he2⟩ := ih (sweepNoteOrphan p o) hinv n hn' hl hp
      rw [(sweepNoteOrphan_seen p o).2.2.2] at he2
      exact ⟨e, he1, he2⟩
    · have horp' : isOrphan o.external_id p.seenNote = false := eq_false_of_ne_true horp
      rw [show sweepNoteOrphanList p (o :: t) = sweepNoteOrphanList (sweepNoteOrphan p o) t
          from rfl, sweepNoteOrphan_of_seen horp'] at hn
      refine ih p ?_ n hn hl hp
      intro b hb hbl hbp
      rcases hInv b hb hbl hbp with h | ⟨o', ho', hid, heid⟩
      · exact Or.inl h
      · rcases List.mem_cons.mp ho' with rfl | ho''
        · obtain ⟨e, he⟩ := hpred b hbp
          left
          refine ⟨e, he, ?_⟩
          rw [heid, he] at horp'
          simpa [isOrphan] using horp'
        · exact Or.inr ⟨o', ho'', hid, heid⟩

theorem sweepNoteOrphanList_noop : ∀ (os : List Note) (p : RPass),
    (∀ o ∈ os, ∃ e, o.external_id = some e ∧ p.seenNote.contains e = true) →
    sweepNoteOrphanList p os = p := by
  intro os
  induction os with
  | nil => intro p _ ; rfl
  | cons o t ih =>
    intro p h
    obtain ⟨e, he, hce⟩ := h o (List.mem_cons_self o t)
    show sweepNoteOrphanList (sweepNoteOrphan p o) t = p
    rw [sweepNoteOrphan_of_seen (isOrphan_false_of_contains he hce)]
    exact ih p (fun o' ho' => h o' (List.mem_cons_of_mem _ ho'))

def resPairs (st : Store) : List (Nat × Option String) :=
  st.resources.map (fun r => (r.id, r.external_id))

theorem resPairs_fst (st : Store) :
    (resPairs st).map Prod.fst = st.resources.map Resource.id := by
  simp only [resPairs, List.map_map]
  apply List.map_congr_left
  intro a _
  rfl

theorem softDeleteResource_pairs (st : Store) (j : Nat) :
    resPairs (st.softDeleteResource j).1 = resPairs st := by
  simp only [Store.softDeleteResource, resPairs, List.map_map]
  apply List.map_congr_left
  intro a _
  by_cases h : a.id = j <;> simp [h]

theorem sweepResOrphan_of_seen {p : RPass} {o : Resource}
    (hc : isOrphan o.external_id p.seenRes = false) : sweepResOrphan p o = p := by
  simp [sweepResOrphan, hc]

theorem sweepResOrphan_store_of_orphan {p : RPass} {o : Resource}
    (hc : isOrphan o.external_id p.seenRes = true) :
    (sweepResOrphan p o).store = (p.store.softDeleteResource o.id).1 := by
  simp only [sweepResOrphan, hc, if_true]
  split
  · rename_i st' heq
    exact (congrArg Prod.fst heq).symm
  · rename_i st' heq
    exact (congrArg Prod.fst heq).symm

theorem sweepResOrphan_seen (p : RPass) (o : Resource) :
    (sweepResOrphan p o).seenRes = p.seenRes ∧
    (sweepResOrphan p o).seenAnn = p.seenAnn ∧
    (sweepResOrphan p o).seenCom = p.seenCom ∧
    (sweepResOrphan p o).seenNote = p.seenNote := by
  simp only [sweepResOrphan]
  split
  · split
    · exact ⟨rfl, rfl, rfl, rfl⟩
    · exact ⟨rfl, rfl, rfl, rfl⟩
  · exact ⟨rfl, rfl, rfl, rfl⟩

theorem sweepResOrphan_frame (p : RPass) (o : Resource) :
    (sweepResOrphan p o).store.annotations = p.store.annotations ∧
    (sweepResOrphan p o).store.comments = p.store.comments ∧
    (sweepResOrphan p o).store.notes = p.store.notes := by
  simp only [sweepResOrphan]
  split
  · split
    · rename_i st' heq
      have h1 : (p.store.softDeleteResource o.id).1 = st' := congrArg Prod.fst heq
      rw [← h1]
      exact softDeleteResource_frame p.store o.id
    · rename_i st' heq
      have h1 : (p.store.softDeleteResource o.id).1 = st' := congrArg Prod.fst heq
      rw [← h1]
      exact softDeleteResource_frame p.store o.id
  · exact ⟨rfl, rfl, rfl⟩

theorem sweepResOrphan_WF {p : RPass} (o : Resource) (hwf : p.store.WF) :
    (sweepResOrphan p o).store.WF := by
  by_cases hc : isOrphan o.external_id p.seenRes = true
  · rw [sweepResOrphan_store_of_orphan hc]
    exact WF_softDeleteResource _ hwf
  · rw [sweepResOrphan_of_seen (eq_false_of_ne_true hc)]
    exact hwf

theorem sweepResOrphanList_seen : ∀ (os : List Resource) (p : RPass),
    (sweepResOrphanList p os).seenRes = p.seenRes ∧
    (sweepResOrphanList p os).seenAnn = p.seenAnn ∧
    (sweepResOrphanList p os).seenCom = p.seenCom ∧
    (sweepResOrphanList p os).seenNote = p.seenNote := by
  intro os
  induction os with
  | nil => intro p ; exact ⟨rfl, rfl, rfl, rfl⟩
  | cons o t ih =>
    intro p
    obtain ⟨a2, b2, c2, d2⟩ := ih (sweepResOrphan p o)
    obtain ⟨a1, b1, c1, d1⟩ := sweepResOrphan_seen p o
    exact ⟨a2.trans a1, b2.trans b1, c2.trans c1, d2.trans d1⟩

theorem sweepResOrphanList_frame : ∀ (os : List Resource) (p : RPass),
    (sweepResOrphanList p os).store.annotations = p.store.annotations ∧
    (sweepResOrphanList p os).store.comments = p.store.comments ∧
    (sweepResOrphanList p os).store.notes = p.store.notes := by
  intro os
  induction os with
  | nil => intro p ; exact ⟨rfl, rfl, rfl⟩
  | cons o t ih =>
    intro p
    obtain ⟨a2, b2, c2⟩ := ih (sweepResOrphan p o)
    obtain ⟨a1, b1, c1⟩ := sweepResOrphan_frame p o
    exact ⟨a2.trans a1, b2.trans b1, c2.trans c1⟩

theorem sweepResOrphanList_WF : ∀ (os : List Resource) (p : RPass), p.store.WF →
    (sweepResOrphanList p os).store.WF := by
  intro os
  induction os with
  | nil => intro p hwf ; exact hwf
  | cons o t ih => intro p hwf ; exact ih _ (sweepResOrphan_WF o hwf)

theorem sweepResOrphanList_resFact : ∀ (os : List Resource) (p : RPass) (stPre : Store)
    (e ch : String),
    resPairs p.store = resPairs stPre →
    (stPre.resources.map Resource.id).Nodup →
    (∀ o ∈ os, (o.id, o.external_id) ∈ resPairs stPre) →
    p.seenRes.contains e = true →
    resFact p.store e ch →
    resFact (sweepResOrphanList p os).store e ch := by
  intro os
  induction os with
  | nil => intro p stPre e ch _ _ _ _ hf ; exact hf
  | cons o t ih =>
    intro p stPre e ch hcorr hnd hos hseen hf
    by_cases hc : isOrphan o.external_id p.seenRes = true
    · obtain ⟨eo, heo, hceo⟩ := isOrphan_true_elim hc
      have hwfc : (p.store.resources.map Resource.id).Nodup := by
        rw [← resPairs_fst, hcorr, resPairs_fst]
        exact hnd
      have hno : ∀ b ∈ p.store.resources, b.id = o.id → b.external_id ≠ some e := by
        intro b hb hid hbe
        have hbpair : (b.id, b.external_id) ∈ resPairs stPre := by
          rw [← hcorr]
          exact List.mem_map_of_mem _ hb
        have hopair : (o.id, o.external_id) ∈ resPairs stPre := hos o (List.mem_cons_self o t)
        have hndp : ((resPairs stPre).map Prod.fst).Nodup := by
          rw [resPairs_fst]
          exact hnd
        have hpeq : (b.id, b.external_id) = (o.id, o.external_id) :=
          nodup_map_eq_of_eq hndp hbpair hopair hid
        have hsnd : b.external_id = o.external_id := congrArg Prod.snd hpeq
        rw [hbe, heo] at hsnd
        have heq : eo = e := (Option.some.inj hsnd).symm
        rw [heq] at hceo
        exact absurd (hseen.symm.trans hceo) (by simp)
      show resFact (sweepResOrphanList (sweepResOrphan p o) t).store e ch
      refine ih (sweepResOrphan p o) stPre e ch ?_ hnd
        (fun o' ho' => hos o' (List.mem_cons_of_mem _ ho')) ?_ ?_
      · rw [sweepResOrphan_store_of_orphan hc, softDeleteResource_pairs]
        exact hcorr
      · rw [(sweepResOrphan_seen p o).1]
        exact hseen
      · rw [sweepResOrphan_store_of_orphan hc]
        exact resFact_after_softDeleteRes hwfc hf hno
    · have hc' : isOrphan o.external_id p.seenRes = false := eq_false_of_ne_true hc
      show resFact (sweepResOrphanList (sweepResOrphan p o) t).store e ch
      rw [sweepResOrphan_of_seen hc']
      exact ih p stPre e ch hcorr hnd
        (fun o' ho' => hos o' (List.mem_cons_of_mem _ ho')) hseen hf

theorem sweepResOrphanList_noop : ∀ (os : List Resource) (p : RPass),
    (∀ o ∈ os, ∃ e, o.external_id = some e ∧ p.seenRes.contains e = true) →
    sweepResOrphanList p os = p := by
  intro os
  induction os with
  | nil => intro p _ ; rfl
  | cons o t ih =>
    intro p h
    obtain ⟨e, he, hce⟩ := h o (List.mem_cons_self o t)
    show sweepResOrphanList (sweepResOrphan p o) t = p
    rw [sweepResOrphan_of_seen (isOrphan_false_of_contains he hce)]
    exact ih p (fun o' ho' => h o' (List.mem_cons_of_mem _ ho'))

theorem sweepResOrphanList_complete (pred : Resource → Bool)
    (hpred : ∀ r, pred r = true → ∃ e, r.external_id = some e) :
    ∀ (os : List Resource) (p : RPass),
    (∀ r ∈ p.store.resources, r.deleted_at = none → pred r = true →
      (∃ e, r.external_id = some e ∧ p.seenRes.contains e = true) ∨
      ∃ o ∈ os, o.id = r.id ∧ o.external_id = r.external_id) →
    ∀ r ∈ (sweepResOrphanList p os).store.resources, r.deleted_at = none →
      pred r = true →
      ∃ e, r.external_id = some e ∧ p.seenRes.contains e = true := by
  intro os
  induction os with
  | nil =>
    intro p hInv r hr hl hp
    rcases hInv r hr hl hp with h | ⟨o, ho, _⟩
    · exact h
    · exact absurd ho (List.not_mem_nil o)
  | cons o t ih =>
    intro p hInv r hr hl hp
    by_cases horp : isOrphan o.external_id p.seenRes = true
    · have hstep : (sweepResOrphan p o).store = (p.store.softDeleteResource o.id).1 :=
        sweepResOrphan_store_of_orphan horp
      have hr' : r ∈ (sweepResOrphanList (sweepResOrphan p o) t).store.resources := hr
      have hinv : ∀ b ∈ (sweepResOrphan p o).store.resources, b.deleted_at = none →
          pred b = true →
          (∃ e, b.external_id = some e ∧ (sweepResOrphan p o).seenRes.contains e = true) ∨
          ∃ o' ∈ t, o'.id = b.id ∧ o'.external_id = b.external_id := by
        intro b hb hbl hbp
        rw [hstep] at hb
        have hbmem : b ∈ p.store.resources :=
          softDeleteResource_live_sub p.store o.id b hb hbl
        have hbid : b.id ≠ o.id := by
          intro hdeq
          exact softDeleteResource_kills p.store o.id b hb hdeq hbl
        rcases hInv b hbmem hbl hbp with h | ⟨o', ho', hid, heid⟩
        · obtain ⟨e', he', hc2⟩ := h
          exact Or.inl ⟨e', he', by rw [(sweepResOrphan_seen p o).1] ; exact hc2⟩
        · rcases List.mem_cons.mp ho' with rfl | ho''
          · exact absurd hid.symm hbid
          · exact Or.inr ⟨o', ho'', hid, heid⟩
      obtain ⟨e, he1, he2⟩ := ih (sweepResOrphan p o) hinv r hr' hl hp
      rw [(sweepResOrphan_seen p o).1] at he2
      exact ⟨e, he1, he2⟩
    · have horp' : isOrphan o.external_id p.seenRes = false := eq_false_of_ne_true horp
      rw [show sweepResOrphanList p (o :: t) = sweepResOrphanList (sweepResOrphan p o) t
          from rfl, sweepResOrphan_of_seen horp'] at hr
      refine ih p ?_ r hr hl hp
      intro b hb hbl hbp
      rcases hInv b hb hbl hbp with h | ⟨o', ho', hid, heid⟩
      · exact Or.inl h
      · rcases List.mem_cons.mp ho' with rfl | ho''
        · obtain ⟨e, he⟩ := hpred b hbp
          left
          refine ⟨e, he, ?_⟩
          rw [heid, he] at horp'
          simpa [isOrphan] using horp'
        · exact Or.inr ⟨o', ho'', hid, heid⟩

/-! The second research run: every upsert takes its unchanged branch. -/

def SyncStats.addUnch (s : SyncStats) (n : Nat) : SyncStats :=
  { s with unchanged := s.unchanged + n }

theorem addUnchanged_addUnch (s : SyncStats) (n : Nat) :
    (s.addUnchanged).addUnch n = s.addUnch (n + 1) := by
  simp only [SyncStats.addUnchanged, SyncStats.addUnch]
  exact congrArg (fun k => { s with unchanged := k })
    (show s.unchanged + 1 + n = s.unchanged + (n + 1) by omega)

theorem upsertResource_run2 {st : Store} {eid ch : String} (title : String)
    (hf : resFact st eid ch) :
    ∃ j, upsertResource st eid title ch = (st, SyncRes.unchanged j, [Ev.resFound j]) := by
  obtain ⟨r, hfind, hch⟩ := hf
  refine ⟨r.id, ?_⟩
  simp only [upsertResource, hfind]
  simp [hch]

theorem upsertAnnot_run2 {st : Store} {eid ch : String} (row : ResearchAnnotRow)
    (rid : Nat) (hf : annFact st eid ch) :
    ∃ j, upsertAnnot st eid row rid ch = (st, SyncRes.unchanged j, [Ev.annFound j]) := by
  obtain ⟨a, hfind, hch⟩ := hf
  refine ⟨a.id, ?_⟩
  simp only [upsertAnnot, hfind]
  simp [hch]

theorem upsertComment_run2 {st : Store} {eid ch : String} (content : String)
    (aid : Nat) (hf : comFact st eid ch) :
    ∃ j, upsertComment st eid content aid ch = (st, SyncRes.unchanged j, [Ev.comFound j]) := by
  obtain ⟨c, hfind, hch⟩ := hf
  refine ⟨c.id, ?_⟩
  simp only [upsertComment, hfind]
  simp [hch]

theorem upsertNote_run2 {st : Store} {eid ch : String} (content : String)
    (rid : Nat) (hf : noteFact st eid ch) :
    ∃ j, upsertNote st eid content rid ch = (st, SyncRes.unchanged j, [Ev.noteFound j]) := by
  obtain ⟨n, hfind, hch⟩ := hf
  refine ⟨n.id, ?_⟩
  simp only [upsertNote, hfind]
  simp [hch]

theorem syncResource_run2 (p : RPass) (item : ResearchItem)
    (hf : resFact p.store (rEid item.id) (computeResourceHash item.title)) :
    ∃ rid, syncResource p item
      = ({ p with seenRes := p.seenRes ++ [rEid item.id],
                  resStats := p.resStats.addUnchanged,
                  trace := p.trace ++ [Ev.resFound rid] }, some rid) := by
  obtain ⟨j, hup⟩ := upsertResource_run2 item.title hf
  simp only [rEid] at hup
  refine ⟨j, ?_⟩
  simp only [syncResource, hup]
  rfl

theorem syncAnnot_run2 (p : RPass) (row : ResearchAnnotRow) (rid : Nat)
    (hf : annFact p.store (rEid row.id) (computeAnnotationHash row.text row.color)) :
    ∃ aid, syncAnnot p row rid
      = ({ p with seenAnn := p.seenAnn ++ [rEid row.id],
                  annStats := p.annStats.addUnchanged,
                  trace := p.trace ++ [Ev.annFound aid] }, some aid) := by
  obtain ⟨j, hup⟩ := upsertAnnot_run2 row rid hf
  simp only [rEid] at hup
  refine ⟨j, ?_⟩
  simp only [syncAnnot, hup]
  rfl

theorem syncComment_run2 (p : RPass) (row : ResearchCommentRow) (aid : Nat)
    (hf : comFact p.store (rEid row.id) (computeCommentHash row.content)) :
    (syncComment p row aid).store = p.store ∧
    (syncComment p row aid).resStats = p.resStats ∧
    (syncComment p row aid).annStats = p.annStats ∧
    (syncComment p row aid).comStats = p.comStats.addUnchanged ∧
    (syncComment p row aid).noteStats = p.noteStats ∧
    (syncComment p row aid).seenRes = p.seenRes ∧
    (syncComment p row aid).seenAnn = p.seenAnn ∧
    (syncComment p row aid).seenCom = p.seenCom ++ [rEid row.id] ∧
    (syncComment p row aid).seenNote = p.seenNote := by
  obtain ⟨j, hup⟩ := upsertComment_run2 row.content aid hf
  simp only [rEid] at hup
  simp only [syncComment, hup]
  exact ⟨trivial, trivial, trivial, trivial, trivial, trivial, trivial, rfl, trivial⟩

theorem syncNote_run2 (p : RPass) (row : ResearchNoteRow) (rid : Nat)
    (hf : noteFact p.store (rEid row.id) (computeNoteHash row.content)) :
    (syncNote p row rid).store = p.store ∧
    (syncNote p row rid).resStats = p.resStats ∧
    (syncNote p row rid).annStats = p.annStats ∧
    (syncNote p row rid).comStats = p.comStats ∧
    (syncNote p row rid).noteStats = p.noteStats.addUnchanged ∧
    (syncNote p row rid).seenRes = p.seenRes ∧
    (syncNote p row rid).seenAnn = p.seenAnn ∧
    (syncNote p row rid).seenCom = p.seenCom ∧
    (syncNote p row rid).seenNote = p.seenNote ++ [rEid row.id] := by
  obtain ⟨j, hup⟩ := upsertNote_run2 row.content rid hf
  simp only [rEid] at hup
  simp only [syncNote, hup]
  exact ⟨trivial, trivial, trivial, trivial, trivial, trivial, trivial, trivial, rfl⟩

theorem syncCommentList_run2 (aid : Nat) :
    ∀ (cs : List ResearchCommentRow) (p : RPass),
      (∀ c ∈ cs, comFact p.store (rEid c.id) (computeCommentHash c.content)) →
      (syncCommentList p aid cs).store = p.store ∧
      (syncCommentList p aid cs).resStats = p.resStats ∧
      (syncCommentList p aid cs).annStats = p.annStats ∧
      (syncCommentList p aid cs).comStats = p.comStats.addUnch (comRowEids cs).length ∧
      (syncCommentList p aid cs).noteStats = p.noteStats ∧
      (syncCommentList p aid cs).seenRes = p.seenRes ∧
      (syncCommentList p aid cs).seenAnn = p.seenAnn ∧
      (syncCommentList p aid cs).seenCom = p.seenCom ++ comRowEids cs ∧
      (syncCommentList p aid cs).seenNote = p.seenNote := by
  intro cs
  induction cs with
  | nil =>
    intro p _
    exact ⟨rfl, rfl, rfl, rfl, rfl, rfl, rfl, (List.append_nil _).symm, rfl⟩
  | cons c t ih =>
    intro p hfacts
    obtain ⟨hs1, hr1, ha1, hc1, hn1, hsr1, hsa1, hsc1, hsn1⟩ :=
      syncComment_run2 p c aid (hfacts c (List.mem_cons_self c t))
    obtain ⟨hs2, hr2, ha2, hc2, hn2, hsr2, hsa2, hsc2, hsn2⟩ :=
      ih (syncComment p c aid)
        (fun c' hc' => by rw [hs1] ; exact hfacts c' (List.mem_cons_of_mem _ hc'))
    refine ⟨?_, ?_, ?_, ?_, ?_, ?_, ?_, ?_, ?_⟩
    · show (syncCommentList (syncComment p c aid) aid t).store = _
      rw [hs2, hs1]
    · show (syncCommentList (syncComment p c aid) aid t).resStats = _
      rw [hr2, hr1]
    · show (syncCommentList (syncComment p c aid) aid t).annStats = _
      rw [ha2, ha1]
    · show (syncCommentList (syncComment p c aid) aid t).comStats = _
      rw [hc2, hc1, addUnchanged_addUnch]
      rfl
    · show (syncCommentList (syncComment p c aid) aid t).noteStats = _
      rw [hn2, hn1]
    · show (syncCommentList (syncComment p c aid) aid t).seenRes = _
      rw [hsr2, hsr1]
    · show (syncCommentList (syncComment p c aid) aid t).seenAnn = _
      rw [hsa2, hsa1]
    · show (syncCommentList (syncComment p c aid) aid t).seenCom = _
      rw [hsc2, hsc1, List.append_assoc]
      rfl
    · show (syncCommentList (syncComment p c aid) aid t).seenNote = _
      rw [hsn2, hsn1]

theorem syncNoteList_run2 (rid : Nat) :
    ∀ (ns : List ResearchNoteRow) (p : RPass),
      (∀ n ∈ ns, noteFact p.store (rEid n.id) (computeNoteHash n.content)) →
      (syncNoteList p rid ns).store = p.store ∧
      (syncNoteList p rid ns).resStats = p.resStats ∧
      (syncNoteList p rid ns).annStats = p.annStats ∧
      (syncNoteList p rid ns).comStats = p.comStats ∧
      (syncNoteList p rid ns).noteStats = p.noteStats.addUnch (noteRowEids ns).length ∧
      (syncNoteList p rid ns).seenRes = p.seenRes ∧
      (syncNoteList p rid ns).seenAnn = p.seenAnn ∧
      (syncNoteList p rid ns).seenCom = p.seenCom ∧
      (syncNoteList p rid ns).seenNote = p.seenNote ++ noteRowEids ns := by
  intro ns
  induction ns with
  | nil =>
    intro p _
    exact ⟨rfl, rfl, rfl, rfl, rfl, rfl, rfl, rfl, (List.append_nil _).symm⟩
  | cons n t ih =>
    intro p hfacts
    obtain ⟨hs1, hr1, ha1, hc1, hn1, hsr1, hsa1, hsc1, hsn1⟩ :=
      syncNote_run2 p n rid (hfacts n (List.mem_cons_self n t))
    obtain ⟨hs2, hr2, ha2, hc2, hn2, hsr2, hsa2, hsc2, hsn2⟩ :=
      ih (syncNote p n rid)
        (fun n' hn' => by rw [hs1] ; exact hfacts n' (List.mem_cons_of_mem _ hn'))
    refine ⟨?_, ?_, ?_, ?_, ?_, ?_, ?_, ?_, ?_⟩
    · show (syncNoteList (syncNote p n rid) rid t).store = _
      rw [hs2, hs1]
    · show (syncNoteList (syncNote p n rid) rid t).resStats = _
      rw [hr2, hr1]
    · show (syncNoteList (syncNote p n rid) rid t).annStats = _
      rw [ha2, ha1]
    · show (syncNoteList (syncNote p n rid) rid t).comStats = _
      rw [hc2, hc1]
    · show (syncNoteList (syncNote p n rid) rid t).noteStats = _
      rw [hn2, hn1, addUnchanged_addUnch]
      rfl
    · show (syncNoteList (syncNote p n rid) rid t).seenRes = _
      rw [hsr2, hsr1]
    · show (syncNoteList (syncNote p n rid) rid t).seenAnn = _
      rw [hsa2, hsa1]
    · show (syncNoteList (syncNote p n rid) rid t).seenCom = _
      rw [hsc2, hsc1]
    · show (syncNoteList (syncNote p n rid) rid t).seenNote = _
      rw [hsn2, hsn1, List.append_assoc]
      rfl

theorem syncAnnotAndComments_run2 (db : ResearchDb) (p : RPass)
    (row : ResearchAnnotRow) (rid : Nat)
    (hfa : annFact p.store (rEid row.id) (computeAnnotationHash row.text row.color))
    (hfc : ∀ c ∈ fetchResearchComments db row.id,
      comFact p.store (rEid c.id) (computeCommentHash c.content)) :
    (syncAnnotAndComments db p row rid).store = p.store ∧
    (syncAnnotAndComments db p row rid).resStats = p.resStats ∧
    (syncAnnotAndComments db p row rid).annStats = p.annStats.addUnchanged ∧
    (syncAnnotAndComments db p row rid).comStats
      = p.comStats.addUnch (comEidsOfAnnot db row).length ∧
    (syncAnnotAndComments db p row rid).noteStats = p.noteStats ∧
    (syncAnnotAndComments db p row rid).seenRes = p.seenRes ∧
    (syncAnnotAndComments db p row rid).seenAnn = p.seenAnn ++ [rEid row.id] ∧
    (syncAnnotAndComments db p row rid).seenCom = p.seenCom ++ comEidsOfAnnot db row ∧
    (syncAnnotAndComments db p row rid).seenNote = p.seenNote := by
  obtain ⟨aid, heq⟩ := syncAnnot_run2 p row rid hfa
  have hsac : syncAnnotAndComments db p row rid
      = syncCommentList
          { p with seenAnn := p.seenAnn ++ [rEid row.id],
                   annStats := p.annStats.addUnchanged,
                   trace := p.trace ++ [Ev.annFound aid] }
          aid (fetchResearchComments db row.id) := by
    simp only [syncAnnotAndComments, heq, syncAnnotComments]
  rw [hsac]
  obtain ⟨hs2, hr2, ha2, hc2, hn2, hsr2, hsa2, hsc2, hsn2⟩ :=
    syncCommentList_run2 aid (fetchResearchComments db row.id)
      { p with seenAnn := p.seenAnn ++ [rEid row.id],
               annStats := p.annStats.addUnchanged,
               trace := p.trace ++ [Ev.annFound aid] } hfc
  exact ⟨hs2, hr2, ha2, hc2, hn2, hsr2, hsa2, hsc2, hsn2⟩

theorem addUnch_addUnch (s : SyncStats) (m n : Nat) :
    (s.addUnch m).addUnch n = s.addUnch (m + n) := by
  simp only [SyncStats.addUnch]
  exact congrArg (fun k => { s with unchanged := k })
    (show s.unchanged + m + n = s.unchanged + (m + n) by omega)

theorem syncAnnotList_run2 (db : ResearchDb) (rid : Nat) :
    ∀ (rows : List ResearchAnnotRow) (p : RPass),
      (∀ a ∈ rows, annFact p.store (rEid a.id) (computeAnnotationHash a.text a.color)) →
      (∀ a ∈ rows, ∀ c ∈ fetchResearchComments db a.id,
        comFact p.store (rEid c.id) (computeCommentHash c.content)) →
      (syncAnnotList db p rid rows).store = p.store ∧
      (syncAnnotList db p rid rows).resStats = p.resStats ∧
      (syncAnnotList db p rid rows).annStats
        = p.annStats.addUnch (annRowEids rows).length ∧
      (syncAnnotList db p rid rows).comStats
        = p.comStats.addUnch (comEidsOfRows db rows).length ∧
      (syncAnnotList db p rid rows).noteStats = p.noteStats ∧
      (syncAnnotList db p rid rows).seenRes = p.seenRes ∧
      (syncAnnotList db p rid rows).seenAnn = p.seenAnn ++ annRowEids rows ∧
      (syncAnnotList db p rid rows).seenCom = p.seenCom ++ comEidsOfRows db rows ∧
      (syncAnnotList db p rid rows).seenNote = p.seenNote := by
  intro rows
  induction rows with
  | nil =>
    intro p _ _
    exact ⟨rfl, rfl, rfl, rfl, rfl, rfl, (List.append_nil _).symm,
      (List.append_nil _).symm, rfl⟩
  | cons a t ih =>
    intro p hfa hfc
    obtain ⟨hs1, hr1, ha1, hc1, hn1, hsr1, hsa1, hsc1, hsn1⟩ :=
      syncAnnotAndComments_run2 db p a rid (hfa a (List.mem_cons_self a t))
        (fun c hc => hfc a (List.mem_cons_self a t) c hc)
    obtain ⟨hs2, hr2, ha2, hc2, hn2, hsr2, hsa2, hsc2, hsn2⟩ :=
      ih (syncAnnotAndComments db p a rid)
        (fun a' ha' => by rw [hs1] ; exact hfa a' (List.mem_cons_of_mem _ ha'))
        (fun a' ha' c hc => by rw [hs1] ; exact hfc a' (List.mem_cons_of_mem _ ha') c hc)
    refine ⟨?_, ?_, ?_, ?_, ?_, ?_, ?_, ?_, ?_⟩
    · show (syncAnnotList db (syncAnnotAndComments db p a rid) rid t).store = _
      rw [hs2, hs1]
    · show (syncAnnotList db (syncAnnotAndComments db p a rid) rid t).resStats = _
      rw [hr2, hr1]
    · show (syncAnnotList db (syncAnnotAndComments db p a rid) rid t).annStats = _
      rw [ha2, ha1, addUnchanged_addUnch]
      rfl
    · show (syncAnnotList db (syncAnnotAndComments db p a rid) rid t).comStats = _
      rw [hc2, hc1, addUnch_addUnch, comEidsOfRows_cons, List.length_append]
    · show (syncAnnotList db (syncAnnotAndComments db p a rid) rid t).noteStats = _
      rw [hn2, hn1]
    · show (syncAnnotList db (syncAnnotAndComments db p a rid) rid t).seenRes = _
      rw [hsr2, hsr1]
    · show (syncAnnotList db (syncAnnotAndComments db p a rid) rid t).seenAnn = _
      rw [hsa2, hsa1, List.append_assoc]
      rfl
    · show (syncAnnotList db (syncAnnotAndComments db p a rid) rid t).seenCom = _
      rw [hsc2, hsc1, List.append_assoc, comEidsOfRows_cons]
    · show (syncAnnotList db (syncAnnotAndComments db p a rid) rid t).seenNote = _
      rw [hsn2, hsn1]

theorem syncItem_run2 (db : ResearchDb) (p : RPass) (item : ResearchItem)
    (hfr : resFact p.store (rEid item.id) (computeResourceHash item.title))
    (hfa : ∀ a ∈ fetchResearchAnnots db item.id,
      annFact p.store (rEid a.id) (computeAnnotationHash a.text a.color))
    (hfc : ∀ a ∈ fetchResearchAnnots db item.id, ∀ c ∈ fetchResearchComments db a.id,
      comFact p.store (rEid c.id) (computeCommentHash c.content))
    (hfn : ∀ n ∈ fetchResearchNotes db item.id,
      noteFact p.store (rEid n.id) (computeNoteHash n.content)) :
    (syncItem db p item).store = p.store ∧
    (syncItem db p item).resStats = p.resStats.addUnchanged ∧
    (syncItem db p item).annStats = p.annStats.addUnch (annEidsOfItem db item).length ∧
    (syncItem db p item).comStats = p.comStats.addUnch (comEidsOfItem db item).length ∧
    (syncItem db p item).noteStats = p.noteStats.addUnch (noteEidsOfItem db item).length ∧
    (syncItem db p item).seenRes = p.seenRes ++ [rEid item.id] ∧
    (syncItem db p item).seenAnn = p.seenAnn ++ annEidsOfItem db item ∧
    (syncItem db p item).seenCom = p.seenCom ++ comEidsOfItem db item ∧
    (syncItem db p item).seenNote = p.seenNote ++ noteEidsOfItem db item := by
  obtain ⟨rid, heq⟩ := syncResource_run2 p item hfr
  have hsi : syncItem db p item
      = syncNoteList (syncItemAnnots db
          { p with seenRes := p.seenRes ++ [rEid item.id],
                   resStats := p.resStats.addUnchanged,
                   trace := p.trace ++ [Ev.resFound rid] } item rid) rid
          (fetchResearchNotes db item.id) := by
    simp only [syncItem, heq, syncItemNotes]
  rw [hsi]
  obtain ⟨hs2, hr2, ha2, hc2, hn2, hsr2, hsa2, hsc2, hsn2⟩ :=
    syncAnnotList_run2 db rid (fetchResearchAnnots db item.id)
      { p with seenRes := p.seenRes ++ [rEid item.id],
               resStats := p.resStats.addUnchanged,
               trace := p.trace ++ [Ev.resFound rid] } hfa hfc
  have hs2' : (syncItemAnnots db
      { p with seenRes := p.seenRes ++ [rEid item.id],
               resStats := p.resStats.addUnchanged,
               trace := p.trace ++ [Ev.resFound rid] } item rid).store = p.store := hs2
  obtain ⟨hs3, hr3, ha3, hc3, hn3, hsr3, hsa3, hsc3, hsn3⟩ :=
    syncNoteList_run2 rid (fetchResearchNotes db item.id)
      (syncItemAnnots db
        { p with seenRes := p.seenRes ++ [rEid item.id],
                 resStats := p.resStats.addUnchanged,
                 trace := p.trace ++ [Ev.resFound rid] } item rid)
      (fun n hn => by rw [hs2'] ; exact hfn n hn)
  have hr2' : (syncItemAnnots db
      { p with seenRes := p.seenRes ++ [rEid item.id],
               resStats := p.resStats.addUnchanged,
               trace := p.trace ++ [Ev.resFound rid] } item rid).resStats
      = p.resStats.addUnchanged := hr2
  have ha2' : (syncItemAnnots db
      { p with seenRes := p.seenRes ++ [rEid item.id],
               resStats := p.resStats.addUnchanged,
               trace := p.trace ++ [Ev.resFound rid] } item rid).annStats
      = p.annStats.addUnch (annRowEids (fetchResearchAnnots db item.id)).length := ha2
  have hc2' : (syncItemAnnots db
      { p with seenRes := p.seenRes ++ [rEid item.id],
               resStats := p.resStats.addUnchanged,
               trace := p.trace ++ [Ev.resFound rid] } item rid).comStats
      = p.comStats.addUnch (comEidsOfRows db (fetchResearchAnnots db item.id)).length := hc2
  have hn2' : (syncItemAnnots db
      { p with seenRes := p.seenRes ++ [rEid item.id],
               resStats := p.resStats.addUnchanged,
               trace := p.trace ++ [Ev.resFound rid] } item rid).noteStats
      = p.noteStats := hn2
  have hsr2' : (syncItemAnnots db
      { p with seenRes := p.seenRes ++ [rEid item.id],
               resStats := p.resStats.addUnchanged,
               trace := p.trace ++ [Ev.resFound rid] } item rid).seenRes
      = p.seenRes ++ [rEid item.id] := hsr2
  have hsa2' : (syncItemAnnots db
      { p with seenRes := p.seenRes ++ [rEid item.id],
               resStats := p.resStats.addUnchanged,
               trace := p.trace ++ [Ev.resFound rid] } item rid).seenAnn
      = p.seenAnn ++ annRowEids (fetchResearchAnnots db item.id) := hsa2
  have hsc2' : (syncItemAnnots db
      { p with seenRes := p.seenRes ++ [rEid item.id],
               resStats := p.resStats.addUnchanged,
               trace := p.trace ++ [Ev.resFound rid] } item rid).seenCom
      = p.seenCom ++ comEidsOfRows db (fetchResearchAnnots db item.id) := hsc2
  have hsn2' : (syncItemAnnots db
      { p with seenRes := p.seenRes ++ [rEid item.id],
               resStats := p.resStats.addUnchanged,
               trace := p.trace ++ [Ev.resFound rid] } item rid).seenNote
      = p.seenNote := hsn2
  refine ⟨?_, ?_, ?_, ?_, ?_, ?_, ?_, ?_, ?_⟩
  · rw [hs3, hs2']
  · rw [hr3, hr2']
  · rw [ha3, ha2']
    rfl
  · rw [hc3, hc2']
    rfl
  · rw [hn3, hn2']
    rfl
  · rw [hsr3, hsr2']
  · rw [hsa3, hsa2']
    rfl
  · rw [hsc3, hsc2']
    rfl
  · rw [hsn3, hsn2']
    rfl

theorem syncItemList_run2 (db : ResearchDb) :
    ∀ (items : List ResearchItem) (p : RPass),
      (∀ i ∈ items, resFact p.store (rEid i.id) (computeResourceHash i.title)) →
      (∀ i ∈ items, ∀ a ∈ fetchResearchAnnots db i.id,
        annFact p.store (rEid a.id) (computeAnnotationHash a.text a.color)) →
      (∀ i ∈ items, ∀ a ∈ fetchResearchAnnots db i.id,
        ∀ c ∈ fetchResearchComments db a.id,
        comFact p.store (rEid c.id) (computeCommentHash c.content)) →
      (∀ i ∈ items, ∀ n ∈ fetchResearchNotes db i.id,
        noteFact p.store (rEid n.id) (computeNoteHash n.content)) →
      (syncItemList db p items).store = p.store ∧
      (syncItemList db p items).resStats = p.resStats.addUnch (resEids items).length ∧
      (syncItemList db p items).annStats = p.annStats.addUnch (annEidsR db items).length ∧
      (syncItemList db p items).comStats = p.comStats.addUnch (comEidsR db items).length ∧
      (syncItemList db p items).noteStats
        = p.noteStats.addUnch (noteEidsR db items).length ∧
      (syncItemList db p items).seenRes = p.seenRes ++ resEids items ∧
      (syncItemList db p items).seenAnn = p.seenAnn ++ annEidsR db items ∧
      (syncItemList db p items).seenCom = p.seenCom ++ comEidsR db items ∧
      (syncItemList db p items).seenNote = p.seenNote ++ noteEidsR db items := by
  intro items
  induction items with
  | nil =>
    intro p _ _ _ _
    exact ⟨rfl, rfl, rfl, rfl, rfl, (List.append_nil _).symm, (List.append_nil _).symm,
      (List.append_nil _).symm, (List.append_nil _).symm⟩
  | cons i t ih =>
    intro p hfr hfa hfc hfn
    obtain ⟨hs1, hr1, ha1, hc1, hn1, hsr1, hsa1, hsc1, hsn1⟩ :=
      syncItem_run2 db p i (hfr i (List.mem_cons_self i t))
        (fun a ha => hfa i (List.mem_cons_self i t) a ha)
        (fun a ha c hc => hfc i (List.mem_cons_self i t) a ha c hc)
        (fun n hn => hfn i (List.mem_cons_self i t) n hn)
    obtain ⟨hs2, hr2, ha2, hc2, hn2, hsr2, hsa2, hsc2, hsn2⟩ :=
      ih (syncItem db p i)
        (fun i' hi' => by rw [hs1] ; exact hfr i' (List.mem_cons_of_mem _ hi'))
        (fun i' hi' a ha => by rw [hs1] ; exact hfa i' (List.mem_cons_of_mem _ hi') a ha)
        (fun i' hi' a ha c hc => by
          rw [hs1] ; exact hfc i' (List.mem_cons_of_mem _ hi') a ha c hc)
        (fun i' hi' n hn => by rw [hs1] ; exact hfn i' (List.mem_cons_of_mem _ hi') n hn)
    refine ⟨?_, ?_, ?_, ?_, ?_, ?_, ?_, ?_, ?_⟩
    · show (syncItemList db (syncItem db p i) t).store = _
      rw [hs2, hs1]
    · show (syncItemList db (syncItem db p i) t).resStats = _
      rw [hr2, hr1, addUnchanged_addUnch]
      rfl
    · show (syncItemList db (syncItem db p i) t).annStats = _
      rw [ha2, ha1, addUnch_addUnch, annEidsR_cons, List.length_append]
    · show (syncItemList db (syncItem db p i) t).comStats = _
      rw [hc2, hc1, addUnch_addUnch, comEidsR_cons, List.length_append]
    · show (syncItemList db (syncItem db p i) t).noteStats = _
      rw [hn2, hn1, addUnch_addUnch, noteEidsR_cons, List.length_append]
    · show (syncItemList db (syncItem db p i) t).seenRes = _
      rw [hsr2, hsr1, List.append_assoc]
      rfl
    · show (syncItemList db (syncItem db p i) t).seenAnn = _
      rw [hsa2, hsa1, List.append_assoc, annEidsR_cons]
    · show (syncItemList db (syncItem db p i) t).seenCom = _
      rw [hsc2, hsc1, List.append_assoc, comEidsR_cons]
    · show (syncItemList db (syncItem db p i) t).seenNote = _
      rw [hsn2, hsn1, List.append_assoc, noteEidsR_cons]

/-! Assembly of the research idempotence run. -/

def comSrcPred (src : String) (c : Comment) : Bool :=
  (match c.external_id with | some e => likeSourceMatch src e | none => false)
  && c.deleted_at == none

def noteSrcPred (src : String) (n : Note) : Bool :=
  (match n.external_id with | some e => likeSourceMatch src e | none => false)
  && n.deleted_at == none

def resSrcPred (src : String) (r : Resource) : Bool :=
  (match r.external_id with | some e => likeSourceMatch src e | none => false)
  && r.deleted_at == none

theorem comSrcPred_some {src : String} {c : Comment}
    (h : comSrcPred src c = true) : ∃ e, c.external_id = some e := by
  cases hae : c.external_id with
  | none =>
    simp only [comSrcPred, hae] at h
    simp at h
  | some e => exact ⟨e, rfl⟩

theorem comSrcPred_live {src : String} {c : Comment}
    (h : comSrcPred src c = true) : c.deleted_at = none := by
  simp only [comSrcPred, Bool.and_eq_true, beq_iff_eq] at h
  exact h.2

theorem noteSrcPred_some {src : String} {n : Note}
    (h : noteSrcPred src n = true) : ∃ e, n.external_id = some e := by
  cases hae : n.external_id with
  | none =>
    simp only [noteSrcPred, hae] at h
    simp at h
  | some e => exact ⟨e, rfl⟩

theorem noteSrcPred_live {src : String} {n : Note}
    (h : noteSrcPred src n = true) : n.deleted_at = none := by
  simp only [noteSrcPred, Bool.and_eq_true, beq_iff_eq] at h
  exact h.2

theorem resSrcPred_some {src : String} {r : Resource}
    (h : resSrcPred src r = true) : ∃ e, r.external_id = some e := by
  cases hae : r.external_id with
  | none =>
    simp only [resSrcPred, hae] at h
    simp at h
  | some e => exact ⟨e, rfl⟩

theorem resSrcPred_live {src : String} {r : Resource}
    (h : resSrcPred src r = true) : r.deleted_at = none := by
  simp only [resSrcPred, Bool.and_eq_true, beq_iff_eq] at h
  exact h.2

theorem findCommentsBySource_eq (st : Store) (src : String) :
    st.findCommentsBySource src = st.comments.filter (comSrcPred src) := rfl

theorem findNotesBySource_eq (st : Store) (src : String) :
    st.findNotesBySource src = st.notes.filter (noteSrcPred src) := rfl

theorem findResourcesBySource_eq (st : Store) (src : String) :
    st.findResourcesBySource src = st.resources.filter (resSrcPred src) := rfl

def researchPhase1 (st : Store) (db : ResearchDb) (items : List ResearchItem) : RPass :=
  syncItemList db (RPass.init st) items

def researchFinal (st : Store) (db : ResearchDb) (items : List ResearchItem) : RPass :=
  softDeleteOrphansR (researchPhase1 st db items)

theorem syncAllEntities_eq (st : Store) (db : ResearchDb) (items : List ResearchItem) :
    syncAllEntities st db items
      = ((researchFinal st db items).store,
         buildRSyncResponse (researchFinal st db items).resStats
           (researchFinal st db items).annStats (researchFinal st db items).comStats
           (researchFinal st db items).noteStats,
         (researchFinal st db items).trace) := rfl

set_option maxHeartbeats 2000000 in
/-- The research sync is idempotent when each kind's external ids are
pairwise distinct: the second of two identical runs reports every row
unchanged and touches nothing. -/
theorem research_second_run (st : Store) (db : ResearchDb) (items : List ResearchItem)
    (hwf : st.WF) (hnr : (resEids items).Nodup) (hna : (annEidsR db items).Nodup)
    (hnc : (comEidsR db items).Nodup) (hnn : (noteEidsR db items).Nodup) :
    (syncAllEntities (syncAllEntities st db items).1 db items).2.1
      = buildRSyncResponse ⟨0, 0, 0, (resEids items).length⟩
          ⟨0, 0, 0, (annEidsR db items).length⟩ ⟨0, 0, 0, (comEidsR db items).length⟩
          ⟨0, 0, 0, (noteEidsR db items).length⟩ := by
  obtain ⟨h1W, h1F, h1G, h1H, h1K, h1sr, h1sa, h1sc, h1sn, _, _, _, _⟩ :=
    syncItemList_run1 db items (RPass.init st) hwf hnr hna hnc hnn
  have hP1W : (researchPhase1 st db items).store.WF := h1W
  have hSR : (researchPhase1 st db items).seenRes = resEids items := by
    have h : (researchPhase1 st db items).seenRes = [] ++ resEids items := h1sr
    rw [List.nil_append] at h
    exact h
  have hSA : (researchPhase1 st db items).seenAnn = annEidsR db items := by
    have h : (researchPhase1 st db items).seenAnn = [] ++ annEidsR db items := h1sa
    rw [List.nil_append] at h
    exact h
  have hSC : (researchPhase1 st db items).seenCom = comEidsR db items := by
    have h : (researchPhase1 st db items).seenCom = [] ++ comEidsR db items := h1sc
    rw [List.nil_append] at h
    exact h
  have hSN : (researchPhase1 st db items).seenNote = noteEidsR db items := by
    have h : (researchPhase1 st db items).seenNote = [] ++ noteEidsR db items := h1sn
    rw [List.nil_append] at h
    exact h
  have hF1 : ∀ i ∈ items, resFact (researchPhase1 st db items).store (rEid i.id)
      (computeResourceHash i.title) := h1F
  have hG1 : ∀ i ∈ items, ∀ a ∈ fetchResearchAnnots db i.id,
      annFact (researchPhase1 st db items).store (rEid a.id) (computeAnnotationHash a.text a.color) := h1G
  have hH1 : ∀ i ∈ items, ∀ a ∈ fetchResearchAnnots db i.id,
      ∀ c ∈ fetchResearchComments db a.id,
      comFact (researchPhase1 st db items).store (rEid c.id) (computeCommentHash c.content) := h1H
  have hK1 : ∀ i ∈ items, ∀ n ∈ fetchResearchNotes db i.id,
      noteFact (researchPhase1 st db items).store (rEid n.id) (computeNoteHash n.content) := h1K
  -- sweep 1: comments
  have hQ1W : (deleteOrphanComments (researchPhase1 st db items)).store.WF := sweepComOrphanList_WF _ _ hP1W
  have hQ1R : (deleteOrphanComments (researchPhase1 st db items)).store.resources = (researchPhase1 st db items).store.resources :=
    (sweepComOrphanList_frame _ _).1
  have hQ1A : (deleteOrphanComments (researchPhase1 st db items)).store.annotations = (researchPhase1 st db items).store.annotations :=
    (sweepComOrphanList_frame _ _).2.1
  have hQ1N : (deleteOrphanComments (researchPhase1 st db items)).store.notes = (researchPhase1 st db items).store.notes :=
    (sweepComOrphanList_frame _ _).2.2
  have hQ1sa : (deleteOrphanComments (researchPhase1 st db items)).seenAnn = (researchPhase1 st db items).seenAnn := (sweepComOrphanList_seen _ _).2.1
  have hQ1sn : (deleteOrphanComments (researchPhase1 st db items)).seenNote = (researchPhase1 st db items).seenNote := (sweepComOrphanList_seen _ _).2.2.2
  have hQ1sr : (deleteOrphanComments (researchPhase1 st db items)).seenRes = (researchPhase1 st db items).seenRes := (sweepComOrphanList_seen _ _).1
  have hH2 : ∀ i ∈ items, ∀ a ∈ fetchResearchAnnots db i.id,
      ∀ c ∈ fetchResearchComments db a.id,
      comFact (deleteOrphanComments (researchPhase1 st db items)).store (rEid c.id) (computeCommentHash c.content) := by
    intro i hi a ha c hc
    refine sweepComOrphanList_comFact _ _ (researchPhase1 st db items).store _ _ rfl
      hP1W.2.2.1.1 ?_ ?_ (hH1 i hi a ha c hc)
    · intro o ho
      exact List.mem_map_of_mem _ (List.mem_of_mem_filter ho)
    · rw [hSC]
      refine contains_of_mem ?_
      exact List.mem_flatMap.mpr ⟨i, hi,
        List.mem_flatMap.mpr ⟨a, ha, List.mem_map_of_mem _ hc⟩⟩
  have hF2 : ∀ i ∈ items, resFact (deleteOrphanComments (researchPhase1 st db items)).store (rEid i.id)
      (computeResourceHash i.title) :=
    fun i hi => resFact_congr hQ1R.symm (hF1 i hi)
  have hG2 : ∀ i ∈ items, ∀ a ∈ fetchResearchAnnots db i.id,
      annFact (deleteOrphanComments (researchPhase1 st db items)).store (rEid a.id) (computeAnnotationHash a.text a.color) :=
    fun i hi a ha => annFact_congr hQ1A.symm (hG1 i hi a ha)
  have hK2 : ∀ i ∈ items, ∀ n ∈ fetchResearchNotes db i.id,
      noteFact (deleteOrphanComments (researchPhase1 st db items)).store (rEid n.id) (computeNoteHash n.content) :=
    fun i hi n hn => noteFact_congr hQ1N.symm (hK1 i hi n hn)
  have hPcom : ∀ c ∈ (deleteOrphanComments (researchPhase1 st db items)).store.comments, c.deleted_at = none →
      comSrcPred "research" c = true →
      ∃ e, c.external_id = some e ∧ ((researchPhase1 st db items).seenCom.contains e) = true := by
    refine sweepComOrphanList_complete (comSrcPred "research")
      (fun c hc => comSrcPred_some hc) _ _ ?_
    intro c hc hl hp
    exact Or.inr ⟨c, List.mem_filter.mpr ⟨hc, hp⟩, rfl, rfl⟩
  -- sweep 2: annotations
  have hQ2W : (deleteOrphanAnnots (deleteOrphanComments (researchPhase1 st db items))).store.WF := sweepAnnOrphanList_WF _ _ hQ1W
  have hQ2R : (deleteOrphanAnnots (deleteOrphanComments (researchPhase1 st db items))).store.resources = (deleteOrphanComments (researchPhase1 st db items)).store.resources :=
    (sweepAnnOrphanList_frame _ _).1
  have hQ2C : (deleteOrphanAnnots (deleteOrphanComments (researchPhase1 st db items))).store.comments = (deleteOrphanComments (researchPhase1 st db items)).store.comments :=
    (sweepAnnOrphanList_frame _ _).2.1
  have hQ2N : (deleteOrphanAnnots (deleteOrphanComments (researchPhase1 st db items))).store.notes = (deleteOrphanComments (researchPhase1 st db items)).store.notes :=
    (sweepAnnOrphanList_frame _ _).2.2
  have hQ2sn : (deleteOrphanAnnots (deleteOrphanComments (researchPhase1 st db items))).seenNote = (deleteOrphanComments (researchPhase1 st db items)).seenNote := (sweepAnnOrphanList_seen _ _).2.2.2
  have hQ2sr : (deleteOrphanAnnots (deleteOrphanComments (researchPhase1 st db items))).seenRes = (deleteOrphanComments (researchPhase1 st db items)).seenRes := (sweepAnnOrphanList_seen _ _).1
  have hG3 : ∀ i ∈ items, ∀ a ∈ fetchResearchAnnots db i.id,
      annFact (deleteOrphanAnnots (deleteOrphanComments (researchPhase1 st db items))).store (rEid a.id) (computeAnnotationHash a.text a.color) := by
    intro i hi a ha
    refine sweepAnnOrphanList_annFact _ _ (deleteOrphanComments (researchPhase1 st db items)).store _ _ rfl
      hQ1W.2.1.1 ?_ ?_ (hG2 i hi a ha)
    · intro o ho
      exact List.mem_map_of_mem _ (List.mem_of_mem_filter ho)
    · rw [hQ1sa, hSA]
      refine contains_of_mem ?_
      exact List.mem_flatMap.mpr ⟨i, hi, List.mem_map_of_mem _ ha⟩
  have hF3 : ∀ i ∈ items, resFact (deleteOrphanAnnots (deleteOrphanComments (researchPhase1 st db items))).store (rEid i.id)
      (computeResourceHash i.title) :=
    fun i hi => resFact_congr hQ2R.symm (hF2 i hi)
  have hH3 : ∀ i ∈ items, ∀ a ∈ fetchResearchAnnots db i.id,
      ∀ c ∈ fetchResearchComments db a.id,
      comFact (deleteOrphanAnnots (deleteOrphanComments (researchPhase1 st db items))).store (rEid c.id) (computeCommentHash c.content) :=
    fun i hi a ha c hc => comFact_congr hQ2C.symm (hH2 i hi a ha c hc)
  have hK3 : ∀ i ∈ items, ∀ n ∈ fetchResearchNotes db i.id,
      noteFact (deleteOrphanAnnots (deleteOrphanComments (researchPhase1 st db items))).store (rEid n.id) (computeNoteHash n.content) :=
    fun i hi n hn => noteFact_congr hQ2N.symm (hK2 i hi n hn)
  have hPann : ∀ a ∈ (deleteOrphanAnnots (deleteOrphanComments (researchPhase1 st db items))).store.annotations, a.deleted_at = none →
      lightOrphanPred "research" none a = true →
      ∃ e, a.external_id = some e ∧ ((deleteOrphanComments (researchPhase1 st db items)).seenAnn.contains e) = true := by
    refine sweepAnnOrphanList_complete (lightOrphanPred "research" none)
      (fun a ha => lightOrphanPred_some ha) _ _ ?_
    intro a ha hl hp
    exact Or.inr ⟨a, List.mem_filter.mpr ⟨ha, hp⟩, rfl, rfl⟩
  -- sweep 3: notes
  have hQ3W : (deleteOrphanNotes (deleteOrphanAnnots (deleteOrphanComments (researchPhase1 st db items)))).store.WF := sweepNoteOrphanList_WF _ _ hQ2W
  have hQ3R : (deleteOrphanNotes (deleteOrphanAnnots (deleteOrphanComments (researchPhase1 st db items)))).store.resources = (deleteOrphanAnnots (deleteOrphanComments (researchPhase1 st db items))).store.resources :=
    (sweepNoteOrphanList_frame _ _).1
  have hQ3A : (deleteOrphanNotes (deleteOrphanAnnots (deleteOrphanComments (researchPhase1 st db items)))).store.annotations = (deleteOrphanAnnots (deleteOrphanComments (researchPhase1 st db items))).store.annotations :=
    (sweepNoteOrphanList_frame _ _).2.1
  have hQ3C : (deleteOrphanNotes (deleteOrphanAnnots (deleteOrphanComments (researchPhase1 st db items)))).store.comments = (deleteOrphanAnnots (deleteOrphanComments (researchPhase1 st db items))).store.comments :=
    (sweepNoteOrphanList_frame _ _).2.2
  have hQ3sr : (deleteOrphanNotes (deleteOrphanAnnots (deleteOrphanComments (researchPhase1 st db items)))).seenRes = (deleteOrphanAnnots (deleteOrphanComments (researchPhase1 st db items))).seenRes := (sweepNoteOrphanList_seen _ _).1
  have hK4 : ∀ i ∈ items, ∀ n ∈ fetchResearchNotes db i.id,
      noteFact (deleteOrphanNotes (deleteOrphanAnnots (deleteOrphanComments (researchPhase1 st db items)))).store (rEid n.id) (computeNoteHash n.content) := by
    intro i hi n hn
    refine sweepNoteOrphanList_noteFact _ _ (deleteOrphanAnnots (deleteOrphanComments (researchPhase1 st db items))).store _ _ rfl
      hQ2W.2.2.2.1 ?_ ?_ (hK3 i hi n hn)
    · intro o ho
      exact List.mem_map_of_mem _ (List.mem_of_mem_filter ho)
    · rw [hQ2sn, hQ1sn, hSN]
      refine contains_of_mem ?_
      exact List.mem_flatMap.mpr ⟨i, hi, List.mem_map_of_mem _ hn⟩
  have hF4 : ∀ i ∈ items, resFact (deleteOrphanNotes (deleteOrphanAnnots (deleteOrphanComments (researchPhase1 st db items)))).store (rEid i.id)
      (computeResourceHash i.title) :=
    fun i hi => resFact_congr hQ3R.symm (hF3 i hi)
  have hG4 : ∀ i ∈ items, ∀ a ∈ fetchResearchAnnots db i.id,
      annFact (deleteOrphanNotes (deleteOrphanAnnots (deleteOrphanComments (researchPhase1 st db items)))).store (rEid a.id) (computeAnnotationHash a.text a.color) :=
    fun i hi a ha => annFact_congr hQ3A.symm (hG3 i hi a ha)
  have hH4 : ∀ i ∈ items, ∀ a ∈ fetchResearchAnnots db i.id,
      ∀ c ∈ fetchResearchComments db a.id,
      comFact (deleteOrphanNotes (deleteOrphanAnnots (deleteOrphanComments (researchPhase1 st db items)))).store (rEid c.id) (computeCommentHash c.content) :=
    fun i hi a ha c hc => comFact_congr hQ3C.symm (hH3 i hi a ha c hc)
  have hPnote : ∀ n ∈ (deleteOrphanNotes (deleteOrphanAnnots (deleteOrphanComments (researchPhase1 st db items)))).store.notes, n.deleted_at = none →
      noteSrcPred "research" n = true →
      ∃ e, n.external_id = some e ∧ ((deleteOrphanAnnots (deleteOrphanComments (researchPhase1 st db items))).seenNote.contains e) = true := by
    refine sweepNoteOrphanList_complete (noteSrcPred "research")
      (fun n hn => noteSrcPred_some hn) _ _ ?_
    intro n hn hl hp
    exact Or.inr ⟨n, List.mem_filter.mpr ⟨hn, hp⟩, rfl, rfl⟩
  -- sweep 4: resources
  have hQ4A : (researchFinal st db items).store.annotations = (deleteOrphanNotes (deleteOrphanAnnots (deleteOrphanComments (researchPhase1 st db items)))).store.annotations :=
    (sweepResOrphanList_frame _ _).1
  have hQ4C : (researchFinal st db items).store.comments = (deleteOrphanNotes (deleteOrphanAnnots (deleteOrphanComments (researchPhase1 st db items)))).store.comments :=
    (sweepResOrphanList_frame _ _).2.1
  have hQ4N : (researchFinal st db items).store.notes = (deleteOrphanNotes (deleteOrphanAnnots (deleteOrphanComments (researchPhase1 st db items)))).store.notes :=
    (sweepResOrphanList_frame _ _).2.2
  have hF5 : ∀ i ∈ items, resFact (researchFinal st db items).store (rEid i.id)
      (computeResourceHash i.title) := by
    intro i hi
    refine sweepResOrphanList_resFact _ _ (deleteOrphanNotes (deleteOrphanAnnots (deleteOrphanComments (researchPhase1 st db items)))).store _ _ rfl
      hQ3W.1.1 ?_ ?_ (hF4 i hi)
    · intro o ho
      exact List.mem_map_of_mem _ (List.mem_of_mem_filter ho)
    · rw [hQ3sr, hQ2sr, hQ1sr, hSR]
      refine contains_of_mem ?_
      exact List.mem_map_of_mem _ hi
  have hG5 : ∀ i ∈ items, ∀ a ∈ fetchResearchAnnots db i.id,
      annFact (researchFinal st db items).store (rEid a.id) (computeAnnotationHash a.text a.color) :=
    fun i hi a ha => annFact_congr hQ4A.symm (hG4 i hi a ha)
  have hH5 : ∀ i ∈ items, ∀ a ∈ fetchResearchAnnots db i.id,
      ∀ c ∈ fetchResearchComments db a.id,
      comFact (researchFinal st db items).store (rEid c.id) (computeCommentHash c.content) :=
    fun i hi a ha c hc => comFact_congr hQ4C.symm (hH4 i hi a ha c hc)
  have hK5 : ∀ i ∈ items, ∀ n ∈ fetchResearchNotes db i.id,
      noteFact (researchFinal st db items).store (rEid n.id) (computeNoteHash n.content) :=
    fun i hi n hn => noteFact_congr hQ4N.symm (hK4 i hi n hn)
  have hPres : ∀ r ∈ (researchFinal st db items).store.resources, r.deleted_at = none →
      resSrcPred "research" r = true →
      ∃ e, r.external_id = some e ∧ ((deleteOrphanNotes (deleteOrphanAnnots (deleteOrphanComments (researchPhase1 st db items)))).seenRes.contains e) = true := by
    refine sweepResOrphanList_complete (resSrcPred "research")
      (fun r hr => resSrcPred_some hr) _ _ ?_
    intro r hr hl hp
    exact Or.inr ⟨r, List.mem_filter.mpr ⟨hr, hp⟩, rfl, rfl⟩
  -- run 2, phase 1
  obtain ⟨h2s, h2r, h2a, h2c, h2n, h2sr, h2sa, h2sc, h2sn⟩ :=
    syncItemList_run2 db items (RPass.init (researchFinal st db items).store) hF5 hG5 hH5 hK5
  have h2s' : (researchPhase1 (researchFinal st db items).store db items).store = (researchFinal st db items).store := h2s
  have h2sr' : (researchPhase1 (researchFinal st db items).store db items).seenRes = resEids items := by
    have h : (researchPhase1 (researchFinal st db items).store db items).seenRes = [] ++ resEids items := h2sr
    rw [List.nil_append] at h
    exact h
  have h2sa' : (researchPhase1 (researchFinal st db items).store db items).seenAnn = annEidsR db items := by
    have h : (researchPhase1 (researchFinal st db items).store db items).seenAnn = [] ++ annEidsR db items := h2sa
    rw [List.nil_append] at h
    exact h
  have h2sc' : (researchPhase1 (researchFinal st db items).store db items).seenCom = comEidsR db items := by
    have h : (researchPhase1 (researchFinal st db items).store db items).seenCom = [] ++ comEidsR db items := h2sc
    rw [List.nil_append] at h
    exact h
  have h2sn' : (researchPhase1 (researchFinal st db items).store db items).seenNote = noteEidsR db items := by
    have h : (researchPhase1 (researchFinal st db items).store db items).seenNote = [] ++ noteEidsR db items := h2sn
    rw [List.nil_append] at h
    exact h
  -- run 2, sweeps are no-ops
  have hnop1 : deleteOrphanComments (researchPhase1 (researchFinal st db items).store db items)
      = researchPhase1 (researchFinal st db items).store db items := by
    refine sweepComOrphanList_noop _ _ ?_
    intro o ho
    have hlist : (researchPhase1 (researchFinal st db items).store db items).store.findCommentsBySource "research"
        = (researchFinal st db items).store.comments.filter (comSrcPred "research") := by
      rw [findCommentsBySource_eq, h2s']
    rw [hlist] at ho
    obtain ⟨hom, hop⟩ := List.mem_filter.mp ho
    have hom' : o ∈ (deleteOrphanComments (researchPhase1 st db items)).store.comments := by
      rw [← hQ2C, ← hQ3C, ← hQ4C]
      exact hom
    obtain ⟨e, he1, he2⟩ := hPcom o hom' (comSrcPred_live hop) hop
    refine ⟨e, he1, ?_⟩
    rw [h2sc']
    rw [hSC] at he2
    exact he2
  have hnop2 : deleteOrphanAnnots (researchPhase1 (researchFinal st db items).store db items)
      = researchPhase1 (researchFinal st db items).store db items := by
    refine sweepAnnOrphanList_noop _ _ ?_
    intro o ho
    have hlist : (researchPhase1 (researchFinal st db items).store db items).store.findAnnotsBySource "research" none
        = (researchFinal st db items).store.annotations.filter (lightOrphanPred "research" none) := by
      rw [findAnnotsBySource_eq, h2s']
    rw [hlist] at ho
    obtain ⟨hom, hop⟩ := List.mem_filter.mp ho
    have hom' : o ∈ (deleteOrphanAnnots (deleteOrphanComments (researchPhase1 st db items))).store.annotations := by
      rw [← hQ3A, ← hQ4A]
      exact hom
    obtain ⟨e, he1, he2⟩ := hPann o hom' (lightOrphanPred_live hop) hop
    refine ⟨e, he1, ?_⟩
    rw [h2sa']
    rw [hQ1sa, hSA] at he2
    exact he2
  have hnop3 : deleteOrphanNotes (researchPhase1 (researchFinal st db items).store db items)
      = researchPhase1 (researchFinal st db items).store db items := by
    refine sweepNoteOrphanList_noop _ _ ?_
    intro o ho
    have hlist : (researchPhase1 (researchFinal st db items).store db items).store.findNotesBySource "research"
        = (researchFinal st db items).store.notes.filter (noteSrcPred "research") := by
      rw [findNotesBySource_eq, h2s']
    rw [hlist] at ho
    obtain ⟨hom, hop⟩ := List.mem_filter.mp ho
    have hom' : o ∈ (deleteOrphanNotes (deleteOrphanAnnots (deleteOrphanComments (researchPhase1 st db items)))).store.notes := by
      rw [← hQ4N]
      exact hom
    obtain ⟨e, he1, he2⟩ := hPnote o hom' (noteSrcPred_live hop) hop
    refine ⟨e, he1, ?_⟩
    rw [h2sn']
    rw [hQ2sn, hQ1sn, hSN] at he2
    exact he2
  have hnop4 : deleteOrphanResources (researchPhase1 (researchFinal st db items).store db items)
      = researchPhase1 (researchFinal st db items).store db items := by
    refine sweepResOrphanList_noop _ _ ?_
    intro o ho
    have hlist : (researchPhase1 (researchFinal st db items).store db items).store.findResourcesBySource "research"
        = (researchFinal st db items).store.resources.filter (resSrcPred "research") := by
      rw [findResourcesBySource_eq, h2s']
    rw [hlist] at ho
    obtain ⟨hom, hop⟩ := List.mem_filter.mp ho
    obtain ⟨e, he1, he2⟩ := hPres o hom (resSrcPred_live hop) hop
    refine ⟨e, he1, ?_⟩
    rw [h2sr']
    rw [hQ3sr, hQ2sr, hQ1sr, hSR] at he2
    exact he2
  have hFF : researchFinal (researchFinal st db items).store db items = researchPhase1 (researchFinal st db items).store db items := by
    show deleteOrphanResources (deleteOrphanNotes (deleteOrphanAnnots
        (deleteOrphanComments (researchPhase1 (researchFinal st db items).store db items))))
      = researchPhase1 (researchFinal st db items).store db items
    rw [hnop1, hnop2, hnop3, hnop4]
  show buildRSyncResponse (researchFinal (researchFinal st db items).store db items).resStats
      (researchFinal (researchFinal st db items).store db items).annStats (researchFinal (researchFinal st db items).store db items).comStats
      (researchFinal (researchFinal st db items).store db items).noteStats = _
  rw [hFF]
  have h2r' : (researchPhase1 (researchFinal st db items).store db items).resStats
      = SyncStats.zero.addUnch (resEids items).length := h2r
  have h2a' : (researchPhase1 (researchFinal st db items).store db items).annStats
      = SyncStats.zero.addUnch (annEidsR db items).length := h2a
  have h2c' : (researchPhase1 (researchFinal st db items).store db items).comStats
      = SyncStats.zero.addUnch (comEidsR db items).length := h2c
  have h2n' : (researchPhase1 (researchFinal st db items).store db items).noteStats
      = SyncStats.zero.addUnch (noteEidsR db items).length := h2n
  rw [h2r', h2a', h2c', h2n']
  have hz : ∀ n : Nat, SyncStats.zero.addUnch n = (⟨0, 0, 0, n⟩ : SyncStats) :=
    fun n => congrArg (fun k => (⟨0, 0, 0, k⟩ : SyncStats)) (Nat.zero_add n)
  rw [hz, hz, hz, hz]

/-- Claim C3.  Idempotence of both reconcilers, amended with the proviso
that the candidate set carries pairwise-distinct external ids per entity
kind (in the light handler: distinct source:groupID keys across the
request; in the research handler: distinct item, annotation, comment and
note ids): the second of two identical runs on an untouched store reports
created = 0, updated = 0, deleted = 0 and unchanged = |C| for every
entity kind.  Without that proviso the property fails
(see the duplicate-id counterexample). -/
theorem C3_second_run_all_unchanged :
    (∀ (st : Store) (req : LightSyncRequest), st.WF → (lightEids req).Nodup →
      (syncHighlights (syncHighlights st req).1 req).2.1
        = ⟨0, 0, 0, 0, (lightEids req).length⟩) ∧
    (∀ (st : Store) (db : ResearchDb) (items : List ResearchItem), st.WF →
      (resEids items).Nodup → (annEidsR db items).Nodup →
      (comEidsR db items).Nodup → (noteEidsR db items).Nodup →
      (syncAllEntities (syncAllEntities st db items).1 db items).2.1
        = buildRSyncResponse ⟨0, 0, 0, (resEids items).length⟩
            ⟨0, 0, 0, (annEidsR db items).length⟩
            ⟨0, 0, 0, (comEidsR db items).length⟩
            ⟨0, 0, 0, (noteEidsR db items).length⟩) :=
  ⟨light_second_run, research_second_run⟩

/-- Two highlights sharing one groupID (hence one external id) but with
different text: the flip-flop makes the second run report 2 updates and 0
unchanged rows instead of 0 and 2. -/
def c3CexReq : LightSyncRequest :=
  { source := "s", scope := none,
    highlights := [("u",
      [{ chunks := [], date := "", group_id := 1, repr := "a", url := "u" },
       { chunks := [], date := "", group_id := 1, repr := "b", url := "u" }])] }

/-- Counterexample to the unamended claim C3: with a duplicated external
id in the candidate set the second identical light sync returns
updated = 2 and unchanged = 0, not updated = 0 and unchanged = |C|. -/
theorem C3_duplicate_ids_cex :
    (syncHighlights (syncHighlights emptyStore c3CexReq).1 c3CexReq).2.1.annotations_updated
        = 2 ∧
    (syncHighlights (syncHighlights emptyStore c3CexReq).1 c3CexReq).2.1.annotations_unchanged
        = 0 := by
  constructor
  · decide
  · decide

def c3WitReq : LightSyncRequest :=
  { source := "s", scope := none,
    highlights := [("u",
      [{ chunks := [], date := "", group_id := 1, repr := "a", url := "u" }])] }

def c3WitDb : ResearchDb :=
  { annotations := [{ item_id := "i", id := "a1", text := "t", color := none,
                      page_number := none, position := none }],
    comments := [{ annotation_id := "a1", id := "c1", content := "cc" }],
    notes := [{ item_id := "i", id := "n1", content := "nn" }] }

def c3WitItems : List ResearchItem := [{ id := "i", title := "T" }]

/-- Witness for C3 at a one-highlight light request and a one-item
research database. -/
theorem C3_witness :
    (emptyStore.WF ∧ (lightEids c3WitReq).Nodup ∧
      (syncHighlights (syncHighlights emptyStore c3WitReq).1 c3WitReq).2.1
        = ⟨0, 0, 0, 0, (lightEids c3WitReq).length⟩) ∧
    (emptyStore.WF ∧ (resEids c3WitItems).Nodup ∧ (annEidsR c3WitDb c3WitItems).Nodup ∧
      (comEidsR c3WitDb c3WitItems).Nodup ∧ (noteEidsR c3WitDb c3WitItems).Nodup ∧
      (syncAllEntities (syncAllEntities emptyStore c3WitDb c3WitItems).1
          c3WitDb c3WitItems).2.1
        = buildRSyncResponse ⟨0, 0, 0, (resEids c3WitItems).length⟩
            ⟨0, 0, 0, (annEidsR c3WitDb c3WitItems).length⟩
            ⟨0, 0, 0, (comEidsR c3WitDb c3WitItems).length⟩
            ⟨0, 0, 0, (noteEidsR c3WitDb c3WitItems).length⟩) :=
  ⟨⟨by decide, by decide,
    C3_second_run_all_unchanged.1 emptyStore c3WitReq (by decide) (by decide)⟩,
   ⟨by decide, by decide, by decide, by decide, by decide,
    C3_second_run_all_unchanged.2 emptyStore c3WitDb c3WitItems (by decide) (by decide)
      (by decide) (by decide) (by decide)⟩⟩
